import Mathlib

/-!
# Example rendering (`mmv1/api/resource/examples.go`)

A shallow embedding of the example-rendering pipeline: the `Examples` record,
the variable mappings installed for the documentation, test and cloud-shell
renders, reference validation, and the text post-processing steps.

Modelling conventions.
* A Go `string` is a sequence of bytes: `GoString := List Nat`, one number per
  byte; `len` is `List.length` and `s[:n]` is `List.take n`.  The literals of the
  source are ASCII and are written `str "..."`.
* A Go `map[string]string` is a finite map with unique keys (`AList`).  A
  `range` loop is a fold over the entries; the theorems hold for every order of
  the entries, hence for every iteration order Go may choose.
* `log.Fatalf` / `glog.Exit` end the process: the functions that can reach them
  return `Except Fatal _`.
* The file system and the `text/template` engine are parameters (`World`).
* The regular expressions of the source are ASCII-only and have a single way to
  match at a given position, so each is embedded as a function giving the length
  of the match at the head of a text.
-/

namespace MagicModules

/-! ## Strings -/

/-- A Go string: its bytes. -/
abbrev GoString := List Nat

/-- The bytes of an ASCII literal of the source. -/
def str (s : String) : GoString := s.toList.map Char.toNat

/-- Go `strings.Contains(s, substr)`. -/
def Contains (s substr : GoString) : Bool := decide (substr <:+: s)

/-- Go `strings.HasSuffix(s, suffix)`. -/
def HasSuffix (s suffix : GoString) : Bool := decide (suffix <:+ s)

/-- The number of characters of a UTF-8 text, the measure in which the
specification states lengths: every byte that is not a continuation byte
`10xxxxxx` begins a character.  Go `len` and the slice `newVal[:54]` count bytes. -/
def characterCount (s : GoString) : Nat :=
  (s.filter (fun b => !(128 ≤ b && b < 192))).length

/-- Scanning engine shared by `strings.ReplaceAll` and `Regexp.ReplaceAllString`
(with a replacement free of `$`): `m t` is the length of the match at the head of
`t`, if any.  Matches are searched left to right and do not overlap; the first
argument counts the bytes of the current match that are still to be skipped. -/
def replaceMatchesAux (m : GoString → Option Nat) (new : GoString) :
    Nat → GoString → GoString
  | _, [] => []
  | k + 1, _ :: s => replaceMatchesAux m new k s
  | 0, c :: s =>
    match m (c :: s) with
    | some (n + 1) => new ++ replaceMatchesAux m new n s
    | _ => c :: replaceMatchesAux m new 0 s

/-- Replace every match of `m`, found left to right, by `new`. -/
def replaceMatches (m : GoString → Option Nat) (new : GoString) (s : GoString) : GoString :=
  replaceMatchesAux m new 0 s

/-- A literal pattern as a matcher. -/
def literal (old : GoString) (t : GoString) : Option Nat :=
  if old <+: t then some old.length else none

/-- Go `strings.ReplaceAll(s, old, new)` for a non-empty `old` (every call of the
source passes a non-empty literal).  With an empty `old` Go inserts `new` around
every rune; that case is not used and is left as the identity here. -/
def ReplaceAll (s old new : GoString) : GoString :=
  replaceMatches (literal old) new s

/-! ## The regular expressions of the source -/

/-- The class `[a-zA-Z_]`. -/
def isNameChar (c : Nat) : Bool :=
  (97 ≤ c && c ≤ 122) || (65 ≤ c && c ≤ 90) || c == 95

/-- The class `[a-zA-Z_ ]`. -/
def isTagChar (c : Nat) : Bool :=
  isNameChar c || c == 32

/-- Length of the match of `# \[[a-zA-Z_ ]+\]` at the head of the text.  The
class contains neither `]` nor `#`, so the greedy run is the only candidate. -/
def matchTag (t : GoString) : Option Nat :=
  if str "# [" <+: t then
    let body := (t.drop 3).takeWhile isTagChar
    if body ≠ [] ∧ (t.drop (3 + body.length)).head? = some 93 then
      some (3 + body.length + 1)
    else none
  else none

/-- The matcher of `re1`, the expression `# \[[a-zA-Z_ ]+\]\n`. -/
def re1 (t : GoString) : Option Nat :=
  match matchTag t with
  | some n => if (t.drop n).head? = some 10 then some (n + 1) else none
  | none => none

/-- The matcher of `re2`, the expression `\n# \[[a-zA-Z_ ]+\]`. -/
def re2 (t : GoString) : Option Nat :=
  match t with
  | 10 :: t' => (matchTag t').map (· + 1)
  | _ => none

/-- The matcher of `\n\n$`: without the multi-line flag `$` is the end of the
text. -/
def trailingBlank (t : GoString) : Option Nat :=
  if t = [10, 10] then some 2 else none

/-- The step `regexp.MustCompile("\n\n$").ReplaceAllString(text, "\n")`. -/
def collapseTrailingBlank (text : GoString) : GoString :=
  replaceMatches trailingBlank [10] text

/-- The two steps under "Remove region tags":
`re1.ReplaceAllString(text, "")` followed by `re2.ReplaceAllString(text, "")`. -/
def removeRegionTags (text : GoString) : GoString :=
  replaceMatches re2 [] (replaceMatches re1 [] text)

/-- The literal `"}}` that closes a reference. -/
def refClose : GoString := str "\"\x7d\x7d"

/-- Match of a reference expression `lit([a-zA-Z_]*)"}}` at the head of the text:
the length of the match and the captured name.  The argument `lit` is the literal
part before the capture group. -/
def matchRef (lit : GoString) (t : GoString) : Option (Nat × GoString) :=
  if lit <+: t then
    let name := (t.drop lit.length).takeWhile isNameChar
    if refClose <+: t.drop (lit.length + name.length) then
      some (lit.length + name.length + 3, name)
    else none
  else none

/-- Go `r.FindAllStringSubmatch(contents, -1)`, keeping of each match its first
capture group `v[1]`. -/
def findAllSubmatchAux (m : GoString → Option (Nat × GoString)) :
    Nat → GoString → List GoString
  | _, [] => []
  | k + 1, _ :: s => findAllSubmatchAux m k s
  | 0, c :: s =>
    match m (c :: s) with
    | some (n + 1, v) => v :: findAllSubmatchAux m n s
    | _ => findAllSubmatchAux m 0 s

/-- The captured names of all matches, in the order of the text. -/
def FindAllStringSubmatch (m : GoString → Option (Nat × GoString)) (contents : GoString) :
    List GoString :=
  findAllSubmatchAux m 0 contents

/-- The literal part of `envVarRegex`, the expression
`{{index \$\.TestEnvVars "([a-zA-Z_]*)"}}`. -/
def envVarOpen : GoString := str "\x7b\x7bindex $.TestEnvVars \""

/-- The literal part of `varRegex`, the expression `{{index \$\.Vars "([a-zA-Z_]*)"}}`. -/
def varOpen : GoString := str "\x7b\x7bindex $.Vars \""

/-- The matcher of `envVarRegex`. -/
def envVarRegex : GoString → Option (Nat × GoString) := matchRef envVarOpen

/-- The matcher of `varRegex`. -/
def varRegex : GoString → Option (Nat × GoString) := matchRef varOpen

/-! ## Maps -/

/-- A Go `map[string]string`. -/
abbrev GoMap := AList (fun _ : GoString => GoString)

/-- Go `m[k]`: the zero value `""` for a missing key. -/
def GoMap.index (m : GoMap) (k : GoString) : GoString := (m.lookup k).getD []

/-- A map literal. -/
def GoMap.ofList (l : List (GoString × GoString)) : GoMap :=
  l.foldl (fun acc kv => acc.insert kv.1 kv.2) ∅

/-- The loop `for key, value := range m { acc[key] = f key value }`. -/
def GoMap.rangeSet (m : GoMap) (f : GoString → GoString → GoString) (acc : GoMap) : GoMap :=
  m.entries.foldl (fun a kv => a.insert kv.1 (f kv.1 kv.2)) acc

/-! ## The record -/

/-- The Go struct `IamMember`. -/
structure IamMember where
  Member : GoString
  Role : GoString
deriving DecidableEq

/-- The Go struct `Examples`, field by field. -/
structure Examples where
  Name : GoString
  PrimaryResourceId : GoString
  PrimaryResourceType : GoString
  BootstrapIam : List IamMember
  Vars : GoMap
  TestEnvVars : GoMap
  TestVarsOverrides : GoMap
  OicsVarsOverrides : GoMap
  MinVersion : GoString
  IgnoreReadExtra : List GoString
  ExcludeTest : Bool
  ExcludeDocs : Bool
  ExcludeImportTest : Bool
  PrimaryResourceName : GoString
  RegionOverride : GoString
  ConfigPath : GoString
  SkipVcr : Bool
  SkipTest : GoString
  ExternalProviders : List GoString
  DocumentationHCLText : GoString
  TestHCLText : GoString
  OicsHCLText : GoString
  TGCTestIgnoreExtra : List GoString
  TGCTestIgnoreInAsset : List GoString
  TGCSkipTest : GoString
deriving DecidableEq

/-- The ways the process is ended (`log.Fatalf`, `glog.Exit`). -/
inductive Fatal where
  /-- `Validate`: "Missing `name` for one example in resource %s". -/
  | missingName (rName : GoString)
  /-- `validateRegexForContents`: "Failed to find %s environment variable defined
  in YAML file when validating the file %s. Please define this in %s". -/
  | undefinedVariable (name configPath objName : GoString)
  /-- `ValidateExternalProviders`: "Providers %#v are not allowed. ...". -/
  | unallowedProviders (providers : List GoString)
  /-- `ExecuteTemplate`: `os.ReadFile` failed. -/
  | readFile (configPath : GoString)
  /-- `ExecuteTemplate`: parsing or executing the template failed. -/
  | template (configPath : GoString)
deriving DecidableEq

/-- What the code takes from outside: the file system and the template engine. -/
structure World where
  /-- `os.ReadFile(path)`; `none` for an error. -/
  readFile : GoString → Option GoString
  /-- `template.New(filepath.Base(path)).Funcs(google.TemplateFunctions).Parse(text)`
  followed by `tmpl.ExecuteTemplate(&contents, filepath.Base(path), e)`: the bytes
  written, or `none` when either step returns an error. -/
  execute : GoString → GoString → Examples → Option GoString

/-! ## Validation of references and template execution -/

/-- The loop of `validateRegexForContents` over the matches: the inner loop sets
`found` when some key of `vars` equals `v[1]`; a match that is not found ends the
process. -/
def validateMatches (configPath objName : GoString) (vars : GoMap) :
    List GoString → Except Fatal Unit
  | [] => .ok ()
  | v :: rest =>
    if vars.keys.any (fun k => k == v) then validateMatches configPath objName vars rest
    else .error (.undefinedVariable v configPath objName)

/-- The Go function `validateRegexForContents`. -/
def validateRegexForContents (r : GoString → Option (Nat × GoString)) (contents : GoString)
    (configPath objName : GoString) (vars : GoMap) : Except Fatal Unit :=
  validateMatches configPath objName vars (FindAllStringSubmatch r contents)

/-- The Go method `ExecuteTemplate`. -/
def ExecuteTemplate (w : World) (e : Examples) : Except Fatal GoString :=
  match w.readFile e.ConfigPath with
  | none => .error (.readFile e.ConfigPath)
  | some fileContentString =>
    match validateRegexForContents envVarRegex fileContentString e.ConfigPath
        (str "test_env_vars") e.TestEnvVars with
    | .error err => .error err
    | .ok () =>
      match validateRegexForContents varRegex fileContentString e.ConfigPath
          (str "vars") e.Vars with
      | .error err => .error err
      | .ok () =>
        match w.execute e.ConfigPath fileContentString e with
        | none => .error (.template e.ConfigPath)
        | some rs => .ok (if HasSuffix rs (str "\n") then rs else rs ++ str "\n")

/-! ## Path substitution -/

/-- The Go function `SubstituteExamplePaths`. -/
def SubstituteExamplePaths (config : GoString) : GoString :=
  let config := ReplaceAll config (str "../static/img/header-logo.png") (str "../static/header-logo.png")
  let config := ReplaceAll config (str "path/to/private.key") (str "../static/ssl_cert/test.key")
  let config := ReplaceAll config (str "path/to/id_rsa.pub") (str "../static/ssh_rsa.pub")
  let config := ReplaceAll config (str "path/to/certificate.crt") (str "../static/ssl_cert/test.crt")
  config

/-- The Go function `SubstituteTestPaths`. -/
def SubstituteTestPaths (config : GoString) : GoString :=
  let config := ReplaceAll config (str "../static/img/header-logo.png") (str "test-fixtures/header-logo.png")
  let config := ReplaceAll config (str "path/to/private.key") (str "test-fixtures/test.key")
  let config := ReplaceAll config (str "path/to/certificate.crt") (str "test-fixtures/test.crt")
  let config := ReplaceAll config (str "path/to/index.zip") (str "%{zip_path}")
  let config := ReplaceAll config (str "verified-domain.com")
    (str "tf-test-domain%{random_suffix}.gcp.tfacc.hashicorptest.com")
  let config := ReplaceAll config (str "path/to/id_rsa.pub") (str "test-fixtures/ssh_rsa.pub")
  config

/-! ## The variable mappings and the renders -/

/-- The table `docs_defaults`. -/
def docs_defaults : GoMap := GoMap.ofList [
  (str "PROJECT_NAME", str "my-project-name"),
  (str "PROJECT_NUMBER", str "1111111111111"),
  (str "CREDENTIALS", str "my/credentials/filename.json"),
  (str "REGION", str "us-west1"),
  (str "ORG_ID", str "123456789"),
  (str "ORG_DOMAIN", str "example.com"),
  (str "ORG_TARGET", str "123456789"),
  (str "BILLING_ACCT", str "000000-0000000-0000000-000000"),
  (str "MASTER_BILLING_ACCT", str "000000-0000000-0000000-000000"),
  (str "SERVICE_ACCT", str "my@service-account.com"),
  (str "CUST_ID", str "A01b123xz"),
  (str "IDENTITY_USER", str "cloud_identity_user"),
  (str "PAP_DESCRIPTION", str "description"),
  (str "CHRONICLE_ID", str "00000000-0000-0000-0000-000000000000"),
  (str "VMWAREENGINE_PROJECT", str "my-vmwareengine-project")]

/-- The map `docTestEnvVars` after the loop "Apply doc defaults to test_env_vars
from YAML": `docTestEnvVars[key] = docs_defaults[e.TestEnvVars[key]]`. -/
def docTestEnvVars (TestEnvVars : GoMap) : GoMap :=
  TestEnvVars.rangeSet (fun key _ => docs_defaults.index (TestEnvVars.index key)) ∅

/-- The body of the loop over `originalVars`: the value stored for `value`. -/
def testValue (value : GoString) : GoString :=
  let newVal :=
    if Contains value (str "-") then str "tf-test-" ++ value
    else if Contains value (str "_") then str "tf_test_" ++ value
    else value
  let newVal := if newVal.length > 54 then newVal.take 54 else newVal
  newVal ++ str "%{random_suffix}"

/-- The format `"%%{%s}"` applied to `key`. -/
def placeholder (key : GoString) : GoString := str "%\x7b" ++ key ++ str "\x7d"

/-- The map `testVars` of `SetHCLText` after the loop over `originalVars` and the
loop "Apply overrides from YAML". -/
def testVars (originalVars TestVarsOverrides : GoMap) : GoMap :=
  TestVarsOverrides.rangeSet (fun key _ => placeholder key)
    (originalVars.rangeSet (fun _ value => testValue value) ∅)

/-- The map `testTestEnvVars` after the loop over `originalTestEnvVars`. -/
def testTestEnvVars (originalTestEnvVars : GoMap) : GoMap :=
  originalTestEnvVars.rangeSet (fun key _ => placeholder key) ∅

/-- The Go method `SetHCLText`; the result is the record after the call. -/
def SetHCLText (w : World) (e : Examples) : Except Fatal Examples :=
  let originalVars := e.Vars
  let originalTestEnvVars := e.TestEnvVars
  let e := { e with TestEnvVars := docTestEnvVars e.TestEnvVars }
  match ExecuteTemplate w e with
  | .error err => .error err
  | .ok text =>
    let e := { e with DocumentationHCLText := text }
    let e := { e with DocumentationHCLText := collapseTrailingBlank e.DocumentationHCLText }
    let e := { e with DocumentationHCLText := replaceMatches re1 [] e.DocumentationHCLText }
    let e := { e with DocumentationHCLText := replaceMatches re2 [] e.DocumentationHCLText }
    let testVars := testVars originalVars e.TestVarsOverrides
    let testTestEnvVars := testTestEnvVars originalTestEnvVars
    let e := { e with Vars := testVars }
    let e := { e with TestEnvVars := testTestEnvVars }
    match ExecuteTemplate w e with
    | .error err => .error err
    | .ok text =>
      let e := { e with TestHCLText := text }
      let e := { e with TestHCLText := collapseTrailingBlank e.TestHCLText }
      let e := { e with TestHCLText := replaceMatches re1 [] e.TestHCLText }
      let e := { e with TestHCLText := replaceMatches re2 [] e.TestHCLText }
      let e := { e with TestHCLText := SubstituteTestPaths e.TestHCLText }
      .ok { e with Vars := originalVars, TestEnvVars := originalTestEnvVars }

/-- The map `testVars` of `SetOiCSHCLText` after its two loops. -/
def oicsVars (originalVars OicsVarsOverrides : GoMap) : GoMap :=
  OicsVarsOverrides.rangeSet (fun _ value => value)
    (originalVars.rangeSet (fun _ value => value ++ str "-$\x7blocal.name_suffix\x7d") ∅)

/-- The Go method `SetOiCSHCLText`; the result is the record after the call. -/
def SetOiCSHCLText (w : World) (e : Examples) : Except Fatal Examples :=
  let originalVars := e.Vars
  let originalTestEnvVars := e.TestEnvVars
  let e := { e with Vars := oicsVars originalVars e.OicsVarsOverrides }
  match ExecuteTemplate w e with
  | .error err => .error err
  | .ok text =>
    let e := { e with OicsHCLText := text }
    let e := { e with OicsHCLText := collapseTrailingBlank e.OicsHCLText }
    let e := { e with OicsHCLText := replaceMatches re1 [] e.OicsHCLText }
    let e := { e with OicsHCLText := replaceMatches re2 [] e.OicsHCLText }
    let e := { e with OicsHCLText := SubstituteExamplePaths e.OicsHCLText }
    .ok { e with Vars := originalVars, TestEnvVars := originalTestEnvVars }

/-! ## Deserialization, validation of the record, resource type -/

/-- The Go method `UnmarshalYAML`.  The argument `unmarshal` is the decoder handed
in by the YAML library: the record after decoding into it, and the error it
returns, if any.  The result is the record after the call and the returned
error. -/
def UnmarshalYAML (w : World) (unmarshal : Examples → Examples × Option GoString)
    (e : Examples) : Except Fatal (Examples × Option GoString) :=
  match unmarshal e with
  | (e, some err) => .ok (e, some err)
  | (e, none) =>
    let e :=
      if e.ConfigPath = [] then
        { e with ConfigPath := str "templates/terraform/examples/" ++ e.Name ++ str ".tf.tmpl" }
      else e
    match SetHCLText w e with
    | .error err => .error err
    | .ok e => .ok (e, none)

/-- The list `HASHICORP_PROVIDERS` of `ValidateExternalProviders`. -/
def HASHICORP_PROVIDERS : List GoString :=
  [str "aws", str "random", str "null", str "template", str "azurerm", str "kubernetes",
   str "local", str "external", str "time", str "vault", str "archive", str "tls", str "helm",
   str "azuread", str "http", str "cloudinit", str "tfe", str "dns", str "consul",
   str "vsphere", str "nomad", str "awscc", str "googleworkspace", str "hcp", str "boundary",
   str "ad", str "azurestack", str "opc", str "oraclepaas", str "hcs", str "salesforce"]

/-- The Go method `ValidateExternalProviders`; the result is the record after the
call. -/
def ValidateExternalProviders (e : Examples) : Except Fatal Examples :=
  let unallowedProviders :=
    e.ExternalProviders.filter (fun p => !(HASHICORP_PROVIDERS.contains p))
  if unallowedProviders.length > 0 then .error (.unallowedProviders unallowedProviders)
  else .ok e

/-- The Go method `Validate`; the result is the record after the call. -/
def Validate (e : Examples) (rName : GoString) : Except Fatal Examples :=
  if e.Name = [] then .error (.missingName rName)
  else ValidateExternalProviders e

/-- The Go method `ResourceType`. -/
def ResourceType (e : Examples) (terraformName : GoString) : GoString :=
  if e.PrimaryResourceType ≠ [] then e.PrimaryResourceType
  else terraformName

/-! ## Sample inputs -/

/-- A record with every field empty. -/
def emptyExample : Examples :=
  { Name := [], PrimaryResourceId := [], PrimaryResourceType := [], BootstrapIam := [],
    Vars := ∅, TestEnvVars := ∅, TestVarsOverrides := ∅, OicsVarsOverrides := ∅,
    MinVersion := [], IgnoreReadExtra := [], ExcludeTest := false, ExcludeDocs := false,
    ExcludeImportTest := false, PrimaryResourceName := [], RegionOverride := [],
    ConfigPath := [], SkipVcr := false, SkipTest := [], ExternalProviders := [],
    DocumentationHCLText := [], TestHCLText := [], OicsHCLText := [],
    TGCTestIgnoreExtra := [], TGCTestIgnoreInAsset := [], TGCSkipTest := [] }

/-- Sample `vars`: a value with a hyphen, one with an underscore, one with neither
and one of 59 bytes. -/
def sampleVars : GoMap := GoMap.ofList [
  (str "network", str "my-vpc"),
  (str "subnet", str "my_network"),
  (str "description", str "description text"),
  (str "long", str "a-name-that-is-much-longer-than-the-standard-limit-of-names")]

/-- Sample `test_env_vars`. -/
def sampleTestEnvVars : GoMap := GoMap.ofList [
  (str "project", str "PROJECT_NAME"),
  (str "region", str "REGION"),
  (str "org_id", str "ORG_ID"),
  (str "other", str "NOT_A_CATEGORY")]

/-- Sample overrides: one key of `sampleVars`, one key that is not declared. -/
def sampleOverrides : GoMap := GoMap.ofList [
  (str "network", str "nameOfVpc()"),
  (str "extra", str "literal")]

/-- A file system with one text under every path and an engine that writes the
template text as it is. -/
def echoWorld (text : GoString) : World :=
  { readFile := fun _ => some text, execute := fun _ content _ => some content }

/-- A record with the sample mappings. -/
def sampleExample : Examples :=
  { emptyExample with
    Name := str "network_basic", ConfigPath := str "templates/terraform/examples/network_basic.tf.tmpl",
    Vars := sampleVars, TestEnvVars := sampleTestEnvVars, TestVarsOverrides := sampleOverrides,
    OicsVarsOverrides := sampleOverrides }

/-- A template that refers to a variable and to a test-env-var. -/
def sampleTemplate : GoString :=
  str "# [START x]\nnetwork = \x7b\x7bindex $.Vars \"network\"\x7d\x7d\nproject = \x7b\x7bindex $.TestEnvVars \"project\"\x7d\x7d\n# [END x]\n\n"

/-- A template that refers to `project` in the `Vars` syntax; the sample record
declares `project` in `TestEnvVars` only. -/
def crossTemplate : GoString :=
  str "network = \x7b\x7bindex $.Vars \"network\"\x7d\x7d\nproject = \x7b\x7bindex $.Vars \"project\"\x7d\x7d\n"

/-- The UTF-8 bytes of `a` followed by 27 times `é` (U+00E9, bytes `C3 A9`): a
value of 28 characters in 55 bytes, without hyphen or underscore. -/
def accentedValue : GoString := 97 :: (List.replicate 27 [195, 169]).flatten

/-- The UTF-8 bytes of `é` followed by 54 times `a`: a value of 55 characters in
56 bytes, without hyphen or underscore. -/
def accentedLong : GoString := 195 :: 169 :: List.replicate 54 97

/-- A template whose only reference is to `net2`, a name with a digit. -/
def digitTemplate : GoString := str "x = \x7b\x7bindex $.Vars \"net2\"\x7d\x7d\n"

/-- The same template with the name `net` in place of `net2`. -/
def letterTemplate : GoString := str "x = \x7b\x7bindex $.Vars \"net\"\x7d\x7d\n"

/-- A record that declares the variable `x` only. -/
def digitExample : Examples :=
  { sampleExample with Vars := GoMap.ofList [(str "x", str "1")] }

/-- A world whose template file holds `digitTemplate` and whose engine writes
`"x = \n"` for it: `index` of a map at a key it does not hold is the empty text. -/
def digitWorld : World :=
  { readFile := fun _ => some digitTemplate, execute := fun _ _ _ => some (str "x = \n") }

/-! ## Conditions on placeholders and on tag lines -/

/-- No match of `old` starts inside an occurrence of `mid`, unless the bytes that
follow the occurrence begin with one of the texts of `after`. -/
def startsClear (old mid : GoString) (after : List GoString) : Prop :=
  ∀ i, i < mid.length →
    ¬ old <+: mid.drop i ∧ (mid.drop i <+: old → old.drop (mid.length - i) ∈ after)

instance (old mid : GoString) (after : List GoString) : Decidable (startsClear old mid after) := by
  unfold startsClear; infer_instance

/-- No match of `old` that starts before an occurrence of `mid` reaches into it,
unless the bytes before the occurrence end with one of the texts of `before`. -/
def endsClear (old mid : GoString) (before : List GoString) : Prop :=
  ∀ j, j < old.length → 0 < j →
    (old.drop j <+: mid ∨ mid <+: old.drop j) → old.take j ∈ before

instance (old mid : GoString) (before : List GoString) : Decidable (endsClear old mid before) := by
  unfold endsClear; infer_instance

/-- The text `q` and the replacement `new` cannot share a position when `q` is
read from its first byte on. -/
def prefixClear (new q : GoString) : Prop :=
  ∀ j, j < q.length → ¬ q.drop j <+: new ∧ ¬ new <+: q.drop j

instance (new q : GoString) : Decidable (prefixClear new q) := by
  unfold prefixClear; infer_instance

/-- The text `q` neither contains the replacement `new` nor begins with an end
piece of it. -/
def suffixClear (new q : GoString) : Prop :=
  (∀ i, i < new.length → ¬ new.drop i <+: q) ∧ (∀ j, j < q.length + 1 → ¬ new <+: q.drop j)

instance (new q : GoString) : Decidable (suffixClear new q) := by
  unfold suffixClear; infer_instance

/-- The position after `pre` starts a line; `first` tells whether the start of
the text counts as one. -/
def lineStart (first : Bool) (pre : GoString) : Prop :=
  (pre = [] ∧ first = true) ∨ pre.getLast? = some 10

/-- Every match of the tag expression in the text starts a line and is followed
by a line terminator or by the end of the text. -/
def markersOnLines (first : Bool) (t : GoString) : Prop :=
  ∀ pre post n, t = pre ++ post → matchTag post = some n →
    lineStart first pre ∧ (post.drop n = [] ∨ (post.drop n).head? = some 10)

/-- Every match of the tag expression in the text starts a line and ends the
text. -/
def markersAtEnd (first : Bool) (s : GoString) : Prop :=
  ∀ pre post n, s = pre ++ post → matchTag post = some n →
    lineStart first pre ∧ post.drop n = []

/-- No end piece of the text has a match of `re1` or of `re2`. -/
def noRegionTag (u : GoString) : Prop :=
  ∀ pre post, u = pre ++ post → re1 post = none ∧ re2 post = none

/-! # Theorems -/

/-! ## Lemmas on maps and strings -/

theorem foldl_insert_lookup (f : GoString → GoString → GoString) (k : GoString) :
    ∀ (l : List (Sigma fun _ : GoString => GoString)) (acc : GoMap), l.NodupKeys →
      (l.foldl (fun a kv => a.insert kv.1 (f kv.1 kv.2)) acc).lookup k =
        match l.dlookup k with
        | some v => some (f k v)
        | none => acc.lookup k := by
  intro l
  induction l with
  | nil => intro acc _; rfl
  | cons kv l ih =>
    intro acc hnd
    obtain ⟨a, b⟩ := kv
    rw [List.nodupKeys_cons] at hnd
    rw [List.foldl_cons, ih _ hnd.2]
    by_cases hak : a = k
    · subst hak
      have hnone : l.dlookup a = none := List.dlookup_eq_none.mpr hnd.1
      simp [hnone, List.dlookup_cons_eq, AList.lookup_insert]
    · have hka : k ≠ a := fun h => hak h.symm
      rw [List.dlookup_cons_ne _ _ hka]
      cases hl : l.dlookup k with
      | some v => rfl
      | none => simp [AList.lookup_insert_ne hka]

/-- What a `range` loop of assignments leaves under a key. -/
theorem rangeSet_lookup (m acc : GoMap) (f : GoString → GoString → GoString) (k : GoString) :
    (m.rangeSet f acc).lookup k =
      match m.lookup k with
      | some v => some (f k v)
      | none => acc.lookup k :=
  foldl_insert_lookup f k m.entries acc m.nodupKeys

theorem rangeSet_lookup_of_some (m acc : GoMap) (f : GoString → GoString → GoString)
    (k v : GoString) (h : m.lookup k = some v) :
    (m.rangeSet f acc).lookup k = some (f k v) := by
  rw [rangeSet_lookup, h]

theorem rangeSet_lookup_of_not_mem (m acc : GoMap) (f : GoString → GoString → GoString)
    (k : GoString) (h : k ∉ m) :
    (m.rangeSet f acc).lookup k = acc.lookup k := by
  rw [rangeSet_lookup, AList.lookup_eq_none.mpr h]

theorem lookup_of_mem (m : GoMap) (k : GoString) (h : k ∈ m) : ∃ v, m.lookup k = some v :=
  Option.isSome_iff_exists.mp (AList.lookup_isSome.mpr h)

theorem index_of_lookup (m : GoMap) (k v : GoString) (h : m.lookup k = some v) :
    m.index k = v := by
  simp [GoMap.index, h]

theorem index_of_not_mem (m : GoMap) (k : GoString) (h : k ∉ m) : m.index k = [] := by
  simp [GoMap.index, AList.lookup_eq_none.mpr h]

theorem singleton_infix_iff_mem (a : Nat) (l : GoString) : [a] <:+: l ↔ a ∈ l := by
  constructor
  · rintro ⟨s, t, rfl⟩
    simp
  · intro h
    obtain ⟨s, t, rfl⟩ := List.append_of_mem h
    exact ⟨s, t, by simp⟩

theorem contains_hyphen (value : GoString) : Contains value (str "-") = true ↔ 45 ∈ value := by
  have : str "-" = [45] := by decide
  simp [Contains, this, singleton_infix_iff_mem]

theorem contains_underscore (value : GoString) :
    Contains value (str "_") = true ↔ 95 ∈ value := by
  have : str "_" = [95] := by decide
  simp [Contains, this, singleton_infix_iff_mem]

/-- The value stored by the loop over `originalVars`, with the prefix spelled
out. -/
theorem testValue_eq (value : GoString) :
    testValue value =
      (if (if 45 ∈ value then str "tf-test-" else if 95 ∈ value then str "tf_test_" else []).length
            + value.length > 54 then
          ((if 45 ∈ value then str "tf-test-" else if 95 ∈ value then str "tf_test_" else [])
            ++ value).take 54
        else (if 45 ∈ value then str "tf-test-" else if 95 ∈ value then str "tf_test_" else [])
            ++ value) ++ str "%{random_suffix}" := by
  unfold testValue
  by_cases h1 : 45 ∈ value
  · have := (contains_hyphen value).mpr h1
    simp [this, h1]
  · have c1 : Contains value (str "-") = false := by
      rw [← Bool.not_eq_true, contains_hyphen]; exact h1
    by_cases h2 : 95 ∈ value
    · have := (contains_underscore value).mpr h2
      simp [this, h1, h2, c1]
    · have c2 : Contains value (str "_") = false := by
        rw [← Bool.not_eq_true, contains_underscore]; exact h2
      simp [h1, h2, c1, c2]

/-! ## The variable mappings (C1 to C4) -/

/-- C1. Test-variant mangling in `SetHCLText`: a variable of `Vars` with no entry
in `TestVarsOverrides` whose prefixed value has at most 54 bytes gets the test
value `pre ++ value ++ "%{random_suffix}"`, where `pre` is `"tf-test-"` when the
value contains a hyphen, else `"tf_test_"` when it contains an underscore, else
empty. -/
theorem C1_test_mangling (Vars TestVarsOverrides : GoMap) (k value pre : GoString)
    (hk : Vars.lookup k = some value) (hno : k ∉ TestVarsOverrides)
    (hpre : pre = if 45 ∈ value then str "tf-test-" else if 95 ∈ value then str "tf_test_" else [])
    (hlen : (pre ++ value).length ≤ 54) :
    (testVars Vars TestVarsOverrides).lookup k = some (pre ++ value ++ str "%{random_suffix}") := by
  unfold testVars
  rw [rangeSet_lookup_of_not_mem _ _ _ _ hno, rangeSet_lookup_of_some _ _ _ _ _ hk, testValue_eq,
    ← hpre]
  have : ¬ (pre.length + value.length > 54) := by
    rw [List.length_append] at hlen; omega
  rw [if_neg this]

/-- The three examples of C1, and a value with both a hyphen and an underscore. -/
theorem C1_test_mangling_witness :
    (testVars sampleVars ∅).lookup (str "network") = some (str "tf-test-my-vpc%{random_suffix}") ∧
    (testVars sampleVars ∅).lookup (str "subnet") = some (str "tf_test_my_network%{random_suffix}") ∧
    (testVars sampleVars ∅).lookup (str "description")
      = some (str "description text%{random_suffix}") ∧
    (testVars (GoMap.ofList [(str "both", str "a-b_c")]) ∅).lookup (str "both")
      = some (str "tf-test-a-b_c%{random_suffix}") :=
  ⟨C1_test_mangling sampleVars ∅ (str "network") (str "my-vpc") (str "tf-test-")
      (by decide) (by decide) (by decide) (by decide),
   C1_test_mangling sampleVars ∅ (str "subnet") (str "my_network") (str "tf_test_")
      (by decide) (by decide) (by decide) (by decide),
   C1_test_mangling sampleVars ∅ (str "description") (str "description text") []
      (by decide) (by decide) (by decide) (by decide),
   C1_test_mangling (GoMap.ofList [(str "both", str "a-b_c")]) ∅ (str "both") (str "a-b_c")
      (str "tf-test-") (by decide) (by decide) (by decide) (by decide)⟩

/-- Texts of ASCII bytes have as many characters as bytes. -/
theorem characterCount_eq_length (s : GoString) (h : ∀ b ∈ s, b < 128) :
    characterCount s = s.length := by
  unfold characterCount
  rw [List.filter_eq_self.mpr]
  intro b hb
  have := h b hb
  simp only [Bool.not_eq_true', Bool.and_eq_false_imp, decide_eq_true_eq, decide_eq_false_iff_not]
  intro h1
  omega

/-- C2 (as stated, refuted).  The value `a` followed by 27 times `é` has 28
characters and 55 bytes and takes no prefix: a form of 54 characters or fewer,
yet the stored value holds only its first 54 bytes, the last of them the first
byte of the last `é`.  The value `é` followed by 54 times `a` has 55 characters:
the stored value has 69 characters, not 70. -/
theorem C2_counterexample :
    (characterCount accentedValue = 28 ∧ accentedValue.length = 55 ∧
      Contains accentedValue (str "-") = false ∧ Contains accentedValue (str "_") = false ∧
      (testVars (GoMap.ofList [(str "label", accentedValue)]) ∅).lookup (str "label")
        = some (97 :: (List.replicate 26 [195, 169]).flatten ++ [195] ++ str "%{random_suffix}") ∧
      (testVars (GoMap.ofList [(str "label", accentedValue)]) ∅).lookup (str "label")
        ≠ some (accentedValue ++ str "%{random_suffix}")) ∧
    (characterCount accentedLong = 55 ∧
      Contains accentedLong (str "-") = false ∧ Contains accentedLong (str "_") = false ∧
      (testVars (GoMap.ofList [(str "label", accentedLong)]) ∅).lookup (str "label")
        = some (195 :: 169 :: List.replicate 52 97 ++ str "%{random_suffix}") ∧
      characterCount (195 :: 169 :: List.replicate 52 97 ++ str "%{random_suffix}") = 69) := by
  decide

/-- C2 (amended). Truncation in the test variant, with lengths in bytes: when
the prefixed value `mangled` of a variable has more than 54 bytes, the loop over
`originalVars` stores the first 54 bytes of `mangled` followed by
`"%{random_suffix}"`, a value of 70 bytes; when it has 54 bytes or fewer,
`mangled` is stored whole before the suffix.  The stored value is the one of the
test mapping unless the key has an override.  For a value of ASCII bytes the
prefixed value and both stored forms have as many characters as bytes. -/
theorem C2_truncation (Vars : GoMap) (k value mangled : GoString)
    (hk : Vars.lookup k = some value)
    (hm : mangled = (if 45 ∈ value then str "tf-test-" else if 95 ∈ value then str "tf_test_"
      else []) ++ value) :
    (54 < mangled.length →
      (Vars.rangeSet (fun _ v => testValue v) ∅).lookup k
          = some (mangled.take 54 ++ str "%{random_suffix}") ∧
        (mangled.take 54 ++ str "%{random_suffix}").length = 54 + (str "%{random_suffix}").length ∧
        (mangled.take 54 ++ str "%{random_suffix}").length = 70) ∧
    (mangled.length ≤ 54 →
      (Vars.rangeSet (fun _ v => testValue v) ∅).lookup k
          = some (mangled ++ str "%{random_suffix}")) ∧
    (∀ TestVarsOverrides : GoMap, k ∉ TestVarsOverrides →
      (testVars Vars TestVarsOverrides).lookup k
        = (Vars.rangeSet (fun _ v => testValue v) ∅).lookup k) ∧
    ((∀ b ∈ value, b < 128) →
      characterCount mangled = mangled.length ∧
      characterCount (mangled.take 54 ++ str "%{random_suffix}")
        = (mangled.take 54 ++ str "%{random_suffix}").length ∧
      characterCount (mangled ++ str "%{random_suffix}")
        = (mangled ++ str "%{random_suffix}").length) := by
  have hsuf : (str "%{random_suffix}").length = 16 := by decide
  have hlen : mangled.length = (if 45 ∈ value then str "tf-test-"
      else if 95 ∈ value then str "tf_test_" else []).length + value.length := by
    rw [hm, List.length_append]
  refine ⟨fun h => ⟨?_, ?_, ?_⟩, fun h => ?_, fun ov hno => ?_, fun hascii => ?_⟩
  · rw [rangeSet_lookup_of_some _ _ _ _ _ hk, testValue_eq, ← hlen, if_pos h, ← hm]
  · rw [List.length_append, List.length_take, hsuf]; omega
  · rw [List.length_append, List.length_take, hsuf]; omega
  · rw [rangeSet_lookup_of_some _ _ _ _ _ hk, testValue_eq, ← hlen, if_neg (by omega), ← hm]
  · unfold testVars
    rw [rangeSet_lookup_of_not_mem _ _ _ _ hno]
  · have hpre : ∀ b ∈ (if 45 ∈ value then str "tf-test-" else if 95 ∈ value then str "tf_test_"
        else []), b < 128 := by
      split_ifs
      · decide
      · decide
      · intro b hb; exact absurd hb (List.not_mem_nil b)
    have hmang : ∀ b ∈ mangled, b < 128 := by
      intro b hb
      rw [hm] at hb
      rcases List.mem_append.mp hb with h1 | h1
      · exact hpre b h1
      · exact hascii b h1
    have hsufb : ∀ b ∈ str "%{random_suffix}", b < 128 := by decide
    refine ⟨characterCount_eq_length _ hmang, characterCount_eq_length _ ?_,
      characterCount_eq_length _ ?_⟩
    · intro b hb
      rcases List.mem_append.mp hb with h1 | h1
      · exact hmang b (List.mem_of_mem_take h1)
      · exact hsufb b h1
    · intro b hb
      rcases List.mem_append.mp hb with h1 | h1
      · exact hmang b h1
      · exact hsufb b h1

/-- C2 (amended) at a value of 59 ASCII bytes with a hyphen (67 bytes once
prefixed): 54 bytes are kept, and bytes and characters agree. -/
theorem C2_truncation_witness :
    (sampleVars.rangeSet (fun _ v => testValue v) ∅).lookup (str "long")
      = some (str "tf-test-a-name-that-is-much-longer-than-the-standard-l%{random_suffix}") ∧
    characterCount
        ((str "tf-test-a-name-that-is-much-longer-than-the-standard-limit-of-names").take 54
          ++ str "%{random_suffix}")
      = ((str "tf-test-a-name-that-is-much-longer-than-the-standard-limit-of-names").take 54
          ++ str "%{random_suffix}").length :=
  ⟨((C2_truncation sampleVars (str "long")
      (str "a-name-that-is-much-longer-than-the-standard-limit-of-names")
      (str "tf-test-a-name-that-is-much-longer-than-the-standard-limit-of-names")
      (by decide) (by decide)).1 (by decide)).1,
   ((C2_truncation sampleVars (str "long")
      (str "a-name-that-is-much-longer-than-the-standard-limit-of-names")
      (str "tf-test-a-name-that-is-much-longer-than-the-standard-limit-of-names")
      (by decide) (by decide)).2.2.2 (by decide)).2.1⟩

/-- C3. Test-variant overrides: a key of `TestVarsOverrides` is mapped to
`"%{key}"`, whatever `Vars` holds for it and whether or not `Vars` declares it; a
key of `Vars` without an override keeps the value stored by the loop over
`originalVars`. -/
theorem C3_test_overrides (Vars TestVarsOverrides : GoMap) (k : GoString) :
    (k ∈ TestVarsOverrides →
      (testVars Vars TestVarsOverrides).lookup k = some (str "%\x7b" ++ k ++ str "\x7d")) ∧
    (k ∉ TestVarsOverrides → ∀ value, Vars.lookup k = some value →
      (testVars Vars TestVarsOverrides).lookup k = some (testValue value)) := by
  constructor
  · intro hmem
    obtain ⟨v, hv⟩ := lookup_of_mem _ _ hmem
    unfold testVars
    rw [rangeSet_lookup_of_some _ _ _ _ _ hv]
    rfl
  · intro hno value hk
    unfold testVars
    rw [rangeSet_lookup_of_not_mem _ _ _ _ hno, rangeSet_lookup_of_some _ _ _ _ _ hk]

/-- C3 at an overridden key of `Vars`, at an overridden key that `Vars` does not
declare, and at a key without an override. -/
theorem C3_test_overrides_witness :
    (testVars sampleVars sampleOverrides).lookup (str "network") = some (str "%{network}") ∧
    (testVars sampleVars sampleOverrides).lookup (str "extra") = some (str "%{extra}") ∧
    (testVars sampleVars sampleOverrides).lookup (str "subnet")
      = some (str "tf_test_my_network%{random_suffix}") :=
  ⟨(C3_test_overrides sampleVars sampleOverrides (str "network")).1 (by decide),
   (C3_test_overrides sampleVars sampleOverrides (str "extra")).1 (by decide),
   (C3_test_overrides sampleVars sampleOverrides (str "subnet")).2 (by decide)
      (str "my_network") (by decide)⟩

/-- C4. Test-variant test-env-vars: every key of `TestEnvVars` is mapped to
`"%{key}"`, whatever its category, and the mapping has no other key. -/
theorem C4_test_env_vars (TestEnvVars : GoMap) (k : GoString) :
    (k ∈ TestEnvVars →
      (testTestEnvVars TestEnvVars).lookup k = some (str "%\x7b" ++ k ++ str "\x7d")) ∧
    (k ∉ TestEnvVars → (testTestEnvVars TestEnvVars).lookup k = none) ∧
    (k ∈ testTestEnvVars TestEnvVars ↔ k ∈ TestEnvVars) := by
  have h1 : k ∈ TestEnvVars →
      (testTestEnvVars TestEnvVars).lookup k = some (str "%\x7b" ++ k ++ str "\x7d") := by
    intro hmem
    obtain ⟨v, hv⟩ := lookup_of_mem _ _ hmem
    unfold testTestEnvVars
    rw [rangeSet_lookup_of_some _ _ _ _ _ hv]
    rfl
  have h2 : k ∉ TestEnvVars → (testTestEnvVars TestEnvVars).lookup k = none := by
    intro hno
    unfold testTestEnvVars
    rw [rangeSet_lookup_of_not_mem _ _ _ _ hno]
    rfl
  refine ⟨h1, h2, ?_, ?_⟩
  · intro hmem
    by_contra hno
    exact (AList.lookup_eq_none.mp (h2 hno)) hmem
  · intro hmem
    rw [← AList.lookup_isSome, h1 hmem]
    rfl

/-- C4 at a key with a category of the table, a key with an unknown category and
a name that is no key. -/
theorem C4_test_env_vars_witness :
    (testTestEnvVars sampleTestEnvVars).lookup (str "project") = some (str "%{project}") ∧
    (testTestEnvVars sampleTestEnvVars).lookup (str "other") = some (str "%{other}") ∧
    (testTestEnvVars sampleTestEnvVars).lookup (str "absent") = none :=
  ⟨(C4_test_env_vars sampleTestEnvVars (str "project")).1 (by decide),
   (C4_test_env_vars sampleTestEnvVars (str "other")).1 (by decide),
   (C4_test_env_vars sampleTestEnvVars (str "absent")).2.1 (by decide)⟩

/-! ## The renders (C5 to C7) -/

/-- A successful `SetHCLText`, step by step: the documentation render runs on the
record with only `TestEnvVars` replaced, the test render on the record with both
mappings replaced, and the result differs from the argument in the two texts. -/
theorem SetHCLText_ok (w : World) (e e' : Examples) (h : SetHCLText w e = .ok e') :
    ∃ docRaw testRaw,
      ExecuteTemplate w { e with TestEnvVars := docTestEnvVars e.TestEnvVars } = .ok docRaw ∧
      ExecuteTemplate w { e with
          DocumentationHCLText := removeRegionTags (collapseTrailingBlank docRaw),
          Vars := testVars e.Vars e.TestVarsOverrides,
          TestEnvVars := testTestEnvVars e.TestEnvVars } = .ok testRaw ∧
      e' = { e with
          DocumentationHCLText := removeRegionTags (collapseTrailingBlank docRaw),
          TestHCLText := SubstituteTestPaths (removeRegionTags (collapseTrailingBlank testRaw)) } := by
  unfold SetHCLText at h
  simp only at h
  split at h
  · exact absurd h (by simp)
  · rename_i docRaw hdoc
    split at h
    · exact absurd h (by simp)
    · rename_i testRaw htest
      refine ⟨docRaw, testRaw, hdoc, htest, ?_⟩
      injection h with h
      exact h.symm

/-- A successful `SetOiCSHCLText`, step by step. -/
theorem SetOiCSHCLText_ok (w : World) (e e' : Examples) (h : SetOiCSHCLText w e = .ok e') :
    ∃ raw,
      ExecuteTemplate w { e with Vars := oicsVars e.Vars e.OicsVarsOverrides } = .ok raw ∧
      e' = { e with
          OicsHCLText := SubstituteExamplePaths (removeRegionTags (collapseTrailingBlank raw)) } := by
  unfold SetOiCSHCLText at h
  simp only at h
  split at h
  · exact absurd h (by simp)
  · rename_i raw hraw
    refine ⟨raw, hraw, ?_⟩
    injection h with h
    exact h.symm

/-- C5. Documentation variant: a key of `TestEnvVars` whose category is in
`docs_defaults` is mapped to the literal of the table, and the documentation
render of `SetHCLText` runs on the record in which only `TestEnvVars` is replaced,
so with the author-declared `Vars`. -/
theorem C5_doc_defaults :
    (∀ (TestEnvVars : GoMap) (k cat lit : GoString),
      TestEnvVars.lookup k = some cat → docs_defaults.lookup cat = some lit →
        (docTestEnvVars TestEnvVars).lookup k = some lit) ∧
    (docs_defaults.lookup (str "PROJECT_NAME") = some (str "my-project-name") ∧
      docs_defaults.lookup (str "REGION") = some (str "us-west1") ∧
      docs_defaults.lookup (str "ORG_ID") = some (str "123456789")) ∧
    (∀ (w : World) (e e' : Examples), SetHCLText w e = .ok e' →
      ∃ docRaw,
        ExecuteTemplate w { e with TestEnvVars := docTestEnvVars e.TestEnvVars } = .ok docRaw ∧
        ({ e with TestEnvVars := docTestEnvVars e.TestEnvVars } : Examples).Vars = e.Vars ∧
        e'.DocumentationHCLText = removeRegionTags (collapseTrailingBlank docRaw)) := by
  refine ⟨?_, by decide, ?_⟩
  · intro m k cat lit hk hcat
    unfold docTestEnvVars
    rw [rangeSet_lookup_of_some _ _ _ _ _ hk, index_of_lookup _ _ _ hk,
      index_of_lookup _ _ _ hcat]
  · intro w e e' h
    obtain ⟨docRaw, testRaw, hdoc, -, he⟩ := SetHCLText_ok w e e' h
    exact ⟨docRaw, hdoc, rfl, by rw [he]⟩

/-- C5 at the three categories it names, and on a render. -/
theorem C5_doc_defaults_witness :
    ((docTestEnvVars sampleTestEnvVars).lookup (str "project") = some (str "my-project-name") ∧
      (docTestEnvVars sampleTestEnvVars).lookup (str "region") = some (str "us-west1") ∧
      (docTestEnvVars sampleTestEnvVars).lookup (str "org_id") = some (str "123456789")) ∧
    ∃ docRaw,
      ExecuteTemplate (echoWorld (str "a"))
        { emptyExample with TestEnvVars := docTestEnvVars emptyExample.TestEnvVars } = .ok docRaw ∧
      ({ emptyExample with TestEnvVars := docTestEnvVars emptyExample.TestEnvVars } : Examples).Vars
        = emptyExample.Vars ∧
      ({ emptyExample with DocumentationHCLText := str "a\n", TestHCLText := str "a\n" } :
        Examples).DocumentationHCLText = removeRegionTags (collapseTrailingBlank docRaw) :=
  ⟨⟨C5_doc_defaults.1 sampleTestEnvVars (str "project") (str "PROJECT_NAME")
      (str "my-project-name") (by decide) (by decide),
    C5_doc_defaults.1 sampleTestEnvVars (str "region") (str "REGION") (str "us-west1")
      (by decide) (by decide),
    C5_doc_defaults.1 sampleTestEnvVars (str "org_id") (str "ORG_ID") (str "123456789")
      (by decide) (by decide)⟩,
   C5_doc_defaults.2.2 (echoWorld (str "a")) emptyExample
    { emptyExample with DocumentationHCLText := str "a\n", TestHCLText := str "a\n" }
    rfl⟩

/-- C6. Cloud-shell variant in `SetOiCSHCLText`: a key of `Vars` without an entry
in `OicsVarsOverrides` is mapped to its value followed by `"-${local.name_suffix}"`;
a key of `OicsVarsOverrides` is mapped to the value of the override as it is,
whether or not `Vars` declares the key. -/
theorem C6_oics_vars (Vars OicsVarsOverrides : GoMap) (k : GoString) :
    (k ∉ OicsVarsOverrides → ∀ value, Vars.lookup k = some value →
      (oicsVars Vars OicsVarsOverrides).lookup k
        = some (value ++ str "-$\x7blocal.name_suffix\x7d")) ∧
    (∀ value, OicsVarsOverrides.lookup k = some value →
      (oicsVars Vars OicsVarsOverrides).lookup k = some value) := by
  constructor
  · intro hno value hk
    unfold oicsVars
    rw [rangeSet_lookup_of_not_mem _ _ _ _ hno, rangeSet_lookup_of_some _ _ _ _ _ hk]
  · intro value hov
    unfold oicsVars
    rw [rangeSet_lookup_of_some _ _ _ _ _ hov]

/-- C6 at a key without an override, an overridden key of `Vars` and an
overridden key that `Vars` does not declare. -/
theorem C6_oics_vars_witness :
    (oicsVars sampleVars sampleOverrides).lookup (str "subnet")
      = some (str "my_network-${local.name_suffix}") ∧
    (oicsVars sampleVars sampleOverrides).lookup (str "network") = some (str "nameOfVpc()") ∧
    (oicsVars sampleVars sampleOverrides).lookup (str "extra") = some (str "literal") :=
  ⟨(C6_oics_vars sampleVars sampleOverrides (str "subnet")).1 (by decide) (str "my_network")
      (by decide),
   (C6_oics_vars sampleVars sampleOverrides (str "network")).2 (str "nameOfVpc()") (by decide),
   (C6_oics_vars sampleVars sampleOverrides (str "extra")).2 (str "literal") (by decide)⟩

/-- C7. State restoration: when `SetHCLText` returns, the record equals the one
before the call in every field but `DocumentationHCLText` and `TestHCLText`; when
`SetOiCSHCLText` returns, in every field but `OicsHCLText`.  In particular `Vars`
and `TestEnvVars` are the maps from before the call. -/
theorem C7_state_restored (w : World) (e e' : Examples) :
    (SetHCLText w e = .ok e' →
      e' = { e with DocumentationHCLText := e'.DocumentationHCLText,
                    TestHCLText := e'.TestHCLText } ∧
      e'.Vars = e.Vars ∧ e'.TestEnvVars = e.TestEnvVars) ∧
    (SetOiCSHCLText w e = .ok e' →
      e' = { e with OicsHCLText := e'.OicsHCLText } ∧
      e'.Vars = e.Vars ∧ e'.TestEnvVars = e.TestEnvVars) := by
  constructor
  · intro h
    obtain ⟨docRaw, testRaw, -, -, he⟩ := SetHCLText_ok w e e' h
    subst he
    exact ⟨rfl, rfl, rfl⟩
  · intro h
    obtain ⟨raw, -, he⟩ := SetOiCSHCLText_ok w e e' h
    subst he
    exact ⟨rfl, rfl, rfl⟩

/-- C7 on the sample record, where both renders succeed. -/
theorem C7_state_restored_witness :
    (∃ e', SetHCLText (echoWorld sampleTemplate) sampleExample = .ok e' ∧
      e'.Vars = sampleVars ∧ e'.TestEnvVars = sampleTestEnvVars) ∧
    (∃ e', SetOiCSHCLText (echoWorld sampleTemplate) sampleExample = .ok e' ∧
      e'.Vars = sampleVars ∧ e'.TestEnvVars = sampleTestEnvVars) :=
  ⟨⟨_, rfl, ((C7_state_restored (echoWorld sampleTemplate) sampleExample _).1 rfl).2⟩,
   ⟨_, rfl, ((C7_state_restored (echoWorld sampleTemplate) sampleExample _).2 rfl).2⟩⟩

/-! ## Reference validation (C8) -/

theorem keys_any_iff (vars : GoMap) (v : GoString) :
    vars.keys.any (fun k => k == v) = true ↔ v ∈ vars := by
  rw [List.any_eq_true]
  constructor
  · rintro ⟨k, hk, hkv⟩
    have : k = v := by simpa using hkv
    exact this ▸ AList.mem_keys.mp hk
  · intro h
    exact ⟨v, AList.mem_keys.mpr h, by simp⟩

theorem validateMatches_ok_iff (configPath objName : GoString) (vars : GoMap) :
    ∀ names : List GoString,
      validateMatches configPath objName vars names = .ok () ↔ ∀ name ∈ names, name ∈ vars := by
  intro names
  induction names with
  | nil => simp [validateMatches]
  | cons v rest ih =>
    unfold validateMatches
    by_cases hv : v ∈ vars
    · rw [if_pos ((keys_any_iff vars v).mpr hv), ih]
      simp [hv]
    · rw [if_neg (fun h => hv ((keys_any_iff vars v).mp h))]
      simp [hv]

theorem validateMatches_error (configPath objName : GoString) (vars : GoMap) (err : Fatal) :
    ∀ names : List GoString, validateMatches configPath objName vars names = .error err →
      ∃ name pre post, names = pre ++ name :: post ∧ (∀ n ∈ pre, n ∈ vars) ∧ name ∉ vars ∧
        err = .undefinedVariable name configPath objName := by
  intro names
  induction names with
  | nil => intro h; simp [validateMatches] at h
  | cons v rest ih =>
    intro h
    unfold validateMatches at h
    by_cases hv : v ∈ vars
    · rw [if_pos ((keys_any_iff vars v).mpr hv)] at h
      obtain ⟨name, pre, post, hsplit, hpre, hname, herr⟩ := ih h
      refine ⟨name, v :: pre, post, by rw [hsplit]; rfl, ?_, hname, herr⟩
      intro n hn
      rcases List.mem_cons.mp hn with rfl | hn
      · exact hv
      · exact hpre n hn
    · rw [if_neg (fun h => hv ((keys_any_iff vars v).mp h))] at h
      injection h with h
      exact ⟨v, [], rest, rfl, by simp, hv, h.symm⟩

/-- A successful `ExecuteTemplate` has passed both validations. -/
theorem ExecuteTemplate_ok (w : World) (e : Examples) (rs : GoString)
    (h : ExecuteTemplate w e = .ok rs) :
    ∃ content, w.readFile e.ConfigPath = some content ∧
      validateRegexForContents envVarRegex content e.ConfigPath (str "test_env_vars")
        e.TestEnvVars = .ok () ∧
      validateRegexForContents varRegex content e.ConfigPath (str "vars") e.Vars = .ok () := by
  unfold ExecuteTemplate at h
  split at h
  · exact absurd h (by simp)
  · rename_i content hread
    split at h
    · exact absurd h (by simp)
    · rename_i henv
      split at h
      · exact absurd h (by simp)
      · rename_i hvar
        exact ⟨content, hread, henv, hvar⟩

theorem refClose_eq : refClose = [34, 125, 125] := by decide

/-- What a reference expression accepts at the head of a text. -/
theorem matchRef_eq_some_iff (lit t : GoString) (k : Nat) (v : GoString) :
    matchRef lit t = some (k, v) ↔
      ∃ rest, t = lit ++ (v ++ (refClose ++ rest)) ∧ (∀ x ∈ v, isNameChar x = true) ∧
        k = lit.length + v.length + 3 := by
  unfold matchRef
  constructor
  · intro h
    split at h
    · rename_i hpre
      obtain ⟨t1, ht1⟩ := hpre
      subst ht1
      simp only [List.drop_left] at h
      split at h
      · rename_i hclose
        have hdrop : (lit ++ t1).drop (lit.length + (t1.takeWhile isNameChar).length)
            = t1.dropWhile isNameChar := by
          rw [List.drop_append]
          have h3 := List.drop_left (t1.takeWhile isNameChar) (t1.dropWhile isNameChar)
          rwa [List.takeWhile_append_dropWhile] at h3
        rw [hdrop] at hclose
        obtain ⟨rest, hrest⟩ := hclose
        injection h with h
        injection h with hk hv
        refine ⟨rest, ?_, ?_, ?_⟩
        · rw [hrest, ← hv, List.takeWhile_append_dropWhile]
        · intro x hx
          rw [← hv] at hx
          exact List.mem_takeWhile_imp hx
        · rw [← hv, ← hk]
      · cases h
    · cases h
  · rintro ⟨rest, rfl, hall, rfl⟩
    rw [if_pos (List.prefix_append _ _)]
    have htw : (v ++ (refClose ++ rest)).takeWhile isNameChar = v := by
      rw [List.takeWhile_append_of_pos hall, refClose_eq, List.cons_append,
        List.takeWhile_cons_of_neg (by decide), List.append_nil]
    simp only [List.drop_left, htw]
    have hdrop : (lit ++ (v ++ (refClose ++ rest))).drop (lit.length + v.length)
        = refClose ++ rest := by
      rw [List.drop_append, List.drop_left]
    rw [hdrop, if_pos (List.prefix_append _ _)]

theorem findAllSubmatchAux_skip (m : GoString → Option (Nat × GoString)) :
    ∀ (s : GoString) (k : Nat),
      findAllSubmatchAux m k s = findAllSubmatchAux m 0 (s.drop k) := by
  intro s
  induction s with
  | nil => intro k; cases k <;> rfl
  | cons c s ih =>
    intro k
    cases k with
    | zero => rfl
    | succ k => rw [findAllSubmatchAux, ih k, List.drop_succ_cons]

theorem FindAllStringSubmatch_nil (m : GoString → Option (Nat × GoString)) :
    FindAllStringSubmatch m [] = [] := rfl

theorem FindAllStringSubmatch_cons_match (m : GoString → Option (Nat × GoString)) (c : Nat)
    (s : GoString) (n : Nat) (v : GoString) (h : m (c :: s) = some (n + 1, v)) :
    FindAllStringSubmatch m (c :: s) = v :: FindAllStringSubmatch m (s.drop n) := by
  unfold FindAllStringSubmatch
  rw [findAllSubmatchAux, h]
  simp only
  rw [findAllSubmatchAux_skip]

theorem FindAllStringSubmatch_cons_skip (m : GoString → Option (Nat × GoString)) (c : Nat)
    (s : GoString) (h : ∀ n v, m (c :: s) ≠ some (n + 1, v)) :
    FindAllStringSubmatch m (c :: s) = FindAllStringSubmatch m s := by
  unfold FindAllStringSubmatch
  rw [findAllSubmatchAux]
  split
  · rename_i n v hn
    exact absurd hn (h n v)
  · rfl

/-- Every captured name is the name of a match at some position of the text. -/
theorem FindAllStringSubmatch_sound (m : GoString → Option (Nat × GoString)) (v : GoString) :
    ∀ (N : Nat) (s : GoString), s.length ≤ N → v ∈ FindAllStringSubmatch m s →
      ∃ pre post k, s = pre ++ post ∧ m post = some (k + 1, v) := by
  intro N
  induction N with
  | zero =>
    intro s hs h
    have : s = [] := List.length_eq_zero.mp (Nat.le_zero.mp hs)
    subst this
    cases h
  | succ N ih =>
    intro s hs h
    cases s with
    | nil => cases h
    | cons c s =>
      by_cases hm : ∃ n w, m (c :: s) = some (n + 1, w)
      · obtain ⟨n, w, hnw⟩ := hm
        rw [FindAllStringSubmatch_cons_match m c s n w hnw] at h
        rcases List.mem_cons.mp h with h1 | h1
        · exact ⟨[], c :: s, n, rfl, by rw [h1]; exact hnw⟩
        · obtain ⟨pre, post, k, hsplit, hk⟩ := ih (s.drop n)
            (by rw [List.length_drop]; simp only [List.length_cons] at hs; omega) h1
          refine ⟨(c :: s).take (n + 1) ++ pre, post, k, ?_, hk⟩
          rw [List.append_assoc, ← hsplit]
          exact (List.take_append_drop (n + 1) (c :: s)).symm
      · have hno : ∀ n w, m (c :: s) ≠ some (n + 1, w) := fun n w hnw => hm ⟨n, w, hnw⟩
        rw [FindAllStringSubmatch_cons_skip m c s hno] at h
        obtain ⟨pre, post, k, hsplit, hk⟩ := ih s (by simpa using hs) h
        exact ⟨c :: pre, post, k, by rw [hsplit]; rfl, hk⟩

/-- When no match starts inside another one, the name of every match of the text
is captured. -/
theorem FindAllStringSubmatch_complete (m : GoString → Option (Nat × GoString))
    (hin : ∀ t k w, m t = some (k, w) → ∀ j, 0 < j → j < k → m (t.drop j) = none)
    (v : GoString) (post : GoString) (k : Nat) (hpost : m post = some (k + 1, v))
    (hne : post ≠ []) :
    ∀ (N : Nat) (pre : GoString), pre.length ≤ N → v ∈ FindAllStringSubmatch m (pre ++ post) := by
  have hbase : v ∈ FindAllStringSubmatch m post := by
    obtain ⟨c, s, rfl⟩ := List.exists_cons_of_ne_nil hne
    rw [FindAllStringSubmatch_cons_match m c s k v hpost]
    exact List.mem_cons_self _ _
  intro N
  induction N with
  | zero =>
    intro pre hpre
    have : pre = [] := List.length_eq_zero.mp (Nat.le_zero.mp hpre)
    subst this
    exact hbase
  | succ N ih =>
    intro pre hpre
    cases pre with
    | nil => exact hbase
    | cons c pre =>
      by_cases hm : ∃ n w, m (c :: (pre ++ post)) = some (n + 1, w)
      · obtain ⟨n, w, hnw⟩ := hm
        rw [List.cons_append, FindAllStringSubmatch_cons_match m c _ n w hnw]
        apply List.mem_cons_of_mem
        have hlen : n ≤ pre.length := by
          by_contra hlt
          have hj := hin _ _ _ hnw (pre.length + 1) (by omega) (by omega)
          have hdrop : (c :: (pre ++ post)).drop (pre.length + 1) = post := by
            rw [List.drop_succ_cons, List.drop_left]
          rw [hdrop, hpost] at hj
          cases hj
        rw [List.drop_append_of_le_length hlen]
        exact ih (pre.drop n) (by rw [List.length_drop]; simp only [List.length_cons] at hpre; omega)
      · have hno : ∀ n w, m (c :: (pre ++ post)) ≠ some (n + 1, w) :=
          fun n w hnw => hm ⟨n, w, hnw⟩
        rw [List.cons_append, FindAllStringSubmatch_cons_skip m c _ hno]
        exact ih pre (by simpa using hpre)

/-- No match of a reference expression starts inside another one, when the
literal part begins with `{` and no end piece of it begins it again. -/
theorem matchRef_no_inner (lit lit' : GoString) (hlit : lit = 123 :: lit')
    (hborder : ∀ j, j < lit.length → 0 < j → ¬ lit.drop j <+: lit) :
    ∀ (t : GoString) (k : Nat) (w : GoString), matchRef lit t = some (k, w) →
      ∀ j, 0 < j → j < k → matchRef lit (t.drop j) = none := by
  intro t k w h j hj0 hjk
  obtain ⟨rest, rfl, hall, rfl⟩ := (matchRef_eq_some_iff _ _ _ _).mp h
  have hnot : ¬ lit <+: (lit ++ (w ++ (refClose ++ rest))).drop j := by
    intro hpre
    by_cases hjl : j < lit.length
    · rw [List.drop_append_of_le_length (Nat.le_of_lt hjl)] at hpre
      rcases List.prefix_or_prefix_of_prefix hpre (List.prefix_append _ _) with h1 | h1
      · have := h1.length_le
        rw [List.length_drop] at this
        omega
      · exact hborder j hjl hj0 h1
    · have hji : j = lit.length + (j - lit.length) := by omega
      rw [hji, List.drop_append, ← List.append_assoc] at hpre
      have hlen : j - lit.length < (w ++ refClose).length := by
        rw [List.length_append, refClose_eq]
        simp only [List.length_cons, List.length_nil]
        omega
      rw [List.drop_append_of_le_length (Nat.le_of_lt hlen)] at hpre
      have hne : (w ++ refClose).drop (j - lit.length) ≠ [] := by
        intro hnil
        have := List.drop_eq_nil_iff.mp hnil
        omega
      obtain ⟨x, tl, hx⟩ := List.exists_cons_of_ne_nil hne
      rw [hx, hlit, List.cons_append, List.cons_prefix_cons] at hpre
      have hmem : x ∈ w ++ refClose :=
        List.mem_of_mem_drop (by rw [hx]; exact List.mem_cons_self _ _)
      rw [← hpre.1] at hmem
      rcases List.mem_append.mp hmem with h1 | h1
      · exact absurd (hall 123 h1) (by decide)
      · rw [refClose_eq] at h1
        simp at h1
  unfold matchRef
  rw [if_neg hnot]

/-- The names captured by a reference expression are the names `name` of the
pieces `lit name "}}` of the text, `name` a run of the class `[a-zA-Z_]`. -/
theorem FindAllStringSubmatch_ref_iff (lit lit' : GoString) (hlit : lit = 123 :: lit')
    (hborder : ∀ j, j < lit.length → 0 < j → ¬ lit.drop j <+: lit)
    (contents name : GoString) :
    name ∈ FindAllStringSubmatch (matchRef lit) contents ↔
      ∃ pre post, contents = pre ++ (lit ++ (name ++ (refClose ++ post))) ∧
        ∀ x ∈ name, isNameChar x = true := by
  constructor
  · intro h
    obtain ⟨pre, post, k, hsplit, hk⟩ :=
      FindAllStringSubmatch_sound (matchRef lit) name contents.length contents (Nat.le_refl _) h
    obtain ⟨rest, hpost, hall, -⟩ := (matchRef_eq_some_iff _ _ _ _).mp hk
    exact ⟨pre, rest, by rw [hsplit, hpost], hall⟩
  · rintro ⟨pre, post, rfl, hall⟩
    have hm : matchRef lit (lit ++ (name ++ (refClose ++ post)))
        = some ((lit.length + name.length + 2) + 1, name) :=
      (matchRef_eq_some_iff _ _ _ _).mpr ⟨post, rfl, hall, rfl⟩
    exact FindAllStringSubmatch_complete (matchRef lit)
      (matchRef_no_inner lit lit' hlit hborder) name _ _ hm
      (by rw [hlit]; exact List.cons_ne_nil _ _) pre.length pre (Nat.le_refl _)

/-- What the validation checks: `validateRegexForContents` succeeds exactly when
every name captured by the reference expression in the template is a key of the
mapping it is given; when it fails, the error names the first captured name that
is no key.  The captured names are the names, made of letters and underscores, of
the references written in the syntax of the expression.  `ExecuteTemplate` checks the
`TestEnvVars` references against `TestEnvVars` and the `Vars` references against
`Vars`, so it ends in an error when a captured name of one syntax is declared only
in the other mapping. -/
theorem validation_of_captured_names :
    (∀ (r : GoString → Option (Nat × GoString)) (contents configPath objName : GoString)
        (vars : GoMap),
      (validateRegexForContents r contents configPath objName vars = .ok () ↔
        ∀ name ∈ FindAllStringSubmatch r contents, name ∈ vars) ∧
      (∀ err, validateRegexForContents r contents configPath objName vars = .error err →
        ∃ name pre post, FindAllStringSubmatch r contents = pre ++ name :: post ∧
          (∀ n ∈ pre, n ∈ vars) ∧ name ∉ vars ∧
          err = .undefinedVariable name configPath objName)) ∧
    (∀ (contents name : GoString),
      (name ∈ FindAllStringSubmatch varRegex contents ↔
        ∃ pre post,
          contents = pre ++ (str "\x7b\x7bindex $.Vars \"" ++ (name ++ (str "\"\x7d\x7d" ++ post))) ∧
          ∀ x ∈ name, isNameChar x = true) ∧
      (name ∈ FindAllStringSubmatch envVarRegex contents ↔
        ∃ pre post,
          contents = pre ++ (str "\x7b\x7bindex $.TestEnvVars \"" ++ (name ++ (str "\"\x7d\x7d" ++ post))) ∧
          ∀ x ∈ name, isNameChar x = true)) ∧
    (∀ (w : World) (e : Examples) (content : GoString),
      w.readFile e.ConfigPath = some content →
      ((∃ rs, ExecuteTemplate w e = .ok rs) →
        (∀ name ∈ FindAllStringSubmatch envVarRegex content, name ∈ e.TestEnvVars) ∧
        (∀ name ∈ FindAllStringSubmatch varRegex content, name ∈ e.Vars)) ∧
      (∀ name ∈ FindAllStringSubmatch varRegex content, name ∉ e.Vars →
        ∃ err, ExecuteTemplate w e = .error err) ∧
      (∀ name ∈ FindAllStringSubmatch envVarRegex content, name ∉ e.TestEnvVars →
        ∃ err, ExecuteTemplate w e = .error err)) := by
  have hmain : ∀ (w : World) (e : Examples) (content : GoString),
      w.readFile e.ConfigPath = some content → (∃ rs, ExecuteTemplate w e = .ok rs) →
        (∀ name ∈ FindAllStringSubmatch envVarRegex content, name ∈ e.TestEnvVars) ∧
        (∀ name ∈ FindAllStringSubmatch varRegex content, name ∈ e.Vars) := by
    intro w e content hread ⟨rs, hrs⟩
    obtain ⟨content', hread', henv, hvar⟩ := ExecuteTemplate_ok w e rs hrs
    have hc : content' = content := Option.some.inj (hread'.symm.trans hread)
    subst hc
    exact ⟨(validateMatches_ok_iff _ _ _ _).mp henv, (validateMatches_ok_iff _ _ _ _).mp hvar⟩
  have hfail : ∀ (w : World) (e : Examples), (¬ ∃ rs, ExecuteTemplate w e = .ok rs) →
      ∃ err, ExecuteTemplate w e = .error err := by
    intro w e hno
    cases hres : ExecuteTemplate w e with
    | error err => exact ⟨err, rfl⟩
    | ok rs => exact absurd ⟨rs, hres⟩ hno
  refine ⟨fun r contents configPath objName vars => ⟨validateMatches_ok_iff _ _ _ _, ?_⟩,
    fun contents name =>
      ⟨FindAllStringSubmatch_ref_iff varOpen varOpen.tail (by decide) (by decide) contents name,
       FindAllStringSubmatch_ref_iff envVarOpen envVarOpen.tail (by decide) (by decide)
        contents name⟩,
    fun w e content hread => ⟨hmain w e content hread, ?_, ?_⟩⟩
  · intro err herr
    exact validateMatches_error _ _ _ _ _ herr
  · intro name hname hno
    exact hfail w e (fun hok => hno ((hmain w e content hread hok).2 name hname))
  · intro name hname hno
    exact hfail w e (fun hok => hno ((hmain w e content hread hok).1 name hname))

/-- The validation on the sample record: the sample template passes, and the template that
refers to a test-env-var in the `Vars` syntax fails on that name. -/
theorem validation_of_captured_names_sample :
    validateRegexForContents varRegex sampleTemplate sampleExample.ConfigPath (str "vars")
      sampleExample.Vars = .ok () ∧
    (∃ name pre post, FindAllStringSubmatch varRegex crossTemplate = pre ++ name :: post ∧
      (∀ n ∈ pre, n ∈ sampleVars) ∧ name ∉ sampleVars ∧
      Fatal.undefinedVariable (str "project") sampleExample.ConfigPath (str "vars")
        = .undefinedVariable name sampleExample.ConfigPath (str "vars")) ∧
    (∃ err, ExecuteTemplate (echoWorld crossTemplate) sampleExample = .error err) :=
  ⟨((validation_of_captured_names.1 varRegex sampleTemplate sampleExample.ConfigPath (str "vars")
      sampleExample.Vars).1).mpr (by decide),
   (validation_of_captured_names.1 varRegex crossTemplate sampleExample.ConfigPath (str "vars")
      sampleVars).2 _ rfl,
   (validation_of_captured_names.2.2 (echoWorld crossTemplate) sampleExample crossTemplate rfl).2.1
      (str "project") (by decide) (by decide)⟩

/-- C8 (the code against its comment).  The template `x = {{index $.Vars "net2"}}`
refers to `net2`, which the record does not declare.  The expression of `varRegex`
captures names of letters and underscores only, so it has no match in this
template: the check passes and the template is executed, where the comment above
the check says that any variable used in the example is checked.  The same
template with `net` in place of `net2` ends in the error that names `net`. -/
theorem C8_unchecked_reference :
    digitTemplate
      = str "x = " ++ (str "\x7b\x7bindex $.Vars \"" ++ (str "net2" ++ (str "\"\x7d\x7d" ++ str "\n"))) ∧
    str "net2" ∉ digitExample.Vars ∧
    FindAllStringSubmatch varRegex digitTemplate = [] ∧
    validateRegexForContents varRegex digitTemplate digitExample.ConfigPath (str "vars")
      digitExample.Vars = .ok () ∧
    ExecuteTemplate digitWorld digitExample = .ok (str "x = \n") ∧
    str "net" ∉ digitExample.Vars ∧
    validateRegexForContents varRegex letterTemplate digitExample.ConfigPath (str "vars")
      digitExample.Vars
        = .error (.undefinedVariable (str "net") digitExample.ConfigPath (str "vars")) ∧
    ExecuteTemplate (echoWorld letterTemplate) digitExample
      = .error (.undefinedVariable (str "net") digitExample.ConfigPath (str "vars")) :=
  ⟨by decide, by decide, by decide, rfl, rfl, by decide, rfl, rfl⟩

/-! ## The scanning engine -/

theorem replaceMatchesAux_skip (m : GoString → Option Nat) (new : GoString) :
    ∀ (s : GoString) (k : Nat),
      replaceMatchesAux m new k s = replaceMatchesAux m new 0 (s.drop k) := by
  intro s
  induction s with
  | nil => intro k; cases k <;> rfl
  | cons c s ih =>
    intro k
    cases k with
    | zero => rfl
    | succ k => rw [replaceMatchesAux, ih k, List.drop_succ_cons]

theorem replaceMatches_nil (m : GoString → Option Nat) (new : GoString) :
    replaceMatches m new [] = [] := rfl

/-- A match of `n + 1` bytes at the head is replaced and the scan goes on behind
it. -/
theorem replaceMatches_cons_match (m : GoString → Option Nat) (new : GoString) (c : Nat)
    (s : GoString) (n : Nat) (h : m (c :: s) = some (n + 1)) :
    replaceMatches m new (c :: s) = new ++ replaceMatches m new (s.drop n) := by
  unfold replaceMatches
  rw [replaceMatchesAux, h]
  simp only
  rw [replaceMatchesAux_skip]

/-- Without a match at the head the first byte is kept. -/
theorem replaceMatches_cons_skip (m : GoString → Option Nat) (new : GoString) (c : Nat)
    (s : GoString) (h : ∀ n, m (c :: s) ≠ some (n + 1)) :
    replaceMatches m new (c :: s) = c :: replaceMatches m new s := by
  unfold replaceMatches
  rw [replaceMatchesAux]
  split
  · rename_i n hn
    exact absurd hn (h n)
  · rfl

theorem literal_eq_some (old t : GoString) (n : Nat) :
    literal old t = some n ↔ old <+: t ∧ n = old.length := by
  unfold literal
  by_cases h : old <+: t
  · rw [if_pos h]
    simp [h, eq_comm]
  · rw [if_neg h]
    simp [h]

/-- `strings.ReplaceAll`: a text that begins with `old` . -/
theorem ReplaceAll_append (old new s : GoString) (hold : old ≠ []) :
    ReplaceAll (old ++ s) old new = new ++ ReplaceAll s old new := by
  obtain ⟨c, old', rfl⟩ := List.exists_cons_of_ne_nil hold
  unfold ReplaceAll
  have h : literal (c :: old') (c :: (old' ++ s)) = some (old'.length + 1) := by
    rw [literal_eq_some]
    exact ⟨List.prefix_append _ _, rfl⟩
  rw [List.cons_append, replaceMatches_cons_match _ _ _ _ _ h, List.drop_left]

/-- `strings.ReplaceAll`: a text that does not begin with `old`. -/
theorem ReplaceAll_cons (old new s : GoString) (c : Nat) (h : ¬ old <+: c :: s) :
    ReplaceAll (c :: s) old new = c :: ReplaceAll s old new := by
  unfold ReplaceAll
  apply replaceMatches_cons_skip
  intro n hn
  exact h ((literal_eq_some _ _ _).mp hn).1

theorem ReplaceAll_nil (old new : GoString) : ReplaceAll [] old new = [] := rfl

/-- An occurrence `mid` that no match of `old` touches is copied, and the text
before and after it is rewritten on its own. -/
theorem ReplaceAll_mid (old new mid b : GoString) (hold : old ≠ [])
    (hM : ∀ m1 m2, mid = m1 ++ m2 → m2 ≠ [] → ¬ old <+: m2 ++ b) :
    ∀ (n : Nat) (a : GoString), a.length ≤ n →
      (∀ a1 a2, a = a1 ++ a2 → old <+: a2 ++ (mid ++ b) → old <+: a2) →
      ReplaceAll (a ++ (mid ++ b)) old new = ReplaceAll a old new ++ (mid ++ ReplaceAll b old new) := by
  have hmid : ∀ m2 m1, mid = m1 ++ m2 →
      ReplaceAll (m2 ++ b) old new = m2 ++ ReplaceAll b old new := by
    intro m2
    induction m2 with
    | nil => intro m1 _; rfl
    | cons c m2 ih =>
      intro m1 hsplit
      have h1 : ¬ old <+: c :: (m2 ++ b) := hM m1 (c :: m2) hsplit (by simp)
      rw [List.cons_append, ReplaceAll_cons _ _ _ _ h1,
        ih (m1 ++ [c]) (by rw [hsplit]; simp), List.cons_append]
  intro n
  induction n with
  | zero =>
    intro a ha _
    have : a = [] := List.length_eq_zero.mp (Nat.le_zero.mp ha)
    subst this
    rw [List.nil_append, ReplaceAll_nil, List.nil_append]
    exact hmid mid [] rfl
  | succ n ih =>
    intro a ha hA
    cases a with
    | nil =>
      rw [List.nil_append, ReplaceAll_nil, List.nil_append]
      exact hmid mid [] rfl
    | cons c a =>
      by_cases hmatch : old <+: (c :: a) ++ (mid ++ b)
      · have hin : old <+: c :: a := hA [] (c :: a) rfl hmatch
        obtain ⟨a2, ha2⟩ := hin
        have hlen : a2.length ≤ n := by
          have h1 := congrArg List.length ha2
          have h2 : 0 < old.length := List.length_pos.mpr hold
          simp only [List.length_append, List.length_cons] at h1 ha
          omega
        rw [← ha2, List.append_assoc, ReplaceAll_append _ _ _ hold, ReplaceAll_append _ _ _ hold,
          ih a2 hlen, List.append_assoc]
        intro a1 a3 hsplit hpre
        exact hA (old ++ a1) a3 (by rw [← ha2, hsplit, List.append_assoc]) hpre
      · have hno : ¬ old <+: c :: a := fun h => hmatch (h.trans (List.prefix_append _ _))
        have hmatch' : ¬ old <+: c :: (a ++ (mid ++ b)) := hmatch
        rw [List.cons_append, ReplaceAll_cons _ _ _ _ hmatch', ReplaceAll_cons _ _ _ _ hno,
          ih a (by simpa using ha), List.cons_append]
        intro a1 a2 hsplit hpre
        exact hA (c :: a1) a2 (by rw [hsplit]; rfl) hpre

/-- An occurrence of `old` that no earlier match of `old` reaches is replaced by
`new`, and the text before and after it is rewritten on its own. -/
theorem ReplaceAll_mid_self (old new b : GoString) (hold : old ≠ []) :
    ∀ (n : Nat) (a : GoString), a.length ≤ n →
      (∀ a1 a2, a = a1 ++ a2 → a2 ≠ [] → old <+: a2 ++ (old ++ b) → old <+: a2) →
      ReplaceAll (a ++ (old ++ b)) old new = ReplaceAll a old new ++ (new ++ ReplaceAll b old new) := by
  intro n
  induction n with
  | zero =>
    intro a ha _
    have : a = [] := List.length_eq_zero.mp (Nat.le_zero.mp ha)
    subst this
    rw [List.nil_append, ReplaceAll_nil, List.nil_append, ReplaceAll_append _ _ _ hold]
  | succ n ih =>
    intro a ha hA
    cases a with
    | nil => rw [List.nil_append, ReplaceAll_nil, List.nil_append, ReplaceAll_append _ _ _ hold]
    | cons c a =>
      by_cases hmatch : old <+: (c :: a) ++ (old ++ b)
      · have hin : old <+: c :: a := hA [] (c :: a) rfl (by simp) hmatch
        obtain ⟨a2, ha2⟩ := hin
        have hlen : a2.length ≤ n := by
          have h1 := congrArg List.length ha2
          have h2 : 0 < old.length := List.length_pos.mpr hold
          simp only [List.length_append, List.length_cons] at h1 ha
          omega
        rw [← ha2, List.append_assoc, ReplaceAll_append _ _ _ hold, ReplaceAll_append _ _ _ hold,
          ih a2 hlen, List.append_assoc]
        intro a1 a3 hsplit hne hpre
        exact hA (old ++ a1) a3 (by rw [← ha2, hsplit, List.append_assoc]) hne hpre
      · have hno : ¬ old <+: c :: a := fun h => hmatch (h.trans (List.prefix_append _ _))
        have hmatch' : ¬ old <+: c :: (a ++ (old ++ b)) := hmatch
        rw [List.cons_append, ReplaceAll_cons _ _ _ _ hmatch', ReplaceAll_cons _ _ _ _ hno,
          ih a (by simpa using ha), List.cons_append]
        intro a1 a2 hsplit hne hpre
        exact hA (c :: a1) a2 (by rw [hsplit]; rfl) hne hpre

theorem prefix_append_cases (old x y : GoString) (h : old <+: x ++ y) :
    old <+: x ∨ ∃ o2, o2 ≠ [] ∧ old = x ++ o2 ∧ o2 <+: y := by
  rcases List.prefix_or_prefix_of_prefix h (List.prefix_append x y) with h1 | h1
  · exact Or.inl h1
  · obtain ⟨o2, ho2⟩ := h1
    by_cases hnil : o2 = []
    · left
      rw [← ho2, hnil, List.append_nil]
    · right
      refine ⟨o2, hnil, ho2.symm, ?_⟩
      rw [← ho2] at h
      exact (List.prefix_append_right_inj x).mp h

/-- From `startsClear`: no match of `old` starts inside the occurrence. -/
theorem startsClear_spec (old mid b : GoString) (after : List GoString)
    (hc : startsClear old mid after) (hb : ∀ q ∈ after, ¬ q <+: b) :
    ∀ m1 m2, mid = m1 ++ m2 → m2 ≠ [] → ¬ old <+: m2 ++ b := by
  intro m1 m2 hsplit hne hpre
  have hi : m1.length < mid.length := by
    rw [hsplit, List.length_append]
    have := List.length_pos.mpr hne
    omega
  have hdrop : mid.drop m1.length = m2 := by rw [hsplit, List.drop_left]
  obtain ⟨h1, h2⟩ := hc m1.length hi
  rw [hdrop] at h1 h2
  rcases prefix_append_cases old m2 b hpre with h | ⟨o2, -, ho, hob⟩
  · exact h1 h
  · have hmem := h2 ⟨o2, ho.symm⟩
    have hlen : mid.length - m1.length = m2.length := by
      rw [hsplit, List.length_append]; omega
    rw [hlen, ho, List.drop_left] at hmem
    exact hb o2 hmem hob

/-- From `endsClear` and `startsClear`: a match of `old` that starts before the
occurrence ends before it. -/
theorem endsClear_spec (old mid a b : GoString) (before after : List GoString)
    (hs : startsClear old mid after) (hb : ∀ q ∈ after, ¬ q <+: b) (hmid : mid ≠ [])
    (he : endsClear old mid before) (ha : ∀ q ∈ before, ¬ q <:+ a) :
    ∀ a1 a2, a = a1 ++ a2 → old <+: a2 ++ (mid ++ b) → old <+: a2 := by
  intro a1 a2 hsplit hpre
  rcases prefix_append_cases old a2 (mid ++ b) hpre with h | ⟨o2, hne, ho, hob⟩
  · exact h
  · exfalso
    by_cases ha2 : a2 = []
    · subst ha2
      rw [List.nil_append] at ho
      subst ho
      exact startsClear_spec old mid b after hs hb [] mid rfl hmid hob
    · have hj1 : 0 < a2.length := List.length_pos.mpr ha2
      have hj2 : a2.length < old.length := by
        rw [ho, List.length_append]
        have := List.length_pos.mpr hne
        omega
      have hdrop : old.drop a2.length = o2 := by rw [ho, List.drop_left]
      have htake : old.take a2.length = a2 := by rw [ho, List.take_left]
      have hcmp : old.drop a2.length <+: mid ∨ mid <+: old.drop a2.length := by
        rw [hdrop]
        exact List.prefix_or_prefix_of_prefix hob (List.prefix_append mid b)
      have hmem := he a2.length hj2 hj1 hcmp
      rw [htake] at hmem
      exact ha a2 hmem ⟨a1, hsplit.symm⟩

/-- A replacement step for another placeholder leaves an occurrence of `mid` as it
is and rewrites the text before and after it on its own. -/
theorem ReplaceAll_other (old new mid a b : GoString) (before after : List GoString)
    (hold : old ≠ []) (hmid : mid ≠ [])
    (hs : startsClear old mid after) (he : endsClear old mid before)
    (ha : ∀ q ∈ before, ¬ q <:+ a) (hb : ∀ q ∈ after, ¬ q <+: b) :
    ReplaceAll (a ++ (mid ++ b)) old new
      = ReplaceAll a old new ++ (mid ++ ReplaceAll b old new) :=
  ReplaceAll_mid old new mid b hold (startsClear_spec old mid b after hs hb) a.length a
    (Nat.le_refl _) (endsClear_spec old mid a b before after hs hb hmid he ha)

/-- The replacement step of a placeholder rewrites an occurrence of it that no
earlier occurrence overlaps, and the text before and after it on its own. -/
theorem ReplaceAll_self (old new a b : GoString) (before : List GoString)
    (hold : old ≠ []) (he : endsClear old old before) (ha : ∀ q ∈ before, ¬ q <:+ a) :
    ReplaceAll (a ++ (old ++ b)) old new
      = ReplaceAll a old new ++ (new ++ ReplaceAll b old new) := by
  apply ReplaceAll_mid_self old new b hold a.length a (Nat.le_refl _)
  intro a1 a2 hsplit ha2 hpre
  rcases prefix_append_cases old a2 (old ++ b) hpre with h | ⟨o2, hne, ho, hob⟩
  · exact h
  · exfalso
    have hj1 : 0 < a2.length := List.length_pos.mpr ha2
    have hj2 : a2.length < old.length := by
      have h1 := congrArg List.length ho
      rw [List.length_append] at h1
      have := List.length_pos.mpr hne
      omega
    have hdrop : old.drop a2.length = o2 := by
      conv_lhs => rw [ho]
      rw [List.drop_left]
    have htake : old.take a2.length = a2 := by
      conv_lhs => rw [ho]
      rw [List.take_left]
    have hcmp : old.drop a2.length <+: old ∨ old <+: old.drop a2.length := by
      rw [hdrop]
      exact List.prefix_or_prefix_of_prefix hob (List.prefix_append old b)
    have hmem := he a2.length hj2 hj1 hcmp
    rw [htake] at hmem
    exact ha a2 hmem ⟨a1, hsplit.symm⟩

/-- A replacement step cannot make the text begin with `q` when the replacement
and `q` share no position. -/
theorem ReplaceAll_prefix_back (old new q : GoString) (hold : old ≠ [])
    (hc : prefixClear new q) :
    ∀ (b : GoString) (j : Nat), q.drop j <+: ReplaceAll b old new → q.drop j <+: b := by
  intro b
  induction b with
  | nil => intro j h; exact h
  | cons c b ih =>
    intro j h
    by_cases hj : j < q.length
    · by_cases hmatch : old <+: c :: b
      · exfalso
        obtain ⟨b2, hb2⟩ := hmatch
        rw [← hb2, ReplaceAll_append _ _ _ hold] at h
        rcases List.prefix_or_prefix_of_prefix h (List.prefix_append new _) with h1 | h1
        · exact (hc j hj).1 h1
        · exact (hc j hj).2 h1
      · rw [ReplaceAll_cons _ _ _ _ hmatch] at h
        rw [List.drop_eq_getElem_cons hj] at h ⊢
        rw [List.cons_prefix_cons] at h ⊢
        exact ⟨h.1, ih (j + 1) h.2⟩
    · rw [List.drop_eq_nil_of_le (Nat.le_of_not_lt hj)]
      exact List.nil_prefix

theorem ReplaceAll_not_prefix (old new q b : GoString) (hold : old ≠ [])
    (hc : prefixClear new q) (hb : ¬ q <+: b) : ¬ q <+: ReplaceAll b old new := by
  intro h
  apply hb
  have := ReplaceAll_prefix_back old new q hold hc b 0
  rw [List.drop_zero] at this
  exact this h

theorem ReplaceAll_eq_drop (old new q : GoString) (hold : old ≠ [])
    (hc : ∀ j, j < q.length + 1 → ¬ new <+: q.drop j) :
    ∀ (b : GoString) (j : Nat), ReplaceAll b old new = q.drop j → ReplaceAll b old new = b := by
  intro b
  induction b with
  | nil => intro j _; rfl
  | cons c b ih =>
    intro j h
    by_cases hmatch : old <+: c :: b
    · exfalso
      obtain ⟨b2, hb2⟩ := hmatch
      rw [← hb2, ReplaceAll_append _ _ _ hold] at h
      have hpre : new <+: q.drop j := ⟨_, h⟩
      by_cases hj : j < q.length + 1
      · exact hc j hj hpre
      · rw [List.drop_eq_nil_of_le (by omega)] at hpre
        have := hc q.length (by omega)
        rw [List.drop_length] at this
        exact this hpre
    · rw [ReplaceAll_cons _ _ _ _ hmatch] at h ⊢
      have hj : j < q.length := by
        by_contra hge
        rw [List.drop_eq_nil_of_le (Nat.le_of_not_lt hge)] at h
        exact absurd h (by simp)
      rw [List.drop_eq_getElem_cons hj] at h
      injection h with h1 h2
      rw [ih (j + 1) h2]

theorem suffix_append_cases (q x y : GoString) (h : q <:+ x ++ y) :
    q <:+ y ∨ ∃ x', x' ≠ [] ∧ x' <:+ x ∧ q = x' ++ y := by
  obtain ⟨t, ht⟩ := h
  rcases List.append_eq_append_iff.mp ht with ⟨a', h1, h2⟩ | ⟨c', h1, h2⟩
  · by_cases ha : a' = []
    · left
      rw [h2, ha, List.nil_append]
    · exact Or.inr ⟨a', ha, ⟨t, h1.symm⟩, h2⟩
  · exact Or.inl ⟨c', h2.symm⟩

/-- A replacement step cannot make the text end with `q` when `q` neither
contains the replacement nor begins with an end piece of it. -/
theorem ReplaceAll_suffix_back (old new q : GoString) (hold : old ≠ [])
    (hc : suffixClear new q) :
    ∀ (n : Nat) (b : GoString), b.length ≤ n → q <:+ ReplaceAll b old new → q <:+ b := by
  intro n
  induction n with
  | zero =>
    intro b hb h
    have : b = [] := List.length_eq_zero.mp (Nat.le_zero.mp hb)
    subst this
    exact h
  | succ n ih =>
    intro b hb h
    cases b with
    | nil => exact h
    | cons c b =>
      by_cases hmatch : old <+: c :: b
      · obtain ⟨b2, hb2⟩ := hmatch
        have hlen : b2.length ≤ n := by
          have h1 := congrArg List.length hb2
          have h2 : 0 < old.length := List.length_pos.mpr hold
          simp only [List.length_append, List.length_cons] at h1 hb
          omega
        rw [← hb2, ReplaceAll_append _ _ _ hold] at h
        rcases suffix_append_cases q new _ h with h1 | ⟨x', hne, hx, hq⟩
        · rw [← hb2]
          exact (ih b2 hlen h1).trans (List.suffix_append old b2)
        · exfalso
          obtain ⟨t, ht⟩ := hx
          have hi : t.length < new.length := by
            have h1 := congrArg List.length ht
            rw [List.length_append] at h1
            have := List.length_pos.mpr hne
            omega
          have hdrop : new.drop t.length = x' := by rw [← ht, List.drop_left]
          apply hc.1 t.length hi
          rw [hdrop, hq]
          exact List.prefix_append _ _
      · rw [ReplaceAll_cons _ _ _ _ hmatch] at h
        rcases List.suffix_cons_iff.mp h with h1 | h1
        · have h2 : ReplaceAll b old new = q.drop 1 := by rw [h1]; rfl
          have h3 := ReplaceAll_eq_drop old new q hold hc.2 b 1 h2
          rw [h1, h3]
        · exact (ih b (by simpa using hb) h1).trans (List.suffix_cons c b)

theorem ReplaceAll_not_suffix (old new q a : GoString) (hold : old ≠ [])
    (hc : suffixClear new q) (ha : ¬ q <:+ a) : ¬ q <:+ ReplaceAll a old new :=
  fun h => ha (ReplaceAll_suffix_back old new q hold hc a.length a (Nat.le_refl _) h)

/-! ## Region tags (C9) -/

/-- A text none of whose end pieces has a match is left as it is. -/
theorem replaceMatches_eq_self (m : GoString → Option Nat) (new : GoString) :
    ∀ s : GoString, (∀ pre post, s = pre ++ post → m post = none) →
      replaceMatches m new s = s := by
  intro s
  induction s with
  | nil => intro _; rfl
  | cons c s ih =>
    intro h
    have h0 : m (c :: s) = none := h [] (c :: s) rfl
    rw [replaceMatches_cons_skip m new c s (by rw [h0]; intro n hn; cases hn),
      ih (fun pre post hsplit => h (c :: pre) post (by rw [hsplit]; rfl))]

/-- Removing matches never makes a text longer. -/
theorem length_replaceMatches_le (m : GoString → Option Nat) :
    ∀ (n : Nat) (s : GoString), s.length ≤ n → (replaceMatches m [] s).length ≤ s.length := by
  intro n
  induction n with
  | zero =>
    intro s hs
    have : s = [] := List.length_eq_zero.mp (Nat.le_zero.mp hs)
    subst this
    exact Nat.le_refl _
  | succ n ih =>
    intro s hs
    cases s with
    | nil => exact Nat.le_refl _
    | cons c s =>
      cases hm : m (c :: s) with
      | none =>
        rw [replaceMatches_cons_skip m [] c s (by rw [hm]; intro n hn; cases hn)]
        have := ih s (by simpa using hs)
        simp only [List.length_cons]
        omega
      | some k =>
        cases k with
        | zero =>
          rw [replaceMatches_cons_skip m [] c s (by rw [hm]; intro n hn; cases hn)]
          have := ih s (by simpa using hs)
          simp only [List.length_cons]
          omega
        | succ k =>
          rw [replaceMatches_cons_match m [] c s k hm, List.nil_append]
          have h1 : (s.drop k).length ≤ n := by
            rw [List.length_drop]
            simp only [List.length_cons] at hs
            omega
          have := ih (s.drop k) h1
          rw [List.length_drop] at this
          simp only [List.length_cons]
          omega

/-- Removing matches makes a text shorter as soon as one of its end pieces has a
match. -/
theorem length_replaceMatches_lt (m : GoString → Option Nat) (hnil : m [] = none) :
    ∀ (pre post : GoString) (k : Nat), m post = some (k + 1) →
      (replaceMatches m [] (pre ++ post)).length < (pre ++ post).length := by
  intro pre
  induction pre with
  | nil =>
    intro post k hm
    cases post with
    | nil =>
      rw [hnil] at hm
      cases hm
    | cons c s =>
      rw [List.nil_append, replaceMatches_cons_match m [] c s k hm, List.nil_append]
      have := length_replaceMatches_le m (s.drop k).length (s.drop k) (Nat.le_refl _)
      rw [List.length_drop] at this
      simp only [List.length_cons]
      omega
  | cons c pre ih =>
    intro post k hm
    rw [List.cons_append]
    cases hm' : m (c :: (pre ++ post)) with
    | none =>
      rw [replaceMatches_cons_skip m [] c _ (by rw [hm']; intro n hn; cases hn)]
      have := ih post k hm
      simp only [List.length_cons]
      omega
    | some k' =>
      cases k' with
      | zero =>
        rw [replaceMatches_cons_skip m [] c _ (by rw [hm']; intro n hn; cases hn)]
        have := ih post k hm
        simp only [List.length_cons]
        omega
      | succ k' =>
        rw [replaceMatches_cons_match m [] c _ k' hm', List.nil_append]
        have := length_replaceMatches_le m ((pre ++ post).drop k').length _ (Nat.le_refl _)
        rw [List.length_drop] at this
        simp only [List.length_cons]
        omega

theorem str_tag_open : str "# [" = [35, 32, 91] := by decide

/-- What `matchTag` accepts: `# [`, a non-empty run of the class, `]`. -/
theorem matchTag_eq_some_iff (t : GoString) (n : Nat) :
    matchTag t = some n ↔
      ∃ body rest, t = [35, 32, 91] ++ body ++ 93 :: rest ∧ body ≠ [] ∧
        (∀ x ∈ body, isTagChar x = true) ∧ n = body.length + 4 := by
  unfold matchTag
  rw [str_tag_open]
  constructor
  · intro h
    split at h
    · rename_i hpre
      obtain ⟨t3, ht3⟩ := hpre
      subst ht3
      simp only at h
      split at h
      · rename_i hcond
        obtain ⟨hne, hhead⟩ := hcond
        have hdrop3 : ([35, 32, 91] ++ t3).drop 3 = t3 := rfl
        rw [hdrop3] at hne hhead h
        have hdrop : ([35, 32, 91] ++ t3).drop (3 + (t3.takeWhile isTagChar).length)
            = t3.dropWhile isTagChar := by
          have h1 : ([35, 32, 91] ++ t3).drop (3 + (t3.takeWhile isTagChar).length)
              = t3.drop (t3.takeWhile isTagChar).length :=
            @List.drop_append _ [35, 32, 91] t3 _
          rw [h1]
          have h3 := List.drop_left (t3.takeWhile isTagChar) (t3.dropWhile isTagChar)
          rwa [List.takeWhile_append_dropWhile] at h3
        rw [hdrop] at hhead
        obtain ⟨rest, hrest⟩ : ∃ rest, t3.dropWhile isTagChar = 93 :: rest := by
          cases hd : t3.dropWhile isTagChar with
          | nil => rw [hd] at hhead; cases hhead
          | cons x rest =>
            rw [hd] at hhead
            simp only [List.head?_cons, Option.some.injEq] at hhead
            exact ⟨rest, by rw [hhead]⟩
        refine ⟨t3.takeWhile isTagChar, rest, ?_, hne, fun x hx => List.mem_takeWhile_imp hx, ?_⟩
        · rw [List.append_assoc, ← hrest, List.takeWhile_append_dropWhile]
        · injection h with h
          omega
      · cases h
    · cases h
  · rintro ⟨body, rest, rfl, hne, hall, rfl⟩
    have hpre : [35, 32, 91] <+: [35, 32, 91] ++ body ++ 93 :: rest := by
      rw [List.append_assoc]; exact List.prefix_append _ _
    rw [if_pos hpre]
    have hdrop3 : ([35, 32, 91] ++ body ++ 93 :: rest).drop 3 = body ++ 93 :: rest := by
      rw [List.append_assoc]; rfl
    have htw : (body ++ 93 :: rest).takeWhile isTagChar = body := by
      rw [List.takeWhile_append_of_pos hall, List.takeWhile_cons_of_neg (by decide),
        List.append_nil]
    simp only [hdrop3, htw]
    have hdrop : ([35, 32, 91] ++ body ++ 93 :: rest).drop (3 + body.length) = 93 :: rest := by
      have : ([35, 32, 91] ++ body).length = 3 + body.length := by
        simp only [List.length_append, List.length_cons, List.length_nil]
      rw [← this, List.drop_left]
    rw [hdrop]
    rw [if_pos ⟨hne, rfl⟩]
    congr 1
    omega

/-- A match of the tag expression depends only on the matched bytes. -/
theorem matchTag_local (t t' : GoString) (n : Nat) (h : matchTag t = some n)
    (ht : t.take n = t'.take n) (hlen : n ≤ t'.length) : matchTag t' = some n := by
  obtain ⟨body, rest, rfl, hne, hall, rfl⟩ := (matchTag_eq_some_iff t n).mp h
  have hlen1 : ([35, 32, 91] ++ body ++ [93]).length = body.length + 4 := by
    simp only [List.length_append, List.length_cons, List.length_nil]
    omega
  have htake : ([35, 32, 91] ++ body ++ 93 :: rest).take (body.length + 4)
      = [35, 32, 91] ++ body ++ [93] := by
    have : [35, 32, 91] ++ body ++ 93 :: rest = ([35, 32, 91] ++ body ++ [93]) ++ rest := by
      simp only [List.append_assoc, List.singleton_append]
    rw [this, ← hlen1, List.take_left]
  rw [htake] at ht
  refine (matchTag_eq_some_iff t' _).mpr ⟨body, t'.drop (body.length + 4), ?_, hne, hall, rfl⟩
  conv_lhs => rw [← List.take_append_drop (body.length + 4) t', ← ht]
  simp only [List.append_assoc, List.singleton_append]

theorem matchTag_le_length (t : GoString) (n : Nat) (h : matchTag t = some n) :
    n ≤ t.length := by
  obtain ⟨body, rest, rfl, -, -, rfl⟩ := (matchTag_eq_some_iff t n).mp h
  simp only [List.length_append, List.length_cons, List.length_nil]
  omega

/-- The bytes of a match of the tag expression: no line terminator, and `#` at
the head only. -/
theorem matchTag_bytes (t : GoString) (n : Nat) (h : matchTag t = some n) :
    ∃ tl, t.take n = 35 :: tl ∧ 10 ∉ tl ∧ 35 ∉ tl ∧ tl.length + 1 = n := by
  obtain ⟨body, rest, rfl, hne, hall, rfl⟩ := (matchTag_eq_some_iff t n).mp h
  have hlen1 : ([35, 32, 91] ++ body ++ [93]).length = body.length + 4 := by
    simp only [List.length_append, List.length_cons, List.length_nil]
    omega
  have htake : ([35, 32, 91] ++ body ++ 93 :: rest).take (body.length + 4)
      = [35, 32, 91] ++ body ++ [93] := by
    have : [35, 32, 91] ++ body ++ 93 :: rest = ([35, 32, 91] ++ body ++ [93]) ++ rest := by
      simp only [List.append_assoc, List.singleton_append]
    rw [this, ← hlen1, List.take_left]
  refine ⟨[32, 91] ++ body ++ [93], by rw [htake]; rfl, ?_, ?_, ?_⟩
  · intro hmem
    have h1 : 10 ∈ body := by simpa using hmem
    exact absurd (hall 10 h1) (by decide)
  · intro hmem
    have h1 : 35 ∈ body := by simpa using hmem
    exact absurd (hall 35 h1) (by decide)
  · simp only [List.length_append, List.length_cons, List.length_nil]
    omega

theorem re1_eq_some_iff (t : GoString) (k : Nat) :
    re1 t = some k ↔ ∃ n, matchTag t = some n ∧ (t.drop n).head? = some 10 ∧ k = n + 1 := by
  unfold re1
  cases hm : matchTag t with
  | none => simp
  | some n =>
    simp only
    by_cases hh : (t.drop n).head? = some 10
    · rw [if_pos hh]
      constructor
      · intro h; injection h with h; exact ⟨n, rfl, hh, h.symm⟩
      · rintro ⟨n', hn', -, rfl⟩; injection hn' with hn'; rw [hn']
    · rw [if_neg hh]
      constructor
      · intro h; cases h
      · rintro ⟨n', hn', hh', -⟩; injection hn' with hn'; rw [← hn'] at hh'; exact absurd hh' hh

theorem re2_eq_some_iff (t : GoString) (k : Nat) :
    re2 t = some k ↔ ∃ t' n, t = 10 :: t' ∧ matchTag t' = some n ∧ k = n + 1 := by
  unfold re2
  split
  · rename_i t'
    constructor
    · intro h
      cases hm : matchTag t' with
      | none => rw [hm] at h; cases h
      | some n =>
        rw [hm] at h
        simp only [Option.map_some'] at h
        injection h with h
        exact ⟨t', n, rfl, hm, h.symm⟩
    · rintro ⟨t'', n, ht, hm, rfl⟩
      injection ht with _ ht
      rw [ht, hm]
      rfl
  · rename_i hne
    constructor
    · intro h; cases h
    · rintro ⟨t', n, rfl, -, -⟩
      exact absurd rfl (hne t')

theorem lineStart_tail (first : Bool) (x : Nat) (pre : GoString)
    (h : lineStart first (x :: pre)) : lineStart (x == 10) pre := by
  rcases h with ⟨h, -⟩ | h
  · cases h
  · cases pre with
    | nil =>
      left
      simp only [List.getLast?_singleton, Option.some.injEq] at h
      exact ⟨rfl, by rw [h]; rfl⟩
    | cons y pre =>
      right
      rwa [List.getLast?_cons_cons] at h

theorem lineStart_cons (first : Bool) (x : Nat) (pre : GoString)
    (h : lineStart (x == 10) pre) : lineStart first (x :: pre) := by
  right
  rcases h with ⟨h1, h2⟩ | h
  · subst h1
    have : x = 10 := by simpa using h2
    rw [this]; rfl
  · cases pre with
    | nil => cases h
    | cons y pre => rwa [List.getLast?_cons_cons]

theorem markersOnLines_tail (first : Bool) (x : Nat) (t : GoString)
    (h : markersOnLines first (x :: t)) : markersOnLines (x == 10) t := by
  intro pre post n hsplit hm
  obtain ⟨h1, h2⟩ := h (x :: pre) post n (by rw [hsplit]; rfl) hm
  exact ⟨lineStart_tail first x pre h1, h2⟩

theorem markersAtEnd_tail (first : Bool) (x : Nat) (s : GoString)
    (h : markersAtEnd first (x :: s)) : markersAtEnd (x == 10) s := by
  intro pre post n hsplit hm
  obtain ⟨h1, h2⟩ := h (x :: pre) post n (by rw [hsplit]; rfl) hm
  exact ⟨lineStart_tail first x pre h1, h2⟩

theorem not_lineStart_false_nil : ¬ lineStart false [] := by
  rintro (⟨-, h⟩ | h)
  · cases h
  · cases h

theorem matchTag_nil : matchTag [] = none := by decide

/-- The bytes in front of the first removed tag line end with a line terminator,
so a piece without one that begins the result begins the text. -/
theorem re1_prefix_back :
    ∀ (t p : GoString), markersOnLines false t → 10 ∉ p →
      p <+: replaceMatches re1 [] t → p <+: t := by
  intro t
  induction t with
  | nil => intro p _ _ h; exact h
  | cons x t ih =>
    intro p hW hp h
    have hno : ∀ k, re1 (x :: t) ≠ some (k + 1) := by
      intro k hk
      obtain ⟨n, hn, -, -⟩ := (re1_eq_some_iff _ _).mp hk
      exact not_lineStart_false_nil (hW [] (x :: t) n rfl hn).1
    rw [replaceMatches_cons_skip re1 [] x t hno] at h
    cases p with
    | nil => exact List.nil_prefix
    | cons y p =>
      rw [List.cons_prefix_cons] at h ⊢
      obtain ⟨hy, hp'⟩ := h
      refine ⟨hy, ih p ?_ (fun hmem => hp (List.mem_cons_of_mem _ hmem)) hp'⟩
      have hx : (x == 10) = false := by
        have : x ≠ 10 := by
          intro hx10
          apply hp
          rw [hy, hx10]
          exact List.mem_cons_self _ _
        simpa using this
      rw [← hx]
      exact markersOnLines_tail false x t hW

/-- When the result of a removal, behind a byte `c`, begins with a match of the
tag expression, and the matched bytes begin the text as well, the text has the
match too. -/
theorem matchTag_cons_back (c : Nat) (r t : GoString) (n : Nat)
    (hm : matchTag (c :: r) = some n)
    (hpre : ∀ p, p <+: r → 10 ∉ p → p <+: t) :
    matchTag (c :: t) = some n ∧ (r.take (n - 1)) <+: t ∧ c = 35 ∧ 1 ≤ n := by
  obtain ⟨tl, htake, h10, -, hlen⟩ := matchTag_bytes _ _ hm
  have hn : n = (n - 1) + 1 := by omega
  rw [hn, List.take_succ_cons] at htake
  injection htake with hc htl
  have hpt : r.take (n - 1) <+: t := hpre _ (List.take_prefix _ _) (by rw [htl]; exact h10)
  have hlen' : (r.take (n - 1)).length = n - 1 := by rw [htl]; omega
  have hle : n - 1 ≤ t.length := by
    rw [← hlen']; exact hpt.length_le
  refine ⟨matchTag_local _ _ _ hm ?_ ?_, hpt, hc, by omega⟩
  · rw [hn, List.take_succ_cons, List.take_succ_cons]
    congr 1
    have := List.prefix_iff_eq_take.mp hpt
    rw [hlen'] at this
    exact this
  · simp only [List.length_cons]; omega

theorem lineStart_nil_first (first : Bool) (h : lineStart first []) : first = true := by
  rcases h with ⟨-, h⟩ | h
  · exact h
  · cases h

theorem matchTag_head (c : Nat) (r : GoString) (n : Nat) (h : matchTag (c :: r) = some n) :
    c = 35 := by
  obtain ⟨body, rest, ht, -, -, -⟩ := (matchTag_eq_some_iff _ _).mp h
  simp only [List.cons_append, List.nil_append] at ht
  injection ht

/-- After the removal of the matches of `re1`, a text whose tags stood on lines of
their own has a tag left at its end only. -/
theorem re1_markersAtEnd :
    ∀ (N : Nat) (t : GoString), t.length ≤ N → ∀ first, markersOnLines first t →
      markersAtEnd first (replaceMatches re1 [] t) := by
  intro N
  induction N with
  | zero =>
    intro t ht first _ pre post n hsplit hm
    have : t = [] := List.length_eq_zero.mp (Nat.le_zero.mp ht)
    subst this
    rw [replaceMatches_nil] at hsplit
    have hpost : post = [] := (List.append_eq_nil.mp hsplit.symm).2
    rw [hpost, matchTag_nil] at hm
    cases hm
  | succ N ih =>
    intro t ht first hW
    cases t with
    | nil =>
      intro pre post n hsplit hm
      rw [replaceMatches_nil] at hsplit
      have hpost : post = [] := (List.append_eq_nil.mp hsplit.symm).2
      rw [hpost, matchTag_nil] at hm
      cases hm
    | cons c t =>
      by_cases hre : ∃ k, re1 (c :: t) = some (k + 1)
      · obtain ⟨k, hk⟩ := hre
        rw [replaceMatches_cons_match re1 [] c t k hk, List.nil_append]
        obtain ⟨n', hn', -, -⟩ := (re1_eq_some_iff _ _).mp hk
        have hfirst : first = true := lineStart_nil_first first (hW [] (c :: t) n' rfl hn').1
        subst hfirst
        apply ih (t.drop k) (by rw [List.length_drop]; simp only [List.length_cons] at ht; omega)
        intro pre post n hsplit hm
        have hdec : c :: t = ((c :: t).take (k + 1) ++ pre) ++ post := by
          rw [List.append_assoc, ← hsplit]
          exact (List.take_append_drop (k + 1) (c :: t)).symm
        obtain ⟨h1, h2⟩ := hW _ post n hdec hm
        refine ⟨?_, h2⟩
        by_cases hpre : pre = []
        · exact Or.inl ⟨hpre, rfl⟩
        · right
          rcases h1 with ⟨h1, -⟩ | h1
          · exact absurd (List.append_eq_nil.mp h1).2 hpre
          · rwa [List.getLast?_append_of_ne_nil _ hpre] at h1
      · have hno : ∀ k, re1 (c :: t) ≠ some (k + 1) := fun k hk => hre ⟨k, hk⟩
        rw [replaceMatches_cons_skip re1 [] c t hno]
        have hIH := ih t (by simpa using ht) (c == 10) (markersOnLines_tail first c t hW)
        intro pre post n hsplit hm
        cases pre with
        | nil =>
          rw [List.nil_append] at hsplit
          subst hsplit
          have hc : c = 35 := matchTag_head _ _ _ hm
          have hc10 : (c == 10) = false := by rw [hc]; rfl
          have hWt : markersOnLines false t := by
            rw [← hc10]; exact markersOnLines_tail first c t hW
          obtain ⟨hmt, -, -, hn1⟩ := matchTag_cons_back c _ t n hm
            (fun p hp h10 => re1_prefix_back t p hWt h10 hp)
          obtain ⟨h1, h2⟩ := hW [] (c :: t) n rfl hmt
          refine ⟨h1, ?_⟩
          rcases h2 with h2 | h2
          · have hlen : (c :: t).length ≤ n := List.drop_eq_nil_iff.mp h2
            apply List.drop_eq_nil_iff.mpr
            have := length_replaceMatches_le re1 t.length t (Nat.le_refl _)
            simp only [List.length_cons] at hlen ⊢
            omega
          · exact absurd ((re1_eq_some_iff _ _).mpr ⟨n, hmt, h2, rfl⟩) (hno n)
        | cons y pre =>
          rw [List.cons_append] at hsplit
          injection hsplit with hy hrest
          obtain ⟨h1, h2⟩ := hIH pre post n hrest hm
          rw [← hy]
          exact ⟨lineStart_cons first c pre h1, h2⟩

/-- The removal of the matches of `re2` from a text with a tag at its end only
takes nothing in front of a piece without line terminator that begins the
result. -/
theorem re2_prefix_back :
    ∀ (s p : GoString) (first : Bool), markersAtEnd first s → 10 ∉ p →
      p <+: replaceMatches re2 [] s → p <+: s := by
  intro s
  induction s with
  | nil => intro p _ _ _ h; exact h
  | cons x s ih =>
    intro p first hE hp h
    by_cases hre : ∃ k, re2 (x :: s) = some (k + 1)
    · obtain ⟨k, hk⟩ := hre
      obtain ⟨t', n, ht', hn, hkn⟩ := (re2_eq_some_iff _ _).mp hk
      injection ht' with hx hs
      subst hs
      have hend := (hE [x] s n rfl hn).2
      have hk' : k = n := by omega
      rw [replaceMatches_cons_match re2 [] x s k hk, hk', hend, List.nil_append,
        replaceMatches_nil] at h
      rw [List.prefix_nil.mp h]
      exact List.nil_prefix
    · have hno : ∀ k, re2 (x :: s) ≠ some (k + 1) := fun k hk => hre ⟨k, hk⟩
      rw [replaceMatches_cons_skip re2 [] x s hno] at h
      cases p with
      | nil => exact List.nil_prefix
      | cons y p =>
        rw [List.cons_prefix_cons] at h ⊢
        exact ⟨h.1, ih p (x == 10) (markersAtEnd_tail first x s hE)
          (fun hmem => hp (List.mem_cons_of_mem _ hmem)) h.2⟩

theorem re1_nil : re1 [] = none := by decide

theorem re2_nil : re2 [] = none := by decide

theorem noRegionTag_nil : noRegionTag [] := by
  intro pre post hsplit
  have hpost : post = [] := (List.append_eq_nil.mp hsplit.symm).2
  rw [hpost]
  exact ⟨re1_nil, re2_nil⟩

/-- After the removal of the matches of `re2`, a text with a tag at its end only
has no match of `re1` or `re2` left. -/
theorem re2_noRegionTag :
    ∀ (s : GoString) (first : Bool), markersAtEnd first s →
      noRegionTag (replaceMatches re2 [] s) := by
  intro s
  induction s with
  | nil => intro _ _; rw [replaceMatches_nil]; exact noRegionTag_nil
  | cons c s ih =>
    intro first hE
    by_cases hre : ∃ k, re2 (c :: s) = some (k + 1)
    · obtain ⟨k, hk⟩ := hre
      obtain ⟨t', n, ht', hn, hkn⟩ := (re2_eq_some_iff _ _).mp hk
      injection ht' with hx hs
      subst hs
      have hend := (hE [c] s n rfl hn).2
      have hk' : k = n := by omega
      rw [replaceMatches_cons_match re2 [] c s k hk, hk', hend, List.nil_append,
        replaceMatches_nil]
      exact noRegionTag_nil
    · have hno : ∀ k, re2 (c :: s) ≠ some (k + 1) := fun k hk => hre ⟨k, hk⟩
      rw [replaceMatches_cons_skip re2 [] c s hno]
      have hEt := markersAtEnd_tail first c s hE
      have hIH := ih (c == 10) hEt
      have hback : ∀ p, p <+: replaceMatches re2 [] s → 10 ∉ p → p <+: s :=
        fun p hp h10 => re2_prefix_back s p (c == 10) hEt h10 hp
      intro pre post hsplit
      cases pre with
      | cons y pre =>
        rw [List.cons_append] at hsplit
        injection hsplit with _ hrest
        exact hIH pre post hrest
      | nil =>
        rw [List.nil_append] at hsplit
        subst hsplit
        constructor
        · cases h1 : re1 (c :: replaceMatches re2 [] s) with
          | none => rfl
          | some k =>
            exfalso
            obtain ⟨n, hn, hhead, -⟩ := (re1_eq_some_iff _ _).mp h1
            obtain ⟨hmt, -, -, -⟩ := matchTag_cons_back c _ s n hn hback
            have hend := (hE [] (c :: s) n rfl hmt).2
            have hlen : (c :: s).length ≤ n := List.drop_eq_nil_iff.mp hend
            have hle := length_replaceMatches_le re2 s.length s (Nat.le_refl _)
            have hnil : (c :: replaceMatches re2 [] s).drop n = [] := by
              apply List.drop_eq_nil_iff.mpr
              simp only [List.length_cons] at hlen ⊢
              omega
            rw [hnil] at hhead
            cases hhead
        · cases h2 : re2 (c :: replaceMatches re2 [] s) with
          | none => rfl
          | some k =>
            exfalso
            obtain ⟨t', n, ht', hn, -⟩ := (re2_eq_some_iff _ _).mp h2
            injection ht' with hc ht'
            subst ht'
            obtain ⟨tl, htake, h10, -, hlen⟩ := matchTag_bytes _ _ hn
            have hp10 : 10 ∉ (replaceMatches re2 [] s).take n := by
              rw [htake]
              intro hmem
              rcases List.mem_cons.mp hmem with h | h
              · cases h
              · exact h10 h
            have hps := hback _ (List.take_prefix _ _) hp10
            have hlen' : ((replaceMatches re2 [] s).take n).length = n := by
              rw [htake]; simpa using hlen
            have hms : matchTag s = some n := by
              apply matchTag_local _ _ _ hn
              · have := List.prefix_iff_eq_take.mp hps
                rw [hlen'] at this
                exact this
              · rw [← hlen']; exact hps.length_le
            exact hno n ((re2_eq_some_iff _ _).mpr ⟨s, n, by rw [hc], hms, rfl⟩)

/-- Region-tag stripping leaves a text as it is exactly when the text has no
match of `re1` and no match of `re2`. -/
theorem removeRegionTags_eq_self_iff (u : GoString) :
    removeRegionTags u = u ↔ noRegionTag u := by
  unfold removeRegionTags
  constructor
  · intro h
    have hle1 := length_replaceMatches_le re1 u.length u (Nat.le_refl _)
    have hle2 := length_replaceMatches_le re2 (replaceMatches re1 [] u).length
      (replaceMatches re1 [] u) (Nat.le_refl _)
    have hlen := congrArg List.length h
    have h1 : ∀ pre post, u = pre ++ post → re1 post = none := by
      intro pre post hsplit
      cases hm : re1 post with
      | none => rfl
      | some k =>
        exfalso
        obtain ⟨n, -, -, hk⟩ := (re1_eq_some_iff _ _).mp hm
        rw [hk] at hm
        have := length_replaceMatches_lt re1 re1_nil pre post n hm
        rw [← hsplit] at this
        omega
    have hu : replaceMatches re1 [] u = u := replaceMatches_eq_self re1 [] u h1
    rw [hu] at h
    intro pre post hsplit
    refine ⟨h1 pre post hsplit, ?_⟩
    cases hm : re2 post with
    | none => rfl
    | some k =>
      exfalso
      obtain ⟨t', n, -, -, hk⟩ := (re2_eq_some_iff _ _).mp hm
      rw [hk] at hm
      have := length_replaceMatches_lt re2 re2_nil pre post n hm
      rw [← hsplit, h] at this
      omega
  · intro h
    rw [replaceMatches_eq_self re1 [] u (fun pre post hs => (h pre post hs).1),
      replaceMatches_eq_self re2 [] u (fun pre post hs => (h pre post hs).2)]

/-- The condition on the tags of a text, checked position by position. -/
theorem tags_on_lines_of_indices (t : GoString)
    (h : ∀ i, i < t.length + 1 → ∀ n ∈ matchTag (t.drop i),
      (t.take i = [] ∨ (t.take i).getLast? = some 10) ∧
      ((t.drop i).drop n = [] ∨ ((t.drop i).drop n).head? = some 10)) :
    ∀ pre post, t = pre ++ post → ∀ n, matchTag post = some n →
      (pre = [] ∨ pre.getLast? = some 10) ∧
      (post.drop n = [] ∨ (post.drop n).head? = some 10) := by
  intro pre post hsplit n hn
  have h1 := h pre.length (by rw [hsplit, List.length_append]; omega) n
  rw [hsplit, List.take_left, List.drop_left] at h1
  exact h1 hn

/-- C9 (as stated, refuted).  In `"# [# [a]\na]\n"` the removal of the match
`"# [a]\n"` joins `"# ["` and `"a]\n"` into a new match: one application gives
`"# [a]\n"`, a second one the empty text. -/
theorem C9_counterexample :
    removeRegionTags (str "# [# [a]\na]\n") = str "# [a]\n" ∧
    removeRegionTags (removeRegionTags (str "# [# [a]\na]\n")) = [] ∧
    removeRegionTags (removeRegionTags (str "# [# [a]\na]\n"))
      ≠ removeRegionTags (str "# [# [a]\na]\n") := by
  decide

/-- C9 (amended).  Applying the region-tag stripping twice gives the same text as
applying it once exactly when no match of `re1` or `re2` is left after one
application; and that is so for every text in which each match of
`# \[[a-zA-Z_ ]+\]` stands on a line of its own (it starts the text or follows a
line terminator, and it ends the text or is followed by a line terminator). -/
theorem C9_region_tags :
    (∀ t : GoString,
      removeRegionTags (removeRegionTags t) = removeRegionTags t ↔
        ∀ pre post, removeRegionTags t = pre ++ post → re1 post = none ∧ re2 post = none) ∧
    (∀ t : GoString,
      (∀ pre post, t = pre ++ post → ∀ n, matchTag post = some n →
        (pre = [] ∨ pre.getLast? = some 10) ∧
        (post.drop n = [] ∨ (post.drop n).head? = some 10)) →
      removeRegionTags (removeRegionTags t) = removeRegionTags t) := by
  refine ⟨fun t => removeRegionTags_eq_self_iff (removeRegionTags t), fun t h => ?_⟩
  apply (removeRegionTags_eq_self_iff _).mpr
  have hW : markersOnLines true t := by
    intro pre post n hsplit hm
    obtain ⟨h1, h2⟩ := h pre post hsplit n hm
    refine ⟨?_, h2⟩
    rcases h1 with h1 | h1
    · exact Or.inl ⟨h1, rfl⟩
    · exact Or.inr h1
  exact re2_noRegionTag _ true (re1_markersAtEnd t.length t (Nat.le_refl _) true hW)

/-- C9 (amended) on a text with two tag lines, one of them the last line without
line terminator. -/
theorem C9_region_tags_witness :
    removeRegionTags (str "# [START x]\nnetwork = 1\n# [END x]") = str "network = 1" ∧
    removeRegionTags (removeRegionTags (str "# [START x]\nnetwork = 1\n# [END x]"))
      = removeRegionTags (str "# [START x]\nnetwork = 1\n# [END x]") :=
  ⟨by decide,
   C9_region_tags.2 (str "# [START x]\nnetwork = 1\n# [END x]")
    (tags_on_lines_of_indices (str "# [START x]\nnetwork = 1\n# [END x]") (by decide))⟩

/-! ## Path substitution around one occurrence (C10) -/

theorem mem_nil_elim (P : GoString → Prop) : ∀ q ∈ ([] : List GoString), P q := by
  intro q hq; cases hq

theorem mem_singleton_elim (P : GoString → Prop) (x : GoString) (h : P x) :
    ∀ q ∈ [x], P q := by
  intro q hq
  rw [List.mem_singleton] at hq
  rw [hq]; exact h

/-- `SubstituteExamplePaths` around an occurrence of `"path/to/private.key"`. -/
theorem SubstituteExamplePaths_private_key (a b : GoString) :
    SubstituteExamplePaths (a ++ (str "path/to/private.key" ++ b))
      = SubstituteExamplePaths a ++ (str "../static/ssl_cert/test.key" ++ SubstituteExamplePaths b) := by
  unfold SubstituteExamplePaths
  simp only []
  rw [ReplaceAll_other (str "../static/img/header-logo.png") (str "../static/header-logo.png")
      (str "path/to/private.key") a b [] [] (by decide) (by decide) (by decide) (by decide)
      (mem_nil_elim _) (mem_nil_elim _),
    ReplaceAll_self (str "path/to/private.key") (str "../static/ssl_cert/test.key") _ _ []
      (by decide) (by decide) (mem_nil_elim _),
    ReplaceAll_other (str "path/to/id_rsa.pub") (str "../static/ssh_rsa.pub")
      (str "../static/ssl_cert/test.key") _ _ [] [] (by decide) (by decide) (by decide) (by decide)
      (mem_nil_elim _) (mem_nil_elim _),
    ReplaceAll_other (str "path/to/certificate.crt") (str "../static/ssl_cert/test.crt")
      (str "../static/ssl_cert/test.key") _ _ [] [] (by decide) (by decide) (by decide) (by decide)
      (mem_nil_elim _) (mem_nil_elim _)]

/-- `SubstituteExamplePaths` around an occurrence of `"verified-domain.com"`. -/
theorem SubstituteExamplePaths_domain (a b : GoString) :
    SubstituteExamplePaths (a ++ (str "verified-domain.com" ++ b))
      = SubstituteExamplePaths a ++ (str "verified-domain.com" ++ SubstituteExamplePaths b) := by
  unfold SubstituteExamplePaths
  simp only []
  rw [ReplaceAll_other (str "../static/img/header-logo.png") (str "../static/header-logo.png")
      (str "verified-domain.com") a b [] [] (by decide) (by decide) (by decide) (by decide)
      (mem_nil_elim _) (mem_nil_elim _),
    ReplaceAll_other (str "path/to/private.key") (str "../static/ssl_cert/test.key")
      (str "verified-domain.com") _ _ [] [] (by decide) (by decide) (by decide) (by decide)
      (mem_nil_elim _) (mem_nil_elim _),
    ReplaceAll_other (str "path/to/id_rsa.pub") (str "../static/ssh_rsa.pub")
      (str "verified-domain.com") _ _ [] [] (by decide) (by decide) (by decide) (by decide)
      (mem_nil_elim _) (mem_nil_elim _),
    ReplaceAll_other (str "path/to/certificate.crt") (str "../static/ssl_cert/test.crt")
      (str "verified-domain.com") _ _ [] [] (by decide) (by decide) (by decide) (by decide)
      (mem_nil_elim _) (mem_nil_elim _)]

/-- `SubstituteTestPaths` around an occurrence of `"verified-domain.com"`. -/
theorem SubstituteTestPaths_domain (a b : GoString) :
    SubstituteTestPaths (a ++ (str "verified-domain.com" ++ b))
      = SubstituteTestPaths a
        ++ (str "tf-test-domain%{random_suffix}.gcp.tfacc.hashicorptest.com"
          ++ SubstituteTestPaths b) := by
  unfold SubstituteTestPaths
  simp only []
  rw [ReplaceAll_other (str "../static/img/header-logo.png") (str "test-fixtures/header-logo.png")
      (str "verified-domain.com") a b [] [] (by decide) (by decide) (by decide) (by decide)
      (mem_nil_elim _) (mem_nil_elim _),
    ReplaceAll_other (str "path/to/private.key") (str "test-fixtures/test.key")
      (str "verified-domain.com") _ _ [] [] (by decide) (by decide) (by decide) (by decide)
      (mem_nil_elim _) (mem_nil_elim _),
    ReplaceAll_other (str "path/to/certificate.crt") (str "test-fixtures/test.crt")
      (str "verified-domain.com") _ _ [] [] (by decide) (by decide) (by decide) (by decide)
      (mem_nil_elim _) (mem_nil_elim _),
    ReplaceAll_other (str "path/to/index.zip") (str "%{zip_path}")
      (str "verified-domain.com") _ _ [] [] (by decide) (by decide) (by decide) (by decide)
      (mem_nil_elim _) (mem_nil_elim _),
    ReplaceAll_self (str "verified-domain.com")
      (str "tf-test-domain%{random_suffix}.gcp.tfacc.hashicorptest.com") _ _ []
      (by decide) (by decide) (mem_nil_elim _),
    ReplaceAll_other (str "path/to/id_rsa.pub") (str "test-fixtures/ssh_rsa.pub")
      (str "tf-test-domain%{random_suffix}.gcp.tfacc.hashicorptest.com") _ _ [] []
      (by decide) (by decide) (by decide) (by decide) (mem_nil_elim _) (mem_nil_elim _)]

/-- `SubstituteTestPaths` around an occurrence of `"path/to/private.key"` that
does not follow `"path/to/certificate.cr"`. -/
theorem SubstituteTestPaths_private_key (a b : GoString)
    (ha : ¬ str "path/to/certificate.cr" <:+ a) :
    SubstituteTestPaths (a ++ (str "path/to/private.key" ++ b))
      = SubstituteTestPaths a ++ (str "test-fixtures/test.key" ++ SubstituteTestPaths b) := by
  have ha1 := ReplaceAll_not_suffix (str "../static/img/header-logo.png")
    (str "test-fixtures/header-logo.png") (str "path/to/certificate.cr") a (by decide)
    (by decide) ha
  have ha2 := ReplaceAll_not_suffix (str "path/to/private.key") (str "test-fixtures/test.key")
    (str "path/to/certificate.cr") _ (by decide) (by decide) ha1
  unfold SubstituteTestPaths
  simp only []
  rw [ReplaceAll_other (str "../static/img/header-logo.png") (str "test-fixtures/header-logo.png")
      (str "path/to/private.key") a b [] [] (by decide) (by decide) (by decide) (by decide)
      (mem_nil_elim _) (mem_nil_elim _),
    ReplaceAll_self (str "path/to/private.key") (str "test-fixtures/test.key") _ _ []
      (by decide) (by decide) (mem_nil_elim _),
    ReplaceAll_other (str "path/to/certificate.crt") (str "test-fixtures/test.crt")
      (str "test-fixtures/test.key") _ _ [str "path/to/certificate.cr"] []
      (by decide) (by decide) (by decide) (by decide)
      (mem_singleton_elim _ _ ha2) (mem_nil_elim _),
    ReplaceAll_other (str "path/to/index.zip") (str "%{zip_path}")
      (str "test-fixtures/test.key") _ _ [] [] (by decide) (by decide) (by decide) (by decide)
      (mem_nil_elim _) (mem_nil_elim _),
    ReplaceAll_other (str "verified-domain.com")
      (str "tf-test-domain%{random_suffix}.gcp.tfacc.hashicorptest.com")
      (str "test-fixtures/test.key") _ _ [] [] (by decide) (by decide) (by decide) (by decide)
      (mem_nil_elim _) (mem_nil_elim _),
    ReplaceAll_other (str "path/to/id_rsa.pub") (str "test-fixtures/ssh_rsa.pub")
      (str "test-fixtures/test.key") _ _ [] [] (by decide) (by decide) (by decide) (by decide)
      (mem_nil_elim _) (mem_nil_elim _)]

/-- `SubstituteTestPaths` around an occurrence of `"path/to/index.zip"` whose last
byte does not begin another `"path/to/"` and which does not follow
`"path/to/index.zi"`. -/
theorem SubstituteTestPaths_index_zip (a b : GoString)
    (ha : ¬ str "path/to/index.zi" <:+ a) (hb : ¬ str "ath/to/" <+: b) :
    SubstituteTestPaths (a ++ (str "path/to/index.zip" ++ b))
      = SubstituteTestPaths a ++ (str "%{zip_path}" ++ SubstituteTestPaths b) := by
  have ha1 := ReplaceAll_not_suffix (str "../static/img/header-logo.png")
    (str "test-fixtures/header-logo.png") (str "path/to/index.zi") a (by decide) (by decide) ha
  have ha2 := ReplaceAll_not_suffix (str "path/to/private.key") (str "test-fixtures/test.key")
    (str "path/to/index.zi") _ (by decide) (by decide) ha1
  have ha3 := ReplaceAll_not_suffix (str "path/to/certificate.crt") (str "test-fixtures/test.crt")
    (str "path/to/index.zi") _ (by decide) (by decide) ha2
  have hb1 := ReplaceAll_not_prefix (str "../static/img/header-logo.png")
    (str "test-fixtures/header-logo.png") (str "ath/to/") b (by decide) (by decide) hb
  have hb2 := ReplaceAll_not_prefix (str "path/to/private.key") (str "test-fixtures/test.key")
    (str "ath/to/") _ (by decide) (by decide) hb1
  have hk : ¬ str "ath/to/private.key" <+: _ :=
    fun h => hb1 ((by decide : str "ath/to/" <+: str "ath/to/private.key").trans h)
  have hc : ¬ str "ath/to/certificate.crt" <+: _ :=
    fun h => hb2 ((by decide : str "ath/to/" <+: str "ath/to/certificate.crt").trans h)
  unfold SubstituteTestPaths
  simp only []
  rw [ReplaceAll_other (str "../static/img/header-logo.png") (str "test-fixtures/header-logo.png")
      (str "path/to/index.zip") a b [] [] (by decide) (by decide) (by decide) (by decide)
      (mem_nil_elim _) (mem_nil_elim _),
    ReplaceAll_other (str "path/to/private.key") (str "test-fixtures/test.key")
      (str "path/to/index.zip") _ _ [] [str "ath/to/private.key"]
      (by decide) (by decide) (by decide) (by decide)
      (mem_nil_elim _) (mem_singleton_elim _ _ hk),
    ReplaceAll_other (str "path/to/certificate.crt") (str "test-fixtures/test.crt")
      (str "path/to/index.zip") _ _ [] [str "ath/to/certificate.crt"]
      (by decide) (by decide) (by decide) (by decide)
      (mem_nil_elim _) (mem_singleton_elim _ _ hc),
    ReplaceAll_self (str "path/to/index.zip") (str "%{zip_path}") _ _ [str "path/to/index.zi"]
      (by decide) (by decide) (mem_singleton_elim _ _ ha3),
    ReplaceAll_other (str "verified-domain.com")
      (str "tf-test-domain%{random_suffix}.gcp.tfacc.hashicorptest.com")
      (str "%{zip_path}") _ _ [] [] (by decide) (by decide) (by decide) (by decide)
      (mem_nil_elim _) (mem_nil_elim _),
    ReplaceAll_other (str "path/to/id_rsa.pub") (str "test-fixtures/ssh_rsa.pub")
      (str "%{zip_path}") _ _ [] [] (by decide) (by decide) (by decide) (by decide)
      (mem_nil_elim _) (mem_nil_elim _)]

/-- `SubstituteExamplePaths` around an occurrence of `"path/to/index.zip"` whose
last byte does not begin another `"path/to/"`. -/
theorem SubstituteExamplePaths_index_zip (a b : GoString) (hb : ¬ str "ath/to/" <+: b) :
    SubstituteExamplePaths (a ++ (str "path/to/index.zip" ++ b))
      = SubstituteExamplePaths a ++ (str "path/to/index.zip" ++ SubstituteExamplePaths b) := by
  have hb1 := ReplaceAll_not_prefix (str "../static/img/header-logo.png")
    (str "../static/header-logo.png") (str "ath/to/") b (by decide) (by decide) hb
  have hb2 := ReplaceAll_not_prefix (str "path/to/private.key") (str "../static/ssl_cert/test.key")
    (str "ath/to/") _ (by decide) (by decide) hb1
  have hb3 := ReplaceAll_not_prefix (str "path/to/id_rsa.pub") (str "../static/ssh_rsa.pub")
    (str "ath/to/") _ (by decide) (by decide) hb2
  have hk : ¬ str "ath/to/private.key" <+: _ :=
    fun h => hb1 ((by decide : str "ath/to/" <+: str "ath/to/private.key").trans h)
  have hi : ¬ str "ath/to/id_rsa.pub" <+: _ :=
    fun h => hb2 ((by decide : str "ath/to/" <+: str "ath/to/id_rsa.pub").trans h)
  have hc : ¬ str "ath/to/certificate.crt" <+: _ :=
    fun h => hb3 ((by decide : str "ath/to/" <+: str "ath/to/certificate.crt").trans h)
  unfold SubstituteExamplePaths
  simp only []
  rw [ReplaceAll_other (str "../static/img/header-logo.png") (str "../static/header-logo.png")
      (str "path/to/index.zip") a b [] [] (by decide) (by decide) (by decide) (by decide)
      (mem_nil_elim _) (mem_nil_elim _),
    ReplaceAll_other (str "path/to/private.key") (str "../static/ssl_cert/test.key")
      (str "path/to/index.zip") _ _ [] [str "ath/to/private.key"]
      (by decide) (by decide) (by decide) (by decide)
      (mem_nil_elim _) (mem_singleton_elim _ _ hk),
    ReplaceAll_other (str "path/to/id_rsa.pub") (str "../static/ssh_rsa.pub")
      (str "path/to/index.zip") _ _ [] [str "ath/to/id_rsa.pub"]
      (by decide) (by decide) (by decide) (by decide)
      (mem_nil_elim _) (mem_singleton_elim _ _ hi),
    ReplaceAll_other (str "path/to/certificate.crt") (str "../static/ssl_cert/test.crt")
      (str "path/to/index.zip") _ _ [] [str "ath/to/certificate.crt"]
      (by decide) (by decide) (by decide) (by decide)
      (mem_nil_elim _) (mem_singleton_elim _ _ hc)]

/-- A replacement whose last byte is `c`, applied to a text whose last byte is
`c`, gives a text whose last byte is `c`. -/
theorem ReplaceAll_concat (old new : GoString) (c : Nat) (hold : old ≠ [])
    (hnew : ∃ n', new = n' ++ [c]) :
    ∀ (n : Nat) (s : GoString), s.length ≤ n →
      ∃ s', ReplaceAll (s ++ [c]) old new = s' ++ [c] := by
  obtain ⟨n', hn'⟩ := hnew
  intro n
  induction n with
  | zero =>
    intro s hs
    have : s = [] := List.length_eq_zero.mp (Nat.le_zero.mp hs)
    subst this
    by_cases hmatch : old <+: [c]
    · obtain ⟨r, hr⟩ := hmatch
      have hlen := congrArg List.length hr
      have hpos : 0 < old.length := List.length_pos.mpr hold
      simp only [List.length_append, List.length_cons, List.length_nil] at hlen
      have hr0 : r = [] := List.length_eq_zero.mp (by omega)
      subst hr0
      rw [List.append_nil] at hr
      subst hr
      refine ⟨n', ?_⟩
      have h1 := ReplaceAll_append [c] new [] hold
      rw [List.append_nil, ReplaceAll_nil, List.append_nil] at h1
      rw [List.nil_append, h1, hn']
    · exact ⟨[], by rw [List.nil_append, ReplaceAll_cons _ _ _ _ hmatch, ReplaceAll_nil]⟩
  | succ n ih =>
    intro s hs
    cases s with
    | nil => exact ih [] (Nat.zero_le _)
    | cons x s =>
      by_cases hmatch : old <+: x :: (s ++ [c])
      · obtain ⟨r, hr⟩ := hmatch
        rw [List.cons_append, ← hr, ReplaceAll_append _ _ _ hold]
        by_cases hr0 : r = []
        · subst hr0
          exact ⟨n', by rw [ReplaceAll_nil, List.append_nil, hn']⟩
        · have hsplit : ∃ r', r = r' ++ [c] := by
            have hr' : old ++ r = (x :: s) ++ [c] := hr
            rcases List.append_eq_append_iff.mp hr' with ⟨a', -, h2⟩ | ⟨c', -, h2⟩
            · exact ⟨a', h2⟩
            · rcases List.append_eq_cons_iff.mp h2.symm with ⟨-, h3⟩ | ⟨t, -, h3⟩
              · exact ⟨[], by rw [h3]; rfl⟩
              · exact absurd (List.append_eq_nil.mp h3.symm).2 hr0
          obtain ⟨r', hr'⟩ := hsplit
          have hlen : r'.length ≤ n := by
            have h1 := congrArg List.length hr
            have hpos : 0 < old.length := List.length_pos.mpr hold
            have h2 := congrArg List.length hr'
            simp only [List.length_append, List.length_cons, List.length_nil] at h1 h2 hs
            omega
          obtain ⟨s', hs'⟩ := ih r' hlen
          rw [hr', hs']
          exact ⟨new ++ s', by rw [List.append_assoc]⟩
      · obtain ⟨s', hs'⟩ := ih s (by simpa using hs)
        rw [List.cons_append, ReplaceAll_cons _ _ _ _ hmatch, hs']
        exact ⟨x :: s', rfl⟩

/-- The step for `"path/to/certificate.crt"` of `SubstituteTestPaths` in front of
a `"test-fixtures/test.key"`: a match can take the first byte of it only, and
gives it back. -/
theorem crt_step_at_test_key (A B : GoString) :
    ∃ a3, ReplaceAll (A ++ (str "test-fixtures/test.key" ++ B)) (str "path/to/certificate.crt")
        (str "test-fixtures/test.crt")
      = a3 ++ (str "test-fixtures/test.key"
          ++ ReplaceAll B (str "path/to/certificate.crt") (str "test-fixtures/test.crt")) := by
  obtain ⟨a3, h3⟩ := ReplaceAll_concat (str "path/to/certificate.crt")
    (str "test-fixtures/test.crt") 116 (by decide) ⟨str "test-fixtures/test.cr", by decide⟩
    A.length A (Nat.le_refl _)
  refine ⟨a3, ?_⟩
  have hk : str "test-fixtures/test.key" = [116] ++ str "est-fixtures/test.key" := by decide
  rw [hk, List.append_assoc, ← List.append_assoc A,
    ReplaceAll_other (str "path/to/certificate.crt") (str "test-fixtures/test.crt")
      (str "est-fixtures/test.key") (A ++ [116]) B [] [] (by decide) (by decide) (by decide)
      (by decide) (mem_nil_elim _) (mem_nil_elim _), h3]
  simp only [List.append_assoc]

/-- `SubstituteTestPaths` puts `"test-fixtures/test.key"` in the place of every
occurrence of `"path/to/private.key"` and rewrites the text after it on its own. -/
theorem SubstituteTestPaths_private_key_target (a b : GoString) :
    ∃ a', SubstituteTestPaths (a ++ (str "path/to/private.key" ++ b))
      = a' ++ (str "test-fixtures/test.key" ++ SubstituteTestPaths b) := by
  obtain ⟨a3, h3⟩ := crt_step_at_test_key
    (ReplaceAll (ReplaceAll a (str "../static/img/header-logo.png")
      (str "test-fixtures/header-logo.png")) (str "path/to/private.key")
      (str "test-fixtures/test.key"))
    (ReplaceAll (ReplaceAll b (str "../static/img/header-logo.png")
      (str "test-fixtures/header-logo.png")) (str "path/to/private.key")
      (str "test-fixtures/test.key"))
  refine ⟨ReplaceAll (ReplaceAll (ReplaceAll a3 (str "path/to/index.zip") (str "%{zip_path}"))
    (str "verified-domain.com")
    (str "tf-test-domain%{random_suffix}.gcp.tfacc.hashicorptest.com"))
    (str "path/to/id_rsa.pub") (str "test-fixtures/ssh_rsa.pub"), ?_⟩
  unfold SubstituteTestPaths
  simp only []
  rw [ReplaceAll_other (str "../static/img/header-logo.png") (str "test-fixtures/header-logo.png")
      (str "path/to/private.key") a b [] [] (by decide) (by decide) (by decide) (by decide)
      (mem_nil_elim _) (mem_nil_elim _),
    ReplaceAll_self (str "path/to/private.key") (str "test-fixtures/test.key") _ _ []
      (by decide) (by decide) (mem_nil_elim _),
    h3,
    ReplaceAll_other (str "path/to/index.zip") (str "%{zip_path}")
      (str "test-fixtures/test.key") _ _ [] [] (by decide) (by decide) (by decide) (by decide)
      (mem_nil_elim _) (mem_nil_elim _),
    ReplaceAll_other (str "verified-domain.com")
      (str "tf-test-domain%{random_suffix}.gcp.tfacc.hashicorptest.com")
      (str "test-fixtures/test.key") _ _ [] [] (by decide) (by decide) (by decide) (by decide)
      (mem_nil_elim _) (mem_nil_elim _),
    ReplaceAll_other (str "path/to/id_rsa.pub") (str "test-fixtures/ssh_rsa.pub")
      (str "test-fixtures/test.key") _ _ [] [] (by decide) (by decide) (by decide) (by decide)
      (mem_nil_elim _) (mem_nil_elim _)]

/-- C10 (as stated, refuted).  The text `"path/to/index.zipath/to/private.key"`
contains `"path/to/index.zip"`, whose last byte begins a `"path/to/private.key"`.
`SubstituteTestPaths` replaces the latter first, so the result holds no
`"%{zip_path}"`; `SubstituteExamplePaths` does not leave the occurrence of
`"path/to/index.zip"` unchanged, since it takes its last byte. -/
theorem C10_counterexample :
    str "path/to/index.zip" <:+: str "path/to/index.zipath/to/private.key" ∧
    SubstituteTestPaths (str "path/to/index.zipath/to/private.key")
      = str "path/to/index.zitest-fixtures/test.key" ∧
    ¬ str "%{zip_path}" <:+: SubstituteTestPaths (str "path/to/index.zipath/to/private.key") ∧
    SubstituteExamplePaths (str "path/to/index.zipath/to/private.key")
      = str "path/to/index.zi../static/ssl_cert/test.key" ∧
    ¬ str "path/to/index.zip"
      <:+: SubstituteExamplePaths (str "path/to/index.zipath/to/private.key") := by
  decide

/-- C10 (amended).  `SubstituteExamplePaths` maps `"path/to/private.key"` to
`"../static/ssl_cert/test.key"` and `SubstituteTestPaths` maps it to
`"test-fixtures/test.key"`.  In every text each occurrence of
`"path/to/private.key"` is replaced by the target of the variant, and the text
after it (for `SubstituteExamplePaths` also the text before it, for
`SubstituteTestPaths` the text before it unless that ends with
`"path/to/certificate.cr"`) is rewritten on its own.  `SubstituteTestPaths`
rewrites every occurrence of `"verified-domain.com"`, and every occurrence of
`"path/to/index.zip"` that neither follows `"path/to/index.zi"` nor is followed by
`"ath/to/"`; `SubstituteExamplePaths` leaves every occurrence of
`"verified-domain.com"` as it is, and every occurrence of `"path/to/index.zip"` that
is not followed by `"ath/to/"`. -/
theorem C10_path_substitution :
    (SubstituteExamplePaths (str "path/to/private.key") = str "../static/ssl_cert/test.key" ∧
      SubstituteTestPaths (str "path/to/private.key") = str "test-fixtures/test.key") ∧
    (∀ a b : GoString,
      SubstituteExamplePaths (a ++ (str "path/to/private.key" ++ b))
        = SubstituteExamplePaths a
          ++ (str "../static/ssl_cert/test.key" ++ SubstituteExamplePaths b)) ∧
    (∀ a b : GoString, ∃ a',
      SubstituteTestPaths (a ++ (str "path/to/private.key" ++ b))
        = a' ++ (str "test-fixtures/test.key" ++ SubstituteTestPaths b) ∧
      (¬ str "path/to/certificate.cr" <:+ a → a' = SubstituteTestPaths a)) ∧
    (∀ a b : GoString,
      SubstituteTestPaths (a ++ (str "verified-domain.com" ++ b))
        = SubstituteTestPaths a
          ++ (str "tf-test-domain%{random_suffix}.gcp.tfacc.hashicorptest.com"
            ++ SubstituteTestPaths b)) ∧
    (∀ a b : GoString,
      SubstituteExamplePaths (a ++ (str "verified-domain.com" ++ b))
        = SubstituteExamplePaths a ++ (str "verified-domain.com" ++ SubstituteExamplePaths b)) ∧
    (∀ a b : GoString, ¬ str "path/to/index.zi" <:+ a → ¬ str "ath/to/" <+: b →
      SubstituteTestPaths (a ++ (str "path/to/index.zip" ++ b))
        = SubstituteTestPaths a ++ (str "%{zip_path}" ++ SubstituteTestPaths b)) ∧
    (∀ a b : GoString, ¬ str "ath/to/" <+: b →
      SubstituteExamplePaths (a ++ (str "path/to/index.zip" ++ b))
        = SubstituteExamplePaths a ++ (str "path/to/index.zip" ++ SubstituteExamplePaths b)) := by
  refine ⟨by decide, SubstituteExamplePaths_private_key, ?_, SubstituteTestPaths_domain,
    SubstituteExamplePaths_domain, SubstituteTestPaths_index_zip,
    SubstituteExamplePaths_index_zip⟩
  intro a b
  obtain ⟨a', ha'⟩ := SubstituteTestPaths_private_key_target a b
  refine ⟨a', ha', fun hcond => ?_⟩
  have h := SubstituteTestPaths_private_key a b hcond
  rw [ha'] at h
  exact List.append_cancel_right h

/-- C10 (amended) on a text with the three placeholders. -/
theorem C10_path_substitution_witness :
    SubstituteTestPaths (str "key = path/to/private.key\n")
      = str "key = test-fixtures/test.key\n" ∧
    SubstituteTestPaths (str "zip = path/to/index.zip\n") = str "zip = %{zip_path}\n" ∧
    SubstituteExamplePaths (str "zip = path/to/index.zip\n") = str "zip = path/to/index.zip\n" := by
  obtain ⟨a', h1, h2⟩ := C10_path_substitution.2.2.1 (str "key = ") (str "\n")
  have h3 := h2 (by decide)
  subst h3
  exact ⟨h1,
    C10_path_substitution.2.2.2.2.2.1 (str "zip = ") (str "\n") (by decide) (by decide),
    C10_path_substitution.2.2.2.2.2.2 (str "zip = ") (str "\n") (by decide)⟩


/-! ## The executor and the documentation text (C11, C12) -/

/-- A successful `ExecuteTemplate` returns what the engine wrote, with a line
terminator appended when that text does not end with one. -/
theorem ExecuteTemplate_result (w : World) (e : Examples) (rs : GoString)
    (h : ExecuteTemplate w e = .ok rs) :
    ∃ content raw, w.readFile e.ConfigPath = some content ∧
      w.execute e.ConfigPath content e = some raw ∧
      rs = if HasSuffix raw (str "\n") then raw else raw ++ str "\n" := by
  unfold ExecuteTemplate at h
  split at h
  · exact absurd h (by simp)
  · rename_i content hread
    split at h
    · exact absurd h (by simp)
    · split at h
      · exact absurd h (by simp)
      · split at h
        · exact absurd h (by simp)
        · rename_i raw hraw
          injection h with h
          exact ⟨content, raw, hread, hraw, h.symm⟩

theorem str_newline : str "\n" = [10] := by decide

theorem str_two_newlines : str "\n\n" = [10, 10] := by decide

theorem HasSuffix_iff (s suffix : GoString) : HasSuffix s suffix = true ↔ suffix <:+ s := by
  simp [HasSuffix]

/-- A text that does not end with a line terminator ends with exactly one once a
line terminator is appended. -/
theorem not_two_newlines_append (raw : GoString) (h : ¬ [10] <:+ raw) :
    ¬ [10, 10] <:+ raw ++ [10] := by
  intro h2
  apply h
  obtain ⟨t, ht⟩ := h2
  have ht' : (t ++ [10]) ++ [10] = raw ++ [10] := by
    rw [List.append_assoc]; exact ht
  exact ⟨t, List.append_cancel_right ht'⟩

/-- C11 (as stated, refuted).  When the engine writes `"a\n\n"`, `ExecuteTemplate`
returns `"a\n\n"`, a text that ends with two line terminators. -/
theorem C11_counterexample :
    ExecuteTemplate (echoWorld (str "a\n\n")) emptyExample = .ok (str "a\n\n") ∧
    str "\n\n" <:+ str "a\n\n" :=
  ⟨rfl, by decide⟩

/-- C11 (amended).  The text returned by `ExecuteTemplate` ends with a line
terminator: it is the text written by the engine when that ends with one, and
that text followed by one `"\n"` otherwise.  It ends with two line terminators
exactly when the text written by the engine does. -/
theorem C11_executor_output (w : World) (e : Examples) (rs : GoString)
    (h : ExecuteTemplate w e = .ok rs) :
    ∃ content raw, w.readFile e.ConfigPath = some content ∧
      w.execute e.ConfigPath content e = some raw ∧
      str "\n" <:+ rs ∧
      (str "\n" <:+ raw → rs = raw) ∧
      (¬ str "\n" <:+ raw → rs = raw ++ str "\n") ∧
      (str "\n\n" <:+ rs ↔ str "\n\n" <:+ raw) := by
  obtain ⟨content, raw, hread, hraw, hrs⟩ := ExecuteTemplate_result w e rs h
  refine ⟨content, raw, hread, hraw, ?_⟩
  by_cases hs : str "\n" <:+ raw
  · rw [if_pos ((HasSuffix_iff _ _).mpr hs)] at hrs
    subst hrs
    exact ⟨hs, fun _ => rfl, fun hn => absurd hs hn, Iff.rfl⟩
  · rw [if_neg (fun hh => hs ((HasSuffix_iff _ _).mp hh))] at hrs
    subst hrs
    refine ⟨List.suffix_append _ _, fun hh => absurd hh hs, fun _ => rfl, ?_⟩
    rw [str_newline] at hs ⊢
    rw [str_two_newlines]
    constructor
    · intro h2
      exact absurd h2 (not_two_newlines_append raw hs)
    · intro h2
      exfalso
      apply hs
      exact (show [10] <:+ [10, 10] from ⟨[10], rfl⟩).trans h2

/-- C11 (amended) on a text without final line terminator. -/
theorem C11_executor_output_witness :
    ExecuteTemplate (echoWorld (str "a")) emptyExample = .ok (str "a\n") ∧
    ∃ content raw, (echoWorld (str "a")).readFile emptyExample.ConfigPath = some content ∧
      (echoWorld (str "a")).execute emptyExample.ConfigPath content emptyExample = some raw ∧
      str "\n" <:+ str "a\n" ∧
      (str "\n" <:+ raw → str "a\n" = raw) ∧
      (¬ str "\n" <:+ raw → str "a\n" = raw ++ str "\n") ∧
      (str "\n\n" <:+ str "a\n" ↔ str "\n\n" <:+ raw) :=
  ⟨rfl, C11_executor_output (echoWorld (str "a")) emptyExample (str "a\n") rfl⟩

/-- C12 (as stated, refuted).  The documentation text of a template that holds
`"path/to/private.key"` still holds it: no path table is applied to
`DocumentationHCLText`. -/
theorem C12_counterexample :
    SetHCLText (echoWorld (str "key = path/to/private.key\n")) emptyExample
      = .ok { emptyExample with
          DocumentationHCLText := str "key = path/to/private.key\n",
          TestHCLText := str "key = test-fixtures/test.key\n" } ∧
    str "key = path/to/private.key\n"
      ≠ SubstituteExamplePaths
          (removeRegionTags (collapseTrailingBlank (str "key = path/to/private.key\n"))) ∧
    ¬ str "../static/ssl_cert/test.key" <:+: str "key = path/to/private.key\n" :=
  ⟨rfl, by decide, by decide⟩

/-- C12 (amended).  `DocumentationHCLText` set by `SetHCLText` is the collapsed,
region-stripped output of the documentation render, with no path table applied;
`SubstituteExamplePaths` is applied by `SetOiCSHCLText` to the collapsed,
region-stripped output of the cloud-shell render, and `SubstituteTestPaths` by
`SetHCLText` to that of the test render. -/
theorem C12_documentation_text (w : World) (e e' : Examples) :
    (SetHCLText w e = .ok e' →
      ∃ docRaw testRaw,
        ExecuteTemplate w { e with TestEnvVars := docTestEnvVars e.TestEnvVars } = .ok docRaw ∧
        e'.DocumentationHCLText = removeRegionTags (collapseTrailingBlank docRaw) ∧
        ExecuteTemplate w { e with
          DocumentationHCLText := removeRegionTags (collapseTrailingBlank docRaw),
          Vars := testVars e.Vars e.TestVarsOverrides,
          TestEnvVars := testTestEnvVars e.TestEnvVars } = .ok testRaw ∧
        e'.TestHCLText
          = SubstituteTestPaths (removeRegionTags (collapseTrailingBlank testRaw))) ∧
    (SetOiCSHCLText w e = .ok e' →
      ∃ raw,
        ExecuteTemplate w { e with Vars := oicsVars e.Vars e.OicsVarsOverrides } = .ok raw ∧
        e'.OicsHCLText
          = SubstituteExamplePaths (removeRegionTags (collapseTrailingBlank raw))) := by
  constructor
  · intro h
    obtain ⟨docRaw, testRaw, hdoc, htest, he⟩ := SetHCLText_ok w e e' h
    exact ⟨docRaw, testRaw, hdoc, by rw [he], htest, by rw [he]⟩
  · intro h
    obtain ⟨raw, hraw, he⟩ := SetOiCSHCLText_ok w e e' h
    exact ⟨raw, hraw, by rw [he]⟩

/-- C12 (amended) on a template that holds `"path/to/private.key"`. -/
theorem C12_documentation_text_witness :
    (∃ docRaw testRaw,
      ExecuteTemplate (echoWorld (str "key = path/to/private.key\n"))
        { emptyExample with TestEnvVars := docTestEnvVars emptyExample.TestEnvVars }
        = .ok docRaw ∧
      str "key = path/to/private.key\n" = removeRegionTags (collapseTrailingBlank docRaw) ∧
      ExecuteTemplate (echoWorld (str "key = path/to/private.key\n"))
        { emptyExample with
          DocumentationHCLText := removeRegionTags (collapseTrailingBlank docRaw),
          Vars := testVars emptyExample.Vars emptyExample.TestVarsOverrides,
          TestEnvVars := testTestEnvVars emptyExample.TestEnvVars } = .ok testRaw ∧
      str "key = test-fixtures/test.key\n"
        = SubstituteTestPaths (removeRegionTags (collapseTrailingBlank testRaw))) ∧
    (∃ raw,
      ExecuteTemplate (echoWorld (str "key = path/to/private.key\n"))
        { emptyExample with Vars := oicsVars emptyExample.Vars emptyExample.OicsVarsOverrides }
        = .ok raw ∧
      str "key = ../static/ssl_cert/test.key\n"
        = SubstituteExamplePaths (removeRegionTags (collapseTrailingBlank raw))) :=
  ⟨(C12_documentation_text (echoWorld (str "key = path/to/private.key\n")) emptyExample
      { emptyExample with
        DocumentationHCLText := str "key = path/to/private.key\n",
        TestHCLText := str "key = test-fixtures/test.key\n" }).1 rfl,
   (C12_documentation_text (echoWorld (str "key = path/to/private.key\n")) emptyExample
      { emptyExample with OicsHCLText := str "key = ../static/ssl_cert/test.key\n" }).2 rfl⟩


/-! ## Defaults, documented values, resource type, validation of the record (C13 to C16) -/

/-- A successful `UnmarshalYAML` without decoding error: the template path is the
decoded one, or `templates/terraform/examples/NAME.tf.tmpl` when the decoded one
is empty, and the record is the one `SetHCLText` returns for it. -/
theorem UnmarshalYAML_ok (w : World) (unmarshal : Examples → Examples × Option GoString)
    (e e' : Examples) (h : UnmarshalYAML w unmarshal e = .ok (e', none)) :
    (unmarshal e).2 = none ∧
    SetHCLText w
      (if (unmarshal e).1.ConfigPath = [] then
        { (unmarshal e).1 with
          ConfigPath := str "templates/terraform/examples/" ++ (unmarshal e).1.Name
            ++ str ".tf.tmpl" }
      else (unmarshal e).1) = .ok e' := by
  unfold UnmarshalYAML at h
  split at h
  · rename_i e1 err hu
    injection h with h
    injection h with _ h2
    cases h2
  · rename_i e1 hu
    simp only at h
    split at h
    · exact absurd h (by simp)
    · rename_i e2 hset
      injection h with h
      injection h with h1 _
      rw [hu]
      subst h1
      exact ⟨rfl, hset⟩

/-- C13 (the code against its documentation).  Decoding a record with the name
`network_basic` and no template path gives the path
`templates/terraform/examples/network_basic.tf.tmpl`, not the `.tf.erb` path of
the comment on `ConfigPath`; a decoded path that is not empty is kept. -/
theorem C13_config_path_default :
    (∃ e', UnmarshalYAML (echoWorld (str "a\n"))
        (fun e => ({ e with Name := str "network_basic" }, none)) emptyExample = .ok (e', none) ∧
      e'.ConfigPath = str "templates/terraform/examples/network_basic.tf.tmpl" ∧
      e'.ConfigPath ≠ str "templates/terraform/examples/" ++ str "network_basic" ++ str ".tf.erb") ∧
    (∃ e', UnmarshalYAML (echoWorld (str "a\n"))
        (fun e => ({ e with Name := str "network_basic", ConfigPath := str "my/own.tf.tmpl" }, none))
        emptyExample = .ok (e', none) ∧
      e'.ConfigPath = str "my/own.tf.tmpl") :=
  ⟨⟨_, rfl, by decide, by decide⟩, ⟨_, rfl, by decide⟩⟩

/-- C14 (the code against its documentation).  With `vars["network"] = "my-vpc"`
and no override the test value of `network` is `"tf-test-my-vpc%{random_suffix}"`,
not the `"my-vpc%{random_suffix}"` of the comment on `TestVarsOverrides`, and the
provided value is not a prefix of it. -/
theorem C14_documented_test_value :
    (testVars (GoMap.ofList [(str "network", str "my-vpc")]) ∅).lookup (str "network")
      = some (str "tf-test-my-vpc%{random_suffix}") ∧
    (testVars (GoMap.ofList [(str "network", str "my-vpc")]) ∅).lookup (str "network")
      ≠ some (str "my-vpc%{random_suffix}") ∧
    ¬ str "my-vpc" <+: str "tf-test-my-vpc%{random_suffix}" := by
  decide

/-- C15. `ResourceType` returns `PrimaryResourceType` when that is not empty and
`terraformName` as it is otherwise. -/
theorem C15_resource_type (e : Examples) (terraformName : GoString) :
    (e.PrimaryResourceType ≠ [] → ResourceType e terraformName = e.PrimaryResourceType) ∧
    (e.PrimaryResourceType = [] → ResourceType e terraformName = terraformName) := by
  unfold ResourceType
  constructor
  · intro h; rw [if_pos h]
  · intro h; rw [if_neg (fun hn => hn h)]

/-- C15 with and without an override. -/
theorem C15_resource_type_witness :
    ResourceType { emptyExample with PrimaryResourceType := str "google_compute_address" }
        (str "google_compute_network") = str "google_compute_address" ∧
    ResourceType emptyExample (str "google_compute_network") = str "google_compute_network" :=
  ⟨(C15_resource_type { emptyExample with PrimaryResourceType := str "google_compute_address" }
      (str "google_compute_network")).1 (by decide),
   (C15_resource_type emptyExample (str "google_compute_network")).2 (by decide)⟩

theorem unallowed_eq_nil_iff (providers : List GoString) :
    providers.filter (fun p => !(HASHICORP_PROVIDERS.contains p)) = [] ↔
      ∀ p ∈ providers, p ∈ HASHICORP_PROVIDERS := by
  rw [List.filter_eq_nil_iff]
  constructor
  · intro h p hp
    have := h p hp
    simpa using this
  · intro h p hp
    simpa using h p hp

/-- `ValidateExternalProviders` ends the process exactly when some provider is
not in the list; otherwise the record is as before. -/
theorem ValidateExternalProviders_spec (e : Examples) :
    ((∀ p ∈ e.ExternalProviders, p ∈ HASHICORP_PROVIDERS) →
      ValidateExternalProviders e = .ok e) ∧
    ((∃ p ∈ e.ExternalProviders, p ∉ HASHICORP_PROVIDERS) →
      ValidateExternalProviders e
        = .error (.unallowedProviders
            (e.ExternalProviders.filter (fun p => !(HASHICORP_PROVIDERS.contains p))))) := by
  unfold ValidateExternalProviders
  simp only
  constructor
  · intro h
    rw [(unallowed_eq_nil_iff _).mpr h]
    rfl
  · rintro ⟨p, hp, hnot⟩
    have hne : e.ExternalProviders.filter (fun p => !(HASHICORP_PROVIDERS.contains p)) ≠ [] :=
      fun hnil => hnot ((unallowed_eq_nil_iff _).mp hnil p hp)
    rw [if_pos (List.length_pos.mpr hne)]

/-- C16. `Validate` ends the process exactly when `Name` is empty or some external
provider is not in `HASHICORP_PROVIDERS`: with the error for the missing name in
the first case, with the error listing the providers that are not allowed in the
second.  Otherwise it returns and the record is as before. -/
theorem C16_validate (e : Examples) (rName : GoString) :
    ((∃ err, Validate e rName = .error err) ↔
      (e.Name = [] ∨ ∃ p ∈ e.ExternalProviders, p ∉ HASHICORP_PROVIDERS)) ∧
    (e.Name = [] → Validate e rName = .error (.missingName rName)) ∧
    (e.Name ≠ [] → (∃ p ∈ e.ExternalProviders, p ∉ HASHICORP_PROVIDERS) →
      Validate e rName
        = .error (.unallowedProviders
            (e.ExternalProviders.filter (fun p => !(HASHICORP_PROVIDERS.contains p))))) ∧
    (e.Name ≠ [] → (∀ p ∈ e.ExternalProviders, p ∈ HASHICORP_PROVIDERS) →
      Validate e rName = .ok e) := by
  have h1 : e.Name = [] → Validate e rName = .error (.missingName rName) := by
    intro h; unfold Validate; rw [if_pos h]
  have h2 : e.Name ≠ [] → (∃ p ∈ e.ExternalProviders, p ∉ HASHICORP_PROVIDERS) →
      Validate e rName
        = .error (.unallowedProviders
            (e.ExternalProviders.filter (fun p => !(HASHICORP_PROVIDERS.contains p)))) := by
    intro h hp; unfold Validate; rw [if_neg h]; exact (ValidateExternalProviders_spec e).2 hp
  have h3 : e.Name ≠ [] → (∀ p ∈ e.ExternalProviders, p ∈ HASHICORP_PROVIDERS) →
      Validate e rName = .ok e := by
    intro h hp; unfold Validate; rw [if_neg h]; exact (ValidateExternalProviders_spec e).1 hp
  refine ⟨⟨?_, ?_⟩, h1, h2, h3⟩
  · rintro ⟨err, herr⟩
    by_contra hcon
    rw [not_or] at hcon
    obtain ⟨hname, hprov⟩ := hcon
    have hall : ∀ p ∈ e.ExternalProviders, p ∈ HASHICORP_PROVIDERS := by
      intro p hp
      by_contra hnot
      exact hprov ⟨p, hp, hnot⟩
    rw [h3 hname hall] at herr
    cases herr
  · rintro (hname | hprov)
    · exact ⟨_, h1 hname⟩
    · by_cases hname : e.Name = []
      · exact ⟨_, h1 hname⟩
      · exact ⟨_, h2 hname hprov⟩

/-- C16 on a record without name, on one with a provider that is not allowed, and
on records that pass (allowed providers, no provider). -/
theorem C16_validate_witness :
    Validate emptyExample (str "Address") = .error (.missingName (str "Address")) ∧
    Validate { emptyExample with
        Name := str "x", ExternalProviders := [str "aws", str "foo", str "time", str "bar"] }
      (str "Address") = .error (.unallowedProviders [str "foo", str "bar"]) ∧
    Validate { emptyExample with Name := str "x", ExternalProviders := [str "random", str "time"] }
      (str "Address")
      = .ok { emptyExample with
          Name := str "x", ExternalProviders := [str "random", str "time"] } ∧
    Validate { emptyExample with Name := str "x" } (str "Address")
      = .ok { emptyExample with Name := str "x" } :=
  ⟨(C16_validate emptyExample (str "Address")).2.1 (by decide),
   (C16_validate { emptyExample with
        Name := str "x", ExternalProviders := [str "aws", str "foo", str "time", str "bar"] }
      (str "Address")).2.2.1 (by decide) ⟨str "foo", by decide, by decide⟩,
   (C16_validate { emptyExample with
        Name := str "x", ExternalProviders := [str "random", str "time"] }
      (str "Address")).2.2.2 (by decide) (by decide),
   (C16_validate { emptyExample with Name := str "x" } (str "Address")).2.2.2 (by decide)
      (by decide)⟩


/-! ## Order of the post-processing steps, trailing blank line (C17, C18) -/

/-- C17. The order of the post-processing steps matters.  In
`"key = path/to/pri# [x]\nvate.key\n"` a region marker splits a placeholder path:
the implemented order (collapse, strip the markers, substitute the paths) rewrites
the path, for the test text and for the cloud-shell text, while substituting the
paths before stripping the markers leaves `"path/to/private.key"` in the text. -/
theorem C17_step_order :
    ∃ raw : GoString,
      SetHCLText (echoWorld raw) emptyExample
        = .ok { emptyExample with
            DocumentationHCLText := removeRegionTags (collapseTrailingBlank raw),
            TestHCLText := SubstituteTestPaths (removeRegionTags (collapseTrailingBlank raw)) } ∧
      SetOiCSHCLText (echoWorld raw) emptyExample
        = .ok { emptyExample with
            OicsHCLText
              := SubstituteExamplePaths (removeRegionTags (collapseTrailingBlank raw)) } ∧
      SubstituteTestPaths (removeRegionTags (collapseTrailingBlank raw))
        = str "key = test-fixtures/test.key\n" ∧
      removeRegionTags (SubstituteTestPaths (collapseTrailingBlank raw))
        = str "key = path/to/private.key\n" ∧
      SubstituteTestPaths (removeRegionTags (collapseTrailingBlank raw))
        ≠ removeRegionTags (SubstituteTestPaths (collapseTrailingBlank raw)) ∧
      SubstituteTestPaths (removeRegionTags (collapseTrailingBlank raw))
        ≠ removeRegionTags (collapseTrailingBlank (SubstituteTestPaths raw)) ∧
      SubstituteExamplePaths (removeRegionTags (collapseTrailingBlank raw))
        = str "key = ../static/ssl_cert/test.key\n" ∧
      SubstituteExamplePaths (removeRegionTags (collapseTrailingBlank raw))
        ≠ removeRegionTags (SubstituteExamplePaths (collapseTrailingBlank raw)) ∧
      SubstituteExamplePaths (removeRegionTags (collapseTrailingBlank raw))
        ≠ removeRegionTags (collapseTrailingBlank (SubstituteExamplePaths raw)) :=
  ⟨str "key = path/to/pri# [x]\nvate.key\n", rfl, rfl, by decide, by decide, by decide, by decide,
    by decide, by decide, by decide⟩

theorem trailingBlank_eq_some_iff (t : GoString) (k : Nat) :
    trailingBlank t = some k ↔ t = [10, 10] ∧ k = 2 := by
  unfold trailingBlank
  by_cases h : t = [10, 10]
  · rw [if_pos h]
    simp [h, eq_comm]
  · rw [if_neg h]
    simp [h]

/-- The collapse step on a text that ends with two line terminators: the bytes in
front of them are kept as they are, one line terminator is kept. -/
theorem collapseTrailingBlank_append (pre : GoString) :
    collapseTrailingBlank (pre ++ [10, 10]) = pre ++ [10] := by
  unfold collapseTrailingBlank
  induction pre with
  | nil =>
    rw [List.nil_append,
      replaceMatches_cons_match trailingBlank [10] 10 [10] 1
        ((trailingBlank_eq_some_iff _ _).mpr ⟨rfl, rfl⟩)]
    rfl
  | cons c pre ih =>
    have hno : ∀ n, trailingBlank (c :: (pre ++ [10, 10])) ≠ some (n + 1) := by
      intro n hn
      have h1 := ((trailingBlank_eq_some_iff _ _).mp hn).1
      have h2 := congrArg List.length h1
      simp only [List.length_cons, List.length_append, List.length_nil] at h2
      omega
    rw [List.cons_append, replaceMatches_cons_skip trailingBlank [10] c _ hno, ih]
    rfl

/-- The collapse step on a text that does not end with two line terminators. -/
theorem collapseTrailingBlank_eq_self (text : GoString) (h : ¬ [10, 10] <:+ text) :
    collapseTrailingBlank text = text := by
  unfold collapseTrailingBlank
  apply replaceMatches_eq_self
  intro pre post hsplit
  cases hm : trailingBlank post with
  | none => rfl
  | some k =>
    exfalso
    apply h
    rw [hsplit, ((trailingBlank_eq_some_iff _ _).mp hm).1]
    exact List.suffix_append _ _

/-- C18. The step that replaces `\n\n$` by `"\n"`: a text that ends with two line
terminators loses its last byte, whatever stands in front of the two (blank lines
included); every other text is returned as it is. -/
theorem C18_trailing_blank (text : GoString) :
    (str "\n\n" <:+ text →
      collapseTrailingBlank text = text.dropLast ∧
      (collapseTrailingBlank text).length + 1 = text.length ∧
      collapseTrailingBlank text ++ str "\n" = text) ∧
    (¬ str "\n\n" <:+ text → collapseTrailingBlank text = text) ∧
    (∀ pre : GoString, collapseTrailingBlank (pre ++ str "\n\n") = pre ++ str "\n") := by
  rw [str_two_newlines, str_newline]
  refine ⟨?_, collapseTrailingBlank_eq_self text, collapseTrailingBlank_append⟩
  rintro ⟨pre, rfl⟩
  rw [collapseTrailingBlank_append]
  refine ⟨?_, ?_, ?_⟩
  · have : pre ++ [10, 10] = (pre ++ [10]) ++ [10] := by simp
    rw [this, List.dropLast_concat]
  · simp
  · simp

/-- C18 on a text with a blank line inside and one at its end, on a text that ends
with three line terminators, and on a text with a blank line inside only. -/
theorem C18_trailing_blank_witness :
    collapseTrailingBlank (str "a\n\nb\n\n") = str "a\n\nb\n" ∧
    collapseTrailingBlank (str "a\n\n\n") = str "a\n\n" ∧
    collapseTrailingBlank (str "a\n\nb\n") = str "a\n\nb\n" :=
  ⟨(C18_trailing_blank (str "a\n\nb\n\n")).2.2 (str "a\n\nb"),
   ((C18_trailing_blank (str "a\n\n\n")).1 (by decide)).1,
   (C18_trailing_blank (str "a\n\nb\n")).2.1 (by decide)⟩

/-! ## Keys of the installed mappings (C19, C20) -/

/-- The keys after a `range` loop of assignments. -/
theorem rangeSet_mem (m acc : GoMap) (f : GoString → GoString → GoString) (k : GoString) :
    k ∈ m.rangeSet f acc ↔ k ∈ m ∨ k ∈ acc := by
  rw [← AList.lookup_isSome, rangeSet_lookup, ← AList.lookup_isSome, ← AList.lookup_isSome]
  cases m.lookup k with
  | none => simp
  | some v => simp

theorem not_mem_empty_map (k : GoString) : k ∉ (∅ : GoMap) := AList.not_mem_empty k

/-- Validation against a mapping goes through against every mapping with at
least its keys. -/
theorem validateRegexForContents_mono (r : GoString → Option (Nat × GoString))
    (contents configPath objName : GoString) (vars vars' : GoMap)
    (hkeys : ∀ k, k ∈ vars → k ∈ vars')
    (h : validateRegexForContents r contents configPath objName vars = .ok ()) :
    validateRegexForContents r contents configPath objName vars' = .ok () := by
  unfold validateRegexForContents at h ⊢
  rw [validateMatches_ok_iff] at h ⊢
  exact fun name hname => hkeys name (h name hname)

/-- C19. The installed mappings lose no declared key: the test mapping of `Vars`
has the keys of `Vars` and of `TestVarsOverrides`, the cloud-shell mapping those
of `Vars` and of `OicsVarsOverrides`, the documentation and test mappings of
`TestEnvVars` those of `TestEnvVars`.  Hence a template whose references pass
validation against `Vars` and `TestEnvVars` passes it against the mappings of the
documentation, test and cloud-shell renders. -/
theorem C19_keys_kept (Vars TestEnvVars TestVarsOverrides OicsVarsOverrides : GoMap) :
    (∀ k, k ∈ testVars Vars TestVarsOverrides ↔ k ∈ Vars ∨ k ∈ TestVarsOverrides) ∧
    (∀ k, k ∈ oicsVars Vars OicsVarsOverrides ↔ k ∈ Vars ∨ k ∈ OicsVarsOverrides) ∧
    (∀ k, k ∈ docTestEnvVars TestEnvVars ↔ k ∈ TestEnvVars) ∧
    (∀ k, k ∈ testTestEnvVars TestEnvVars ↔ k ∈ TestEnvVars) ∧
    (∀ (r : GoString → Option (Nat × GoString)) (contents configPath objName : GoString),
      (validateRegexForContents r contents configPath objName Vars = .ok () →
        validateRegexForContents r contents configPath objName
            (testVars Vars TestVarsOverrides) = .ok () ∧
        validateRegexForContents r contents configPath objName
            (oicsVars Vars OicsVarsOverrides) = .ok ()) ∧
      (validateRegexForContents r contents configPath objName TestEnvVars = .ok () →
        validateRegexForContents r contents configPath objName
            (docTestEnvVars TestEnvVars) = .ok () ∧
        validateRegexForContents r contents configPath objName
            (testTestEnvVars TestEnvVars) = .ok ())) := by
  have h1 : ∀ k, k ∈ testVars Vars TestVarsOverrides ↔ k ∈ Vars ∨ k ∈ TestVarsOverrides := by
    intro k
    unfold testVars
    rw [rangeSet_mem, rangeSet_mem]
    constructor
    · rintro (h | h | h)
      · exact Or.inr h
      · exact Or.inl h
      · exact absurd h (not_mem_empty_map k)
    · rintro (h | h)
      · exact Or.inr (Or.inl h)
      · exact Or.inl h
  have h2 : ∀ k, k ∈ oicsVars Vars OicsVarsOverrides ↔ k ∈ Vars ∨ k ∈ OicsVarsOverrides := by
    intro k
    unfold oicsVars
    rw [rangeSet_mem, rangeSet_mem]
    constructor
    · rintro (h | h | h)
      · exact Or.inr h
      · exact Or.inl h
      · exact absurd h (not_mem_empty_map k)
    · rintro (h | h)
      · exact Or.inr (Or.inl h)
      · exact Or.inl h
  have h3 : ∀ k, k ∈ docTestEnvVars TestEnvVars ↔ k ∈ TestEnvVars := by
    intro k
    unfold docTestEnvVars
    rw [rangeSet_mem]
    exact ⟨fun h => h.elim id (fun h => absurd h (not_mem_empty_map k)), Or.inl⟩
  have h4 : ∀ k, k ∈ testTestEnvVars TestEnvVars ↔ k ∈ TestEnvVars := by
    intro k
    unfold testTestEnvVars
    rw [rangeSet_mem]
    exact ⟨fun h => h.elim id (fun h => absurd h (not_mem_empty_map k)), Or.inl⟩
  refine ⟨h1, h2, h3, h4, fun r contents configPath objName => ⟨fun h => ⟨?_, ?_⟩,
    fun h => ⟨?_, ?_⟩⟩⟩
  · exact validateRegexForContents_mono r _ _ _ _ _ (fun k hk => (h1 k).mpr (Or.inl hk)) h
  · exact validateRegexForContents_mono r _ _ _ _ _ (fun k hk => (h2 k).mpr (Or.inl hk)) h
  · exact validateRegexForContents_mono r _ _ _ _ _ (fun k hk => (h3 k).mpr hk) h
  · exact validateRegexForContents_mono r _ _ _ _ _ (fun k hk => (h4 k).mpr hk) h

/-- C19 on the sample record and the sample template. -/
theorem C19_keys_kept_witness :
    (validateRegexForContents varRegex sampleTemplate sampleExample.ConfigPath (str "vars")
        (testVars sampleVars sampleOverrides) = .ok () ∧
      validateRegexForContents varRegex sampleTemplate sampleExample.ConfigPath (str "vars")
        (oicsVars sampleVars sampleOverrides) = .ok ()) ∧
    (validateRegexForContents envVarRegex sampleTemplate sampleExample.ConfigPath
        (str "test_env_vars") (docTestEnvVars sampleTestEnvVars) = .ok () ∧
      validateRegexForContents envVarRegex sampleTemplate sampleExample.ConfigPath
        (str "test_env_vars") (testTestEnvVars sampleTestEnvVars) = .ok ()) :=
  ⟨((C19_keys_kept sampleVars sampleTestEnvVars sampleOverrides sampleOverrides).2.2.2.2
      varRegex sampleTemplate sampleExample.ConfigPath (str "vars")).1 rfl,
   ((C19_keys_kept sampleVars sampleTestEnvVars sampleOverrides sampleOverrides).2.2.2.2
      envVarRegex sampleTemplate sampleExample.ConfigPath (str "test_env_vars")).2 rfl⟩

/-- C20. A key of `TestEnvVars` whose category is no key of `docs_defaults` is a
key of the documentation mapping, with the empty text as value; building the
mapping cannot fail, and a reference to the key passes validation against it. -/
theorem C20_unknown_category (TestEnvVars : GoMap) (k cat : GoString)
    (hk : TestEnvVars.lookup k = some cat) (hcat : cat ∉ docs_defaults) :
    (docTestEnvVars TestEnvVars).lookup k = some [] ∧
    k ∈ docTestEnvVars TestEnvVars ∧
    (∀ configPath objName : GoString,
      validateMatches configPath objName (docTestEnvVars TestEnvVars) [k] = .ok ()) ∧
    (∀ (contents configPath objName : GoString),
      validateRegexForContents envVarRegex contents configPath objName TestEnvVars = .ok () →
      validateRegexForContents envVarRegex contents configPath objName
        (docTestEnvVars TestEnvVars) = .ok ()) := by
  have hlook : (docTestEnvVars TestEnvVars).lookup k = some [] := by
    unfold docTestEnvVars
    rw [rangeSet_lookup_of_some _ _ _ _ _ hk, index_of_lookup _ _ _ hk, index_of_not_mem _ _ hcat]
  have hmem : k ∈ docTestEnvVars TestEnvVars := by
    rw [← AList.lookup_isSome, hlook]; rfl
  refine ⟨hlook, hmem, fun configPath objName => ?_, fun contents configPath objName h => ?_⟩
  · rw [validateMatches_ok_iff]
    intro name hname
    rw [List.mem_singleton] at hname
    rw [hname]; exact hmem
  · refine validateRegexForContents_mono envVarRegex _ _ _ _ _ (fun k' hk' => ?_) h
    unfold docTestEnvVars
    rw [rangeSet_mem]
    exact Or.inl hk'

/-- C20 on the key `other` of the sample, whose category is `NOT_A_CATEGORY`, with
a template that refers to it. -/
theorem C20_unknown_category_witness :
    (docTestEnvVars sampleTestEnvVars).lookup (str "other") = some (str "") ∧
    validateRegexForContents envVarRegex
      (str "x = \x7b\x7bindex $.TestEnvVars \"other\"\x7d\x7d\n")
      sampleExample.ConfigPath (str "test_env_vars") (docTestEnvVars sampleTestEnvVars)
      = .ok () :=
  ⟨(C20_unknown_category sampleTestEnvVars (str "other") (str "NOT_A_CATEGORY") (by decide)
      (by decide)).1,
   (C20_unknown_category sampleTestEnvVars (str "other") (str "NOT_A_CATEGORY") (by decide)
      (by decide)).2.2.2 _ _ _ rfl⟩

/-! ## Patterns in the result of a substitution (C21) -/

/-- A text without occurrence of `old` is left as it is. -/
theorem ReplaceAll_eq_self (old new s : GoString) (h : ¬ old <:+: s) :
    ReplaceAll s old new = s := by
  unfold ReplaceAll
  apply replaceMatches_eq_self
  intro pre post hsplit
  cases hm : literal old post with
  | none => rfl
  | some k =>
    exfalso
    obtain ⟨t, ht⟩ := ((literal_eq_some _ _ _).mp hm).1
    exact h ⟨pre, t, by rw [hsplit, List.append_assoc, ht]⟩

/-- A shorter replacement does not make the text longer. -/
theorem length_ReplaceAll_le (old new : GoString) (hold : old ≠ [])
    (hlen : new.length ≤ old.length) :
    ∀ (n : Nat) (s : GoString), s.length ≤ n → (ReplaceAll s old new).length ≤ s.length := by
  intro n
  induction n with
  | zero =>
    intro s hs
    have : s = [] := List.length_eq_zero.mp (Nat.le_zero.mp hs)
    subst this
    exact Nat.le_refl _
  | succ n ih =>
    intro s hs
    cases s with
    | nil => exact Nat.le_refl _
    | cons c s =>
      by_cases hmatch : old <+: c :: s
      · obtain ⟨s2, hs2⟩ := hmatch
        have h1 := congrArg List.length hs2
        have hpos : 0 < old.length := List.length_pos.mpr hold
        rw [List.length_append] at h1
        have := ih s2 (by omega)
        rw [← hs2, ReplaceAll_append _ _ _ hold, List.length_append, List.length_append]
        omega
      · rw [ReplaceAll_cons _ _ _ _ hmatch]
        have := ih s (by simpa using hs)
        simp only [List.length_cons]
        omega

/-- A strictly shorter replacement makes a text with an occurrence of `old`
shorter. -/
theorem length_ReplaceAll_lt (old new : GoString) (hold : old ≠ [])
    (hlen : new.length < old.length) :
    ∀ (pre post : GoString), old <+: post →
      (ReplaceAll (pre ++ post) old new).length < (pre ++ post).length := by
  intro pre
  induction pre with
  | nil =>
    intro post hpost
    obtain ⟨s2, hs2⟩ := hpost
    have := length_ReplaceAll_le old new hold (Nat.le_of_lt hlen) s2.length s2 (Nat.le_refl _)
    rw [List.nil_append, ← hs2, ReplaceAll_append _ _ _ hold, List.length_append,
      List.length_append]
    omega
  | cons c pre ih =>
    intro post hpost
    by_cases hmatch : old <+: c :: (pre ++ post)
    · obtain ⟨s2, hs2⟩ := hmatch
      have := length_ReplaceAll_le old new hold (Nat.le_of_lt hlen) s2.length s2 (Nat.le_refl _)
      rw [List.cons_append, ← hs2, ReplaceAll_append _ _ _ hold, List.length_append,
        List.length_append]
      omega
    · rw [List.cons_append, ReplaceAll_cons _ _ _ _ hmatch]
      have := ih post hpost
      simp only [List.length_cons]
      omega

/-- Where a piece of `q` that begins the result of a replacement step comes from:
it begins the text, or it reaches into a replacement, and then the bytes of `q` in
front of the replacement are one of the texts of `before`, followed in the text by
an occurrence of `old`. -/
theorem ReplaceAll_prefix_source (old new q : GoString) (before : List GoString)
    (hold : old ≠ []) (hnew : new ≠ [])
    (hs : startsClear q new []) (he : endsClear q new before) :
    ∀ (b : GoString) (j : Nat), q.drop j <+: ReplaceAll b old new →
      q.drop j <+: b ∨ ∃ i, j ≤ i ∧ q.take i ∈ before ∧ (q.take i).drop j ++ old <+: b := by
  intro b
  induction b with
  | nil => intro j h; exact Or.inl h
  | cons c b ih =>
    intro j h
    by_cases hj : j < q.length
    · by_cases hmatch : old <+: c :: b
      · obtain ⟨b2, hb2⟩ := hmatch
        rw [← hb2, ReplaceAll_append _ _ _ hold] at h
        have hcmp := List.prefix_or_prefix_of_prefix h (List.prefix_append new _)
        by_cases hj0 : j = 0
        · exfalso
          subst hj0
          rw [List.drop_zero] at hcmp
          have h0 := hs 0 (List.length_pos.mpr hnew)
          rw [List.drop_zero] at h0
          rcases hcmp with h1 | h1
          · exact h0.1 h1
          · exact absurd (h0.2 h1) (List.not_mem_nil _)
        · right
          refine ⟨j, Nat.le_refl _, he j hj (Nat.pos_of_ne_zero hj0) hcmp, ?_⟩
          have hnil : (q.take j).drop j = [] :=
            List.drop_eq_nil_iff.mpr (List.length_take_le _ _)
          rw [hnil, List.nil_append, ← hb2]
          exact List.prefix_append _ _
      · rw [ReplaceAll_cons _ _ _ _ hmatch] at h
        rw [List.drop_eq_getElem_cons hj, List.cons_prefix_cons] at h
        rcases ih (j + 1) h.2 with h1 | ⟨i, hi, hmem, hpre⟩
        · left
          rw [List.drop_eq_getElem_cons hj, List.cons_prefix_cons]
          exact ⟨h.1, h1⟩
        · right
          refine ⟨i, by omega, hmem, ?_⟩
          have hdrop : (q.take i).drop j = q[j] :: (q.take i).drop (j + 1) := by
            have hlt : j < (q.take i).length := by
              rw [List.length_take]; omega
            rw [List.drop_eq_getElem_cons hlt, List.getElem_take]
          rw [hdrop, List.cons_append, List.cons_prefix_cons]
          exact ⟨h.1, hpre⟩
    · rw [List.drop_eq_nil_of_le (Nat.le_of_not_lt hj)]
      exact Or.inl List.nil_prefix

/-- A replacement step leaves no occurrence of `q` in its result when every
occurrence of `q` in the text is one of `old`, the replacement has no room for a
new one, and the text has no occurrence of `old` behind one of the texts of
`before`. -/
theorem ReplaceAll_not_infix (old new q : GoString) (before : List GoString)
    (hold : old ≠ []) (hnew : new ≠ [])
    (hs : startsClear q new []) (he : endsClear q new before) :
    ∀ (n : Nat) (s : GoString), s.length ≤ n →
      (∀ pre post, s = pre ++ post → q <+: post → old <+: post) →
      (∀ p ∈ before, ¬ (p ++ old) <:+: s) →
      ¬ q <:+: ReplaceAll s old new := by
  intro n
  induction n with
  | zero =>
    intro s hsl hocc _ h
    have : s = [] := List.length_eq_zero.mp (Nat.le_zero.mp hsl)
    subst this
    rw [ReplaceAll_nil] at h
    have hq : q = [] := List.infix_nil.mp h
    have := hocc [] [] rfl (by rw [hq])
    exact hold (List.prefix_nil.mp this)
  | succ n ih =>
    intro s hsl hocc hbefore h
    cases s with
    | nil =>
      rw [ReplaceAll_nil] at h
      have hq : q = [] := List.infix_nil.mp h
      have := hocc [] [] rfl (by rw [hq])
      exact hold (List.prefix_nil.mp this)
    | cons c s =>
      by_cases hmatch : old <+: c :: s
      · obtain ⟨s2, hs2⟩ := hmatch
        have hlen : s2.length ≤ n := by
          have h1 := congrArg List.length hs2
          have hpos : 0 < old.length := List.length_pos.mpr hold
          simp only [List.length_append, List.length_cons] at h1 hsl
          omega
        have hIH : ¬ q <:+: ReplaceAll s2 old new := by
          apply ih s2 hlen
          · intro pre post hsplit hq
            exact hocc (old ++ pre) post (by rw [← hs2, hsplit, List.append_assoc]) hq
          · intro p hp hin
            apply hbefore p hp
            rw [← hs2]
            exact hin.trans ⟨old, [], by rw [List.append_nil]⟩
        rw [← hs2, ReplaceAll_append _ _ _ hold] at h
        obtain ⟨t, hqt, ht⟩ := List.infix_iff_prefix_suffix.mp h
        rcases suffix_append_cases t new _ ht with h1 | ⟨x', hne, hx, htx⟩
        · exact hIH (List.infix_iff_prefix_suffix.mpr ⟨t, hqt, h1⟩)
        · obtain ⟨m1, hm1⟩ := hx
          rw [htx] at hqt
          exact startsClear_spec q new _ [] hs (mem_nil_elim _) m1 x' hm1.symm hne hqt
      · rw [ReplaceAll_cons _ _ _ _ hmatch] at h
        rcases List.infix_cons_iff.mp h with h1 | h1
        · rw [← ReplaceAll_cons _ _ _ _ hmatch] at h1
          have h2 := ReplaceAll_prefix_source old new q before hold hnew hs he (c :: s) 0
          rw [List.drop_zero] at h2
          rcases h2 h1 with h3 | ⟨i, -, hmem, hpre⟩
          · exact hmatch (hocc [] (c :: s) rfl h3)
          · rw [List.drop_zero] at hpre
            exact hbefore _ hmem hpre.isInfix
        · refine ih s (by simpa using hsl) ?_ ?_ h1
          · intro pre post hsplit hq
            exact hocc (c :: pre) post (by rw [hsplit]; rfl) hq
          · intro p hp hin
            exact hbefore p hp (hin.trans ⟨[c], [], by simp⟩)


/-- A replacement step brings no occurrence of `q` into a text without one, when
the replacement has no room for it and the text has no occurrence of `old` behind
one of the texts of `before`. -/
theorem ReplaceAll_no_new_of (old new q : GoString) (before : List GoString)
    (hold : old ≠ []) (hnew : new ≠ [])
    (hs : startsClear q new []) (he : endsClear q new before) (s : GoString)
    (h : ¬ q <:+: s) (hbefore : ∀ p ∈ before, ¬ (p ++ old) <:+: s) :
    ¬ q <:+: ReplaceAll s old new :=
  ReplaceAll_not_infix old new q before hold hnew hs he s.length s (Nat.le_refl _)
    (fun pre post hsplit hq => absurd (hsplit ▸ (hq.isInfix.trans ⟨pre, [], by simp⟩)) h)
    hbefore

/-- A replacement step brings no occurrence of `q` into a text without one, when
the replacement has no room for it. -/
theorem ReplaceAll_no_new (old new q : GoString) (hold : old ≠ []) (hnew : new ≠ [])
    (hs : startsClear q new []) (he : endsClear q new []) (s : GoString) (h : ¬ q <:+: s) :
    ¬ q <:+: ReplaceAll s old new :=
  ReplaceAll_no_new_of old new q [] hold hnew hs he s h (mem_nil_elim _)

/-- The replacement step of `old` leaves no occurrence of `old`, when the
replacement has no room for it. -/
theorem ReplaceAll_none_left (old new : GoString) (hold : old ≠ []) (hnew : new ≠ [])
    (hs : startsClear old new []) (he : endsClear old new []) (s : GoString) :
    ¬ old <:+: ReplaceAll s old new :=
  ReplaceAll_not_infix old new old [] hold hnew hs he s.length s (Nat.le_refl _)
    (fun _ _ _ hq => hq) (mem_nil_elim _)

/-- The result of `SubstituteExamplePaths` has no occurrence of its four
patterns. -/
theorem SubstituteExamplePaths_no_pattern (s : GoString) :
    ¬ str "../static/img/header-logo.png" <:+: SubstituteExamplePaths s ∧
    ¬ str "path/to/private.key" <:+: SubstituteExamplePaths s ∧
    ¬ str "path/to/id_rsa.pub" <:+: SubstituteExamplePaths s ∧
    ¬ str "path/to/certificate.crt" <:+: SubstituteExamplePaths s := by
  unfold SubstituteExamplePaths
  simp only []
  refine ⟨?_, ?_, ?_, ?_⟩
  · exact ReplaceAll_no_new (str "path/to/certificate.crt") (str "../static/ssl_cert/test.crt")
      (str "../static/img/header-logo.png") (by decide) (by decide) (by decide) (by decide) _
      (ReplaceAll_no_new (str "path/to/id_rsa.pub") (str "../static/ssh_rsa.pub")
        (str "../static/img/header-logo.png") (by decide) (by decide) (by decide) (by decide) _
        (ReplaceAll_no_new (str "path/to/private.key") (str "../static/ssl_cert/test.key")
          (str "../static/img/header-logo.png") (by decide) (by decide) (by decide) (by decide) _
          (ReplaceAll_none_left (str "../static/img/header-logo.png")
            (str "../static/header-logo.png") (by decide) (by decide) (by decide) (by decide) s)))
  · exact ReplaceAll_no_new (str "path/to/certificate.crt") (str "../static/ssl_cert/test.crt")
      (str "path/to/private.key") (by decide) (by decide) (by decide) (by decide) _
      (ReplaceAll_no_new (str "path/to/id_rsa.pub") (str "../static/ssh_rsa.pub")
        (str "path/to/private.key") (by decide) (by decide) (by decide) (by decide) _
        (ReplaceAll_none_left (str "path/to/private.key") (str "../static/ssl_cert/test.key")
          (by decide) (by decide) (by decide) (by decide) _))
  · exact ReplaceAll_no_new (str "path/to/certificate.crt") (str "../static/ssl_cert/test.crt")
      (str "path/to/id_rsa.pub") (by decide) (by decide) (by decide) (by decide) _
      (ReplaceAll_none_left (str "path/to/id_rsa.pub") (str "../static/ssh_rsa.pub")
        (by decide) (by decide) (by decide) (by decide) _)
  · exact ReplaceAll_none_left (str "path/to/certificate.crt") (str "../static/ssl_cert/test.crt")
      (by decide) (by decide) (by decide) (by decide) _

/-- `SubstituteExamplePaths` applied to its own result changes nothing. -/
theorem SubstituteExamplePaths_idempotent (s : GoString) :
    SubstituteExamplePaths (SubstituteExamplePaths s) = SubstituteExamplePaths s := by
  have h := SubstituteExamplePaths_no_pattern s
  generalize SubstituteExamplePaths s = u at h ⊢
  unfold SubstituteExamplePaths
  simp only []
  rw [ReplaceAll_eq_self _ _ u h.1, ReplaceAll_eq_self _ _ u h.2.1,
    ReplaceAll_eq_self _ _ u h.2.2.1, ReplaceAll_eq_self _ _ u h.2.2.2]

/-- The result of `SubstituteTestPaths` has no occurrence of five of its six
patterns: all but `"path/to/certificate.crt"`. -/
theorem SubstituteTestPaths_no_pattern (s : GoString) :
    ¬ str "../static/img/header-logo.png" <:+: SubstituteTestPaths s ∧
    ¬ str "path/to/private.key" <:+: SubstituteTestPaths s ∧
    ¬ str "path/to/index.zip" <:+: SubstituteTestPaths s ∧
    ¬ str "verified-domain.com" <:+: SubstituteTestPaths s ∧
    ¬ str "path/to/id_rsa.pub" <:+: SubstituteTestPaths s := by
  unfold SubstituteTestPaths
  simp only []
  refine ⟨?_, ?_, ?_, ?_, ?_⟩
  · exact ReplaceAll_no_new (str "path/to/id_rsa.pub") (str "test-fixtures/ssh_rsa.pub")
      (str "../static/img/header-logo.png") (by decide) (by decide) (by decide) (by decide) _
      (ReplaceAll_no_new (str "verified-domain.com")
        (str "tf-test-domain%{random_suffix}.gcp.tfacc.hashicorptest.com")
        (str "../static/img/header-logo.png") (by decide) (by decide) (by decide) (by decide) _
        (ReplaceAll_no_new (str "path/to/index.zip") (str "%{zip_path}")
          (str "../static/img/header-logo.png") (by decide) (by decide) (by decide) (by decide) _
          (ReplaceAll_no_new (str "path/to/certificate.crt") (str "test-fixtures/test.crt")
            (str "../static/img/header-logo.png") (by decide) (by decide) (by decide)
            (by decide) _
            (ReplaceAll_no_new (str "path/to/private.key") (str "test-fixtures/test.key")
              (str "../static/img/header-logo.png") (by decide) (by decide) (by decide)
              (by decide) _
              (ReplaceAll_none_left (str "../static/img/header-logo.png")
                (str "test-fixtures/header-logo.png") (by decide) (by decide) (by decide)
                (by decide) s)))))
  · exact ReplaceAll_no_new (str "path/to/id_rsa.pub") (str "test-fixtures/ssh_rsa.pub")
      (str "path/to/private.key") (by decide) (by decide) (by decide) (by decide) _
      (ReplaceAll_no_new (str "verified-domain.com")
        (str "tf-test-domain%{random_suffix}.gcp.tfacc.hashicorptest.com")
        (str "path/to/private.key") (by decide) (by decide) (by decide) (by decide) _
        (ReplaceAll_no_new (str "path/to/index.zip") (str "%{zip_path}")
          (str "path/to/private.key") (by decide) (by decide) (by decide) (by decide) _
          (ReplaceAll_no_new (str "path/to/certificate.crt") (str "test-fixtures/test.crt")
            (str "path/to/private.key") (by decide) (by decide) (by decide) (by decide) _
            (ReplaceAll_none_left (str "path/to/private.key") (str "test-fixtures/test.key")
              (by decide) (by decide) (by decide) (by decide) _))))
  · exact ReplaceAll_no_new (str "path/to/id_rsa.pub") (str "test-fixtures/ssh_rsa.pub")
      (str "path/to/index.zip") (by decide) (by decide) (by decide) (by decide) _
      (ReplaceAll_no_new (str "verified-domain.com")
        (str "tf-test-domain%{random_suffix}.gcp.tfacc.hashicorptest.com")
        (str "path/to/index.zip") (by decide) (by decide) (by decide) (by decide) _
        (ReplaceAll_none_left (str "path/to/index.zip") (str "%{zip_path}")
          (by decide) (by decide) (by decide) (by decide) _))
  · exact ReplaceAll_no_new (str "path/to/id_rsa.pub") (str "test-fixtures/ssh_rsa.pub")
      (str "verified-domain.com") (by decide) (by decide) (by decide) (by decide) _
      (ReplaceAll_none_left (str "verified-domain.com")
        (str "tf-test-domain%{random_suffix}.gcp.tfacc.hashicorptest.com")
        (by decide) (by decide) (by decide) (by decide) _)
  · exact ReplaceAll_none_left (str "path/to/id_rsa.pub") (str "test-fixtures/ssh_rsa.pub")
      (by decide) (by decide) (by decide) (by decide) _


/-- `SubstituteTestPaths` applied to its own result changes nothing exactly when
that result has no occurrence of `"path/to/certificate.crt"`. -/
theorem SubstituteTestPaths_idempotent_iff (s : GoString) :
    SubstituteTestPaths (SubstituteTestPaths s) = SubstituteTestPaths s ↔
      ¬ str "path/to/certificate.crt" <:+: SubstituteTestPaths s := by
  have h := SubstituteTestPaths_no_pattern s
  generalize SubstituteTestPaths s = u at h ⊢
  obtain ⟨hlogo, hkey, hzip, hdom, hidr⟩ := h
  constructor
  · intro heq hcrt
    have hz := ReplaceAll_no_new (str "path/to/certificate.crt") (str "test-fixtures/test.crt")
      (str "path/to/index.zip") (by decide) (by decide) (by decide) (by decide) u hzip
    have hd := ReplaceAll_no_new (str "path/to/certificate.crt") (str "test-fixtures/test.crt")
      (str "verified-domain.com") (by decide) (by decide) (by decide) (by decide) u hdom
    have hi := ReplaceAll_no_new (str "path/to/certificate.crt") (str "test-fixtures/test.crt")
      (str "path/to/id_rsa.pub") (by decide) (by decide) (by decide) (by decide) u hidr
    unfold SubstituteTestPaths at heq
    simp only [] at heq
    rw [ReplaceAll_eq_self _ _ u hlogo, ReplaceAll_eq_self _ _ u hkey,
      ReplaceAll_eq_self _ _ _ hz, ReplaceAll_eq_self _ _ _ hd, ReplaceAll_eq_self _ _ _ hi]
      at heq
    obtain ⟨pre, post, hu⟩ := hcrt
    have hlt := length_ReplaceAll_lt (str "path/to/certificate.crt")
      (str "test-fixtures/test.crt") (by decide) (by decide) pre
      (str "path/to/certificate.crt" ++ post) (List.prefix_append _ _)
    rw [← List.append_assoc, hu, heq] at hlt
    exact Nat.lt_irrefl _ hlt
  · intro hcrt
    unfold SubstituteTestPaths
    simp only []
    rw [ReplaceAll_eq_self _ _ u hlogo, ReplaceAll_eq_self _ _ u hkey,
      ReplaceAll_eq_self _ _ u hcrt, ReplaceAll_eq_self _ _ u hzip,
      ReplaceAll_eq_self _ _ u hdom, ReplaceAll_eq_self _ _ u hidr]

/-- The result of `SubstituteTestPaths` has no occurrence of
`"path/to/certificate.crt"` when in the text `"path/to/certificate.cr"` is never
followed by `p` or `v`, the first bytes of the other placeholders. -/
theorem SubstituteTestPaths_no_certificate (s : GoString)
    (hp : ¬ str "path/to/certificate.crp" <:+: s)
    (hv : ¬ str "path/to/certificate.crv" <:+: s) :
    ¬ str "path/to/certificate.crt" <:+: SubstituteTestPaths s := by
  have hp1 := ReplaceAll_no_new (str "../static/img/header-logo.png")
    (str "test-fixtures/header-logo.png") (str "path/to/certificate.crp")
    (by decide) (by decide) (by decide) (by decide) s hp
  have hp2 := ReplaceAll_no_new (str "path/to/private.key") (str "test-fixtures/test.key")
    (str "path/to/certificate.crp") (by decide) (by decide) (by decide) (by decide) _ hp1
  have hp3 := ReplaceAll_no_new (str "path/to/certificate.crt") (str "test-fixtures/test.crt")
    (str "path/to/certificate.crp") (by decide) (by decide) (by decide) (by decide) _ hp2
  have hp4 := ReplaceAll_no_new (str "path/to/index.zip") (str "%{zip_path}")
    (str "path/to/certificate.crp") (by decide) (by decide) (by decide) (by decide) _ hp3
  have hp5 := ReplaceAll_no_new (str "verified-domain.com")
    (str "tf-test-domain%{random_suffix}.gcp.tfacc.hashicorptest.com")
    (str "path/to/certificate.crp") (by decide) (by decide) (by decide) (by decide) _ hp4
  have hv1 := ReplaceAll_no_new (str "../static/img/header-logo.png")
    (str "test-fixtures/header-logo.png") (str "path/to/certificate.crv")
    (by decide) (by decide) (by decide) (by decide) s hv
  have hv2 := ReplaceAll_no_new (str "path/to/private.key") (str "test-fixtures/test.key")
    (str "path/to/certificate.crv") (by decide) (by decide) (by decide) (by decide) _ hv1
  have hv3 := ReplaceAll_no_new (str "path/to/certificate.crt") (str "test-fixtures/test.crt")
    (str "path/to/certificate.crv") (by decide) (by decide) (by decide) (by decide) _ hv2
  have hv4 := ReplaceAll_no_new (str "path/to/index.zip") (str "%{zip_path}")
    (str "path/to/certificate.crv") (by decide) (by decide) (by decide) (by decide) _ hv3
  have hc3 : ¬ str "path/to/certificate.crt" <:+: ReplaceAll _ (str "path/to/certificate.crt")
      (str "test-fixtures/test.crt") :=
    ReplaceAll_not_infix (str "path/to/certificate.crt") (str "test-fixtures/test.crt")
      (str "path/to/certificate.crt") [str "path/to/certificate.cr"]
      (by decide) (by decide) (by decide) (by decide) _ _ (Nat.le_refl _)
      (fun _ _ _ hq => hq)
      (mem_singleton_elim _ _ (fun hin => hp2
        ((by decide : str "path/to/certificate.crp"
          <:+: str "path/to/certificate.cr" ++ str "path/to/certificate.crt").trans hin)))
  have hc4 := ReplaceAll_no_new (str "path/to/index.zip") (str "%{zip_path}")
    (str "path/to/certificate.crt") (by decide) (by decide) (by decide) (by decide) _ hc3
  have hc5 := ReplaceAll_no_new_of (str "verified-domain.com")
    (str "tf-test-domain%{random_suffix}.gcp.tfacc.hashicorptest.com")
    (str "path/to/certificate.crt") [str "path/to/certificate.cr"]
    (by decide) (by decide) (by decide) (by decide) _ hc4
    (mem_singleton_elim _ _ (fun hin => hv4
      ((by decide : str "path/to/certificate.crv"
        <:+: str "path/to/certificate.cr" ++ str "verified-domain.com").trans hin)))
  exact ReplaceAll_no_new_of (str "path/to/id_rsa.pub") (str "test-fixtures/ssh_rsa.pub")
    (str "path/to/certificate.crt") [str "path/to/certificate.cr"]
    (by decide) (by decide) (by decide) (by decide) _ hc5
    (mem_singleton_elim _ _ (fun hin => hp5
      ((by decide : str "path/to/certificate.crp"
        <:+: str "path/to/certificate.cr" ++ str "path/to/id_rsa.pub").trans hin)))

/-- C21 (as stated, refuted).  In `"path/to/certificate.crpath/to/id_rsa.pub"` the
last step of `SubstituteTestPaths` puts `"test-fixtures/ssh_rsa.pub"` behind
`"path/to/certificate.cr"`: the result holds `"path/to/certificate.crt"`, a
pattern of an earlier step, and a second application rewrites it. -/
theorem C21_counterexample :
    SubstituteTestPaths (str "path/to/certificate.crpath/to/id_rsa.pub")
      = str "path/to/certificate.crtest-fixtures/ssh_rsa.pub" ∧
    str "path/to/certificate.crt"
      <:+: SubstituteTestPaths (str "path/to/certificate.crpath/to/id_rsa.pub") ∧
    SubstituteTestPaths (SubstituteTestPaths (str "path/to/certificate.crpath/to/id_rsa.pub"))
      = str "test-fixtures/test.crtest-fixtures/ssh_rsa.pub" ∧
    SubstituteTestPaths (SubstituteTestPaths (str "path/to/certificate.crpath/to/id_rsa.pub"))
      ≠ SubstituteTestPaths (str "path/to/certificate.crpath/to/id_rsa.pub") := by
  decide

/-- C21 (amended).  For every text the result of `SubstituteExamplePaths` has no
occurrence of its four patterns, and applying it twice gives the same text as
applying it once.  The result of `SubstituteTestPaths` has no occurrence of its
patterns other than `"path/to/certificate.crt"`; applying it twice gives the same
text as applying it once exactly when the result has no occurrence of
`"path/to/certificate.crt"`, which is so for every text in which
`"path/to/certificate.cr"` is never followed by `p` or by `v`. -/
theorem C21_substitution_complete :
    (∀ s : GoString,
      (¬ str "../static/img/header-logo.png" <:+: SubstituteExamplePaths s ∧
        ¬ str "path/to/private.key" <:+: SubstituteExamplePaths s ∧
        ¬ str "path/to/id_rsa.pub" <:+: SubstituteExamplePaths s ∧
        ¬ str "path/to/certificate.crt" <:+: SubstituteExamplePaths s) ∧
      SubstituteExamplePaths (SubstituteExamplePaths s) = SubstituteExamplePaths s) ∧
    (∀ s : GoString,
      (¬ str "../static/img/header-logo.png" <:+: SubstituteTestPaths s ∧
        ¬ str "path/to/private.key" <:+: SubstituteTestPaths s ∧
        ¬ str "path/to/index.zip" <:+: SubstituteTestPaths s ∧
        ¬ str "verified-domain.com" <:+: SubstituteTestPaths s ∧
        ¬ str "path/to/id_rsa.pub" <:+: SubstituteTestPaths s) ∧
      (SubstituteTestPaths (SubstituteTestPaths s) = SubstituteTestPaths s ↔
        ¬ str "path/to/certificate.crt" <:+: SubstituteTestPaths s)) ∧
    (∀ s : GoString,
      ¬ str "path/to/certificate.crp" <:+: s → ¬ str "path/to/certificate.crv" <:+: s →
      ¬ str "path/to/certificate.crt" <:+: SubstituteTestPaths s ∧
      SubstituteTestPaths (SubstituteTestPaths s) = SubstituteTestPaths s) :=
  ⟨fun s => ⟨SubstituteExamplePaths_no_pattern s, SubstituteExamplePaths_idempotent s⟩,
   fun s => ⟨SubstituteTestPaths_no_pattern s, SubstituteTestPaths_idempotent_iff s⟩,
   fun s hp hv => ⟨SubstituteTestPaths_no_certificate s hp hv,
    (SubstituteTestPaths_idempotent_iff s).mpr (SubstituteTestPaths_no_certificate s hp hv)⟩⟩

/-- C21 (amended) on a text with the certificate placeholder. -/
theorem C21_substitution_complete_witness :
    SubstituteTestPaths (str "crt = path/to/certificate.crt\n")
      = str "crt = test-fixtures/test.crt\n" ∧
    ¬ str "path/to/certificate.crt"
      <:+: SubstituteTestPaths (str "crt = path/to/certificate.crt\n") ∧
    SubstituteTestPaths (SubstituteTestPaths (str "crt = path/to/certificate.crt\n"))
      = SubstituteTestPaths (str "crt = path/to/certificate.crt\n") :=
  ⟨by decide,
   C21_substitution_complete.2.2 (str "crt = path/to/certificate.crt\n")
    (by decide) (by decide)⟩

end MagicModules
